import Mathlib

/-!
# AIM-LAB-OpenGL: scene objects, OBJ loading and click hit-testing

A shallow embedding of `OpenGL/main.cpp`, `OpenGL/Sphere.cpp` and
`OpenGL/Model.cpp`.  C++ `float` values are modelled by an arbitrary ordered
field `K`; the `<cmath>` functions are passed in as a `Libm K` record, so every
definition is executable over `ℚ` and is read over `ℝ` in the theorems.
-/

namespace AimLab

/-! ## glm vectors -/

/-- The type `glm::vec3`. -/
structure Vec3 (K : Type) where
  x : K
  y : K
  z : K
deriving DecidableEq, Repr

/-- The type `glm::vec2`. -/
structure Vec2 (K : Type) where
  x : K
  y : K
deriving DecidableEq, Repr

/-- The `<cmath>` functions and the constant `M_PI` used by the program. -/
structure Libm (K : Type) where
  pi : K
  cos : K → K
  sin : K → K
  sqrt : K → K

namespace Vec3

variable {K : Type}

/-- The constructor `glm::vec3(s)` with all three components equal. -/
def splat (s : K) : Vec3 K := ⟨s, s, s⟩

/-- Componentwise `operator+`. -/
def add [Add K] (u v : Vec3 K) : Vec3 K := ⟨u.x + v.x, u.y + v.y, u.z + v.z⟩

/-- Componentwise `operator-`. -/
def sub [Sub K] (u v : Vec3 K) : Vec3 K := ⟨u.x - v.x, u.y - v.y, u.z - v.z⟩

/-- Scalar multiple `s * v`. -/
def smul [Mul K] (s : K) (v : Vec3 K) : Vec3 K := ⟨s * v.x, s * v.y, s * v.z⟩

/-- The function `glm::dot`. -/
def dot [Add K] [Mul K] (u v : Vec3 K) : K := u.x * v.x + u.y * v.y + u.z * v.z

/-- The function `glm::length`: `sqrt(dot(v, v))`. -/
def length [Add K] [Mul K] (M : Libm K) (v : Vec3 K) : K := M.sqrt (dot v v)

/-- The function `glm::normalize`: `v * inversesqrt(dot(v, v))`. -/
def normalize [Add K] [Mul K] [One K] [Div K] (M : Libm K) (v : Vec3 K) : Vec3 K :=
  smul (1 / M.sqrt (dot v v)) v

end Vec3

/-! ## Machine integers -/

/-- Reduction of a natural number to the range of `unsigned int` (32 bits). -/
def u32 (n : Nat) : Nat := n % 4294967296

/-- Two's-complement reduction of an integer to the range of `int` (32 bits). -/
def i32 (n : Int) : Int := (n + 2147483648) % 4294967296 - 2147483648

/-! ## OpenGL object names -/

/-- The OpenGL calls of the program that create or destroy an object name. -/
inductive GLCall where
  | genVertexArray (name : Nat)
  | deleteVertexArray (name : Nat)
  | genBuffer (name : Nat)
  | deleteBuffer (name : Nat)
deriving DecidableEq, Repr

/-- The part of the OpenGL context that the scene objects touch: the next unused vertex-array
and buffer names, and the trace of name-creating and name-destroying calls, oldest first. -/
structure GLState where
  nextVertexArray : Nat
  nextBuffer : Nat
  calls : List GLCall
deriving DecidableEq, Repr

namespace GLState

/-- The call `glGenVertexArrays(1, &name)`: returns a name that is not in use. -/
def genVertexArray (gl : GLState) : Nat × GLState :=
  (gl.nextVertexArray,
    { gl with nextVertexArray := gl.nextVertexArray + 1,
              calls := gl.calls ++ [GLCall.genVertexArray gl.nextVertexArray] })

/-- The call `glGenBuffers(1, &name)`: returns a name that is not in use. -/
def genBuffer (gl : GLState) : Nat × GLState :=
  (gl.nextBuffer,
    { gl with nextBuffer := gl.nextBuffer + 1,
              calls := gl.calls ++ [GLCall.genBuffer gl.nextBuffer] })

/-- The call `glDeleteVertexArrays(1, &name)`. -/
def deleteVertexArray (gl : GLState) (name : Nat) : GLState :=
  { gl with calls := gl.calls ++ [GLCall.deleteVertexArray name] }

/-- The call `glDeleteBuffers(1, &name)`. -/
def deleteBuffer (gl : GLState) (name : Nat) : GLState :=
  { gl with calls := gl.calls ++ [GLCall.deleteBuffer name] }

end GLState

/-! ## Sphere (`Sphere.h`, `Sphere.cpp`) -/

/-- The class `Sphere`.  `sectorCount` and `stackCount` are the `unsigned int` members
`sectors` and `stacks`; `vertices` is the
interleaved float buffer (nine floats per vertex) and `indices` the element buffer. -/
structure Sphere (K : Type) where
  position : Vec3 K
  radius : K
  sectorCount : Nat
  stackCount : Nat
  color : Vec3 K
  VAO : Nat
  VBO : Nat
  EBO : Nat
  vertices : List K
  indices : List Nat
  isSetup : Bool
deriving DecidableEq, Repr

namespace Sphere

variable {K : Type} [Field K]

/-- The method `Sphere::generateVertices`.  The two counting loops `i <= stacks` and
`j <= sectors` run `stacks + 1` and `sectors + 1` times (they terminate in C++ when the counts
are below the largest `unsigned int`); `k1` and `k2` are carried through the inner index
loop as in the source, with `unsigned int` arithmetic. -/
def generateVertices (M : Libm K) (s : Sphere K) : Sphere K :=
  let sectorStep : K := 2 * M.pi / (s.sectorCount : K)
  let stackStep : K := M.pi / (s.stackCount : K)
  let vertices : List K :=
    (List.range (s.stackCount + 1)).foldl (fun (vertices : List K) (i : Nat) =>
      let stackAngle := M.pi / 2 - (i : K) * stackStep
      let xy := s.radius * M.cos stackAngle
      let z := s.radius * M.sin stackAngle
      (List.range (s.sectorCount + 1)).foldl (fun (vertices : List K) (j : Nat) =>
        let sectorAngle := (j : K) * sectorStep
        let x := xy * M.cos sectorAngle
        let y := xy * M.sin sectorAngle
        let normal := Vec3.normalize M ⟨x, y, z⟩
        vertices ++ [x + s.position.x, y + s.position.y, z + s.position.z,
                     normal.x, normal.y, normal.z,
                     s.color.x, s.color.y, s.color.z]) vertices) []
  let indices : List Nat :=
    (List.range s.stackCount).foldl (fun (indices : List Nat) (i : Nat) =>
      let k1 := u32 (i * u32 (s.sectorCount + 1))
      let k2 := u32 (u32 (k1 + s.sectorCount) + 1)
      ((List.range s.sectorCount).foldl (fun (st : List Nat × Nat × Nat) _ =>
        let indices := st.1
        let k1 := st.2.1
        let k2 := st.2.2
        let indices := if i ≠ 0 then indices ++ [k1, k2, u32 (k1 + 1)] else indices
        let indices :=
          if i ≠ u32 (s.stackCount + 4294967295) then indices ++ [u32 (k1 + 1), k2, u32 (k2 + 1)]
          else indices
        (indices, u32 (k1 + 1), u32 (k2 + 1))) (indices, k1, k2)).1) []
  { s with vertices := vertices, indices := indices }

/-- The constructor `Sphere::Sphere(position, radius, sectors, stacks)`. -/
def new (M : Libm K) (position : Vec3 K) (radius : K) (sectorCount stackCount : Nat) : Sphere K :=
  generateVertices M
    { position := position, radius := radius, sectorCount := sectorCount, stackCount := stackCount,
      color := Vec3.splat 1, VAO := 0, VBO := 0, EBO := 0,
      vertices := [], indices := [], isSetup := false }

/-- The method `Sphere::setup`: releases the previous object names when the sphere was
already set up, then creates the vertex array, the vertex buffer and the element buffer. -/
def setup (s : Sphere K) (gl : GLState) : Sphere K × GLState :=
  let gl :=
    if s.isSetup then
      GLState.deleteBuffer (GLState.deleteBuffer (GLState.deleteVertexArray gl s.VAO) s.VBO) s.EBO
    else gl
  let (vao, gl) := GLState.genVertexArray gl
  let (vbo, gl) := GLState.genBuffer gl
  let (ebo, gl) := GLState.genBuffer gl
  ({ s with VAO := vao, VBO := vbo, EBO := ebo, isSetup := true }, gl)

/-- The method `Sphere::setPosition`. -/
def setPosition (M : Libm K) (newPosition : Vec3 K) (s : Sphere K) (gl : GLState) : Sphere K × GLState :=
  let s := generateVertices M { s with position := newPosition }
  if s.isSetup then setup s gl else (s, gl)

/-- The method `Sphere::setRadius`. -/
def setRadius (M : Libm K) (newRadius : K) (s : Sphere K) (gl : GLState) : Sphere K × GLState :=
  let s := generateVertices M { s with radius := newRadius }
  if s.isSetup then setup s gl else (s, gl)

/-- The method `Sphere::setColor`. -/
def setColor (M : Libm K) (newColor : Vec3 K) (s : Sphere K) (gl : GLState) : Sphere K × GLState :=
  let s := generateVertices M { s with color := newColor }
  if s.isSetup then setup s gl else (s, gl)

/-- The method `Sphere::getPosition`. -/
def getPosition (s : Sphere K) : Vec3 K := s.position

/-- The method `Sphere::getRadius`. -/
def getRadius (s : Sphere K) : K := s.radius

/-- The method `Sphere::getColor`. -/
def getColor (s : Sphere K) : Vec3 K := s.color

/-- Position attribute of vertex `k` of the interleaved buffer (attribute 0 of `setup`:
three floats at offset 0 of a nine-float stride). -/
def vertexPosition (s : Sphere K) (k : Nat) : Vec3 K :=
  ⟨s.vertices.getD (9 * k) 0, s.vertices.getD (9 * k + 1) 0, s.vertices.getD (9 * k + 2) 0⟩

/-- Normal attribute of vertex `k` of the interleaved buffer (attribute 1 of `setup`: three
floats at offset 3 of a nine-float stride). -/
def vertexNormal (s : Sphere K) (k : Nat) : Vec3 K :=
  ⟨s.vertices.getD (9 * k + 3) 0, s.vertices.getD (9 * k + 4) 0, s.vertices.getD (9 * k + 5) 0⟩

/-- Colour attribute of vertex `k` of the interleaved buffer (attribute 2 of `setup`: three
floats at offset 6 of a nine-float stride). -/
def vertexColor (s : Sphere K) (k : Nat) : Vec3 K :=
  ⟨s.vertices.getD (9 * k + 6) 0, s.vertices.getD (9 * k + 7) 0, s.vertices.getD (9 * k + 8) 0⟩

end Sphere

namespace Sphere

variable {K : Type} [Field K]

/-- The nine floats pushed for stack ring `i` and sector column `j` by the vertex loop of
`Sphere::generateVertices`. -/
def vertexRecord (M : Libm K) (s : Sphere K) (i j : Nat) : List K :=
  let sectorStep : K := 2 * M.pi / (s.sectorCount : K)
  let stackStep : K := M.pi / (s.stackCount : K)
  let stackAngle := M.pi / 2 - (i : K) * stackStep
  let xy := s.radius * M.cos stackAngle
  let z := s.radius * M.sin stackAngle
  let sectorAngle := (j : K) * sectorStep
  let x := xy * M.cos sectorAngle
  let y := xy * M.sin sectorAngle
  let normal := Vec3.normalize M ⟨x, y, z⟩
  [x + s.position.x, y + s.position.y, z + s.position.z,
   normal.x, normal.y, normal.z,
   s.color.x, s.color.y, s.color.z]

end Sphere

/-! ## Ray-sphere intersection (`main.cpp`) -/

/-- The function `raySphereIntersection` of `main.cpp`.  The result is `none` when the C++
function returns `false` and `some t` when it returns `true` after writing `t` to `*t_out`.
The `float` operations are read here as the exact operations of the ordered field `K`, so the
theorems about this definition are theorems over the reals; `raySphereIntersection32` below is
the same function with every operation rounded to binary32. -/
def raySphereIntersection {K : Type} [LinearOrderedField K] (M : Libm K)
    (rayOrigin rayDir sphereCenter : Vec3 K) (sphereRadius : K) : Option K :=
  let oc := Vec3.sub rayOrigin sphereCenter
  let a := Vec3.dot rayDir rayDir
  let b := 2 * Vec3.dot oc rayDir
  let c := Vec3.dot oc oc - sphereRadius * sphereRadius
  let discriminant := b * b - 4 * a * c
  if discriminant < 0 then none
  else
    let sqrtDiscriminant := M.sqrt discriminant
    let t1 := (-b - sqrtDiscriminant) / (2 * a)
    let t2 := (-b + sqrtDiscriminant) / (2 * a)
    let t := if t1 > 0 then t1 else t2
    if t > 0 then some t else none

/-- The point `rayOrigin + t * rayDir` of the ray (the `intersectionPoint` of `main.cpp`). -/
def rayPoint {K : Type} [Add K] [Mul K] (rayOrigin rayDir : Vec3 K) (t : K) : Vec3 K :=
  Vec3.add rayOrigin (Vec3.smul t rayDir)

/-- The ray point at parameter `t` lies on the sphere: its distance to the centre is the
radius. -/
def OnSphere {K : Type} [Add K] [Sub K] [Mul K] (M : Libm K)
    (rayOrigin rayDir sphereCenter : Vec3 K) (sphereRadius t : K) : Prop :=
  Vec3.length M (Vec3.sub (rayPoint rayOrigin rayDir t) sphereCenter) = sphereRadius

/-! ## Click handling (`main.cpp`) -/

/-- The GLFW constant `GLFW_MOUSE_BUTTON_LEFT`. -/
def GLFW_MOUSE_BUTTON_LEFT : Int := 0

/-- The GLFW constant `GLFW_PRESS`. -/
def GLFW_PRESS : Int := 1

/-- The `<cfloat>` constant `FLT_MAX`, `(2^24 - 1) * 2^104`. -/
def FLT_MAX {K : Type} [Field K] : K := 340282346638528859811704183484516925440

/-- The global state read and written by the click handler: `score`, `cameraPos`,
`cameraFront`, the sphere list behind the window user pointer (`none` for a null pointer)
and the OpenGL context. -/
structure Game (K : Type) where
  score : Int
  cameraPos : Vec3 K
  cameraFront : Vec3 K
  spheres : Option (List (Sphere K))
  gl : GLState
deriving DecidableEq, Repr

/-- The values that `generateRandomPosition()`, `generateRandomColor()` and
`generateRandomSize()` return, in this order, when a hit sphere is respawned. -/
structure Respawn (K : Type) where
  position : Vec3 K
  color : Vec3 K
  size : K
deriving DecidableEq, Repr

/-- The local variables of the hit-resolution loop of `mouse_button_callback`. -/
structure ClickScan (K : Type) where
  hitAny : Bool
  closestDistance : K
  closestSphereIndex : Int
  hitDistance : K
deriving DecidableEq, Repr

section Click

variable {K : Type} [LinearOrderedField K]

/-- The hit test that the click handler runs for one sphere: the camera ray against the
sphere's position with radius `getRadius() + 1.0f`. -/
def clickHit (M : Libm K) (g : Game K) (sphere : Sphere K) : Option K :=
  raySphereIntersection M g.cameraPos (Vec3.normalize M g.cameraFront)
    sphere.getPosition (sphere.getRadius + 1)

/-- One iteration of the loop `for (size_t i = 0; i < spheres->size(); ++i)`. -/
def clickStep (M : Libm K) (g : Game K) (st : ClickScan K) (entry : Nat × Sphere K) :
    ClickScan K :=
  match clickHit M g entry.2 with
  | some t =>
    if t < st.closestDistance then
      { closestDistance := t, closestSphereIndex := i32 (entry.1 : Int),
        hitDistance := t, hitAny := true }
    else st
  | none => st

/-- The hit-resolution loop of `mouse_button_callback` over all spheres. -/
def clickScan (M : Libm K) (g : Game K) (spheres : List (Sphere K)) : ClickScan K :=
  spheres.enum.foldl (clickStep M g)
    { hitAny := false, closestDistance := FLT_MAX, closestSphereIndex := -1, hitDistance := 0 }

/-- The respawn of a hit sphere: `setPosition`, `setColor`, `setRadius` with the random
values, in the order of the source. -/
def respawn (M : Libm K) (rnd : Respawn K) (hitSphere : Sphere K) (gl : GLState) :
    Sphere K × GLState :=
  let (s, gl) := Sphere.setPosition M rnd.position hitSphere gl
  let (s, gl) := Sphere.setColor M rnd.color s gl
  Sphere.setRadius M rnd.size s gl

/-- The function `mouse_button_callback`.  `rnd` holds the random values drawn when a
sphere is respawned; `score += 10` is 32-bit `int` arithmetic. -/
def mouse_button_callback (M : Libm K) (rnd : Respawn K) (button action : Int)
    (g : Game K) : Game K :=
  if button = GLFW_MOUSE_BUTTON_LEFT ∧ action = GLFW_PRESS then
    match g.spheres with
    | none => g
    | some spheres =>
      if !spheres.isEmpty then
        let st := clickScan M g spheres
        if st.hitAny ∧ st.closestSphereIndex ≥ 0 then
          match spheres[st.closestSphereIndex.toNat]? with
          | none => g
          | some hitSphere =>
            let (hitSphere, gl) := respawn M rnd hitSphere g.gl
            { g with score := i32 (g.score + 10),
                     spheres := some (spheres.set st.closestSphereIndex.toNat hitSphere),
                     gl := gl }
        else g
      else g
  else g

end Click

/-- The distance from the sphere centre to the closest point of the ray's line, as computed
by `Hitting` in `main.cpp` (`distToCenter`, for a normalized `rayDir`). -/
def distToCenter {K : Type} [Field K] (M : Libm K)
    (rayOrigin rayDir sphereCenter : Vec3 K) : K :=
  let toCenter := Vec3.sub sphereCenter rayOrigin
  let projection := Vec3.dot toCenter rayDir
  let closestPoint := Vec3.add rayOrigin (Vec3.smul projection rayDir)
  Vec3.length M (Vec3.sub closestPoint sphereCenter)

/-- The spec's click-resolution scenario: the camera at the origin looks along `-z` at two
spheres, the first hit at `t = 7` and the second at `t = 3` (hit radii 3 and 2). -/
def twoSphereGame (K : Type) [Field K] (M : Libm K) : Game K :=
  { score := 0, cameraPos := ⟨0, 0, 0⟩, cameraFront := ⟨0, 0, -1⟩,
    spheres := some [Sphere.new M ⟨0, 0, -10⟩ 2 3 2, Sphere.new M ⟨0, 0, -5⟩ 1 3 2],
    gl := ⟨1, 1, []⟩ }

/-- The sphere that `main` creates: `Sphere(testPosition, testRadius, 36, 18)` at
`(0,0,-2)` with radius 0.5, followed by `setColor(testColor)` and `setup()`. -/
def testSphere (K : Type) [Field K] (M : Libm K) (gl : GLState) : Sphere K × GLState :=
  let (s, gl) := Sphere.setColor M ⟨1, 0, 0⟩ (Sphere.new M ⟨0, 0, -2⟩ (1 / 2) 36 18) gl
  Sphere.setup s gl

/-- A near miss in the program's own scene: the test sphere of `main`, and the camera moved
sideways from its initial `(0,0,3)` to `(9/10,0,3)`, still looking along `-z`; the line of
sight passes the sphere's centre at distance `9/10`. -/
def nearMissGame (K : Type) [Field K] (M : Libm K) : Game K :=
  { score := 0, cameraPos := ⟨9 / 10, 0, 3⟩, cameraFront := ⟨0, 0, -1⟩,
    spheres := some [(testSphere K M ⟨1, 1, []⟩).1],
    gl := (testSphere K M ⟨1, 1, []⟩).2 }

/-! ## Input streams (`<sstream>`, `<string>`) -/

/-- The state of a `std::istringstream`: the characters not yet extracted, and the `eofbit`
and `failbit` flags. -/
structure IStream where
  rest : List Char
  eof : Bool
  fail : Bool
deriving DecidableEq, Repr

/-- The exceptions thrown by `std::stoi`. -/
inductive CppException where
  | invalid_argument
  | out_of_range
deriving DecidableEq, Repr

/-- The function `isspace` in the "C" locale. -/
def isSpace (c : Char) : Bool :=
  c = ' ' || c = '\t' || c = '\n' || c = '\x0b' || c = '\x0c' || c = '\r'

namespace IStream

/-- A fresh `std::istringstream` over the given characters. -/
def ofChars (cs : List Char) : IStream := ⟨cs, false, false⟩

/-- The member `good()`. -/
def good (s : IStream) : Bool := !s.eof && !s.fail

/-- The extraction `is >> str` of a `std::string`: skips white space, then reads up to the
next white space.  When the stream is not good, or holds only white space, `failbit` is set
and `str` keeps its value. -/
def readWord (s : IStream) (str : List Char) : IStream × List Char :=
  if !s.good then ({ s with fail := true }, str)
  else
    match s.rest.dropWhile isSpace with
    | [] => ({ rest := [], eof := true, fail := true }, str)
    | c :: cs =>
      let tail := (c :: cs).dropWhile (fun ch => !isSpace ch)
      ({ rest := tail, eof := tail.isEmpty, fail := false },
        (c :: cs).takeWhile (fun ch => !isSpace ch))

/-- The function `std::getline(is, str, delim)`: reads up to the delimiter, which is
extracted and dropped.  When the stream is not good `failbit` is set and `str` keeps its
value; when nothing at all is extracted `failbit` is set and `str` is empty. -/
def getline (s : IStream) (str : List Char) (delim : Char) : IStream × List Char :=
  if !s.good then ({ s with fail := true }, str)
  else
    match s.rest.dropWhile (fun ch => ch != delim) with
    | [] =>
      ({ rest := [], eof := true, fail := s.rest.isEmpty },
        s.rest.takeWhile (fun ch => ch != delim))
    | _ :: tail =>
      ({ rest := tail, eof := false, fail := false },
        s.rest.takeWhile (fun ch => ch != delim))

end IStream

/-- The lines that the loop `while (std::getline(file, line))` reads from a file with the
given content; `cur` holds the current line's characters, last first. -/
def fileLinesFrom (cur : List Char) : List Char → List (List Char)
  | [] => if cur.isEmpty then [] else [cur.reverse]
  | c :: cs => if c = '\n' then cur.reverse :: fileLinesFrom [] cs else fileLinesFrom (c :: cur) cs

/-- The lines that the loop `while (std::getline(file, line))` reads from a file. -/
def fileLines (content : List Char) : List (List Char) := fileLinesFrom [] content

/-- The function `std::stoi(str)`: optional white space, an optional sign, then decimal
digits; throws `std::invalid_argument` when there is no digit and `std::out_of_range` when
the value does not fit an `int`.  Characters after the digits are ignored. -/
def stoi (str : List Char) : Except CppException Int :=
  let s := str.dropWhile isSpace
  let negative := s.head? = some '-'
  let s := if s.head? = some '-' ∨ s.head? = some '+' then s.tail else s
  let digits := s.takeWhile Char.isDigit
  if digits.isEmpty then Except.error CppException.invalid_argument
  else
    let magnitude : Nat := digits.foldl (fun acc ch => 10 * acc + (ch.toNat - 48)) 0
    let value : Int := if negative then -(magnitude : Int) else (magnitude : Int)
    if value < -2147483648 ∨ 2147483647 < value then Except.error CppException.out_of_range
    else Except.ok value

/-! ## Model loading (`Model.h`, `Model.cpp`) -/

/-- The struct `Vertex` of `Model.h`. -/
structure Vertex (K : Type) where
  position : Vec3 K
  normal : Vec3 K
  texCoords : Vec2 K
deriving DecidableEq, Repr

/-- The class `Mesh` of `Model.h`. -/
structure Mesh (K : Type) where
  vertices : List (Vertex K)
  indices : List Nat
  VAO : Nat
  VBO : Nat
  EBO : Nat
deriving DecidableEq, Repr

/-- The constructor `Mesh::Mesh(vertices, indices)` with its call of `setupMesh`, which
creates the vertex array, the vertex buffer and the element buffer. -/
def Mesh.new {K : Type} (vertices : List (Vertex K)) (indices : List Nat) (gl : GLState) :
    Mesh K × GLState :=
  let (vao, gl) := GLState.genVertexArray gl
  let (vbo, gl) := GLState.genBuffer gl
  let (ebo, gl) := GLState.genBuffer gl
  ({ vertices := vertices, indices := indices, VAO := vao, VBO := vbo, EBO := ebo }, gl)

/-- The float extractions of `loadModel` (`iss >> vertex.x >> vertex.y >> vertex.z` and
`iss >> texCoord.x >> texCoord.y`), as functions of the stream left after the line's first
word.  The standard library's float parser is a parameter of the model. -/
structure FloatReader (K : Type) where
  vec3 : IStream → Vec3 K
  vec2 : IStream → Vec2 K

/-- The local variables of `Model::loadModel`. -/
structure LoadState (K : Type) where
  vertices : List (Vec3 K)
  normals : List (Vec3 K)
  texCoords : List (Vec2 K)
  finalVertices : List (Vertex K)
  indices : List Nat
deriving DecidableEq, Repr

section Load

variable {K : Type} [Zero K] [One K]

/-- The index resolution pattern of `Model::loadModel`:
`if (index >= 0 && index < list.size()) value = list[index]; else value = fallback;`. -/
def lookupOr {α : Type} (list : List α) (index : Int) (fallback : α) : α :=
  if 0 ≤ index ∧ index.toNat < list.length then list.getD index.toNat fallback else fallback

/-- The body of the loop over the three vertex groups of a face line in
`Model::loadModel`: parses one group `v[/vt][/vn]` and resolves its indices against the
lists read so far.  `stoi(indexStr) - 1` is 32-bit `int` arithmetic. -/
def parseFaceVertex (vertices normals : List (Vec3 K)) (texCoords : List (Vec2 K))
    (vertexData : List Char) : Except CppException (Vertex K) := do
  let viss := IStream.ofChars vertexData
  let (viss, indexStr) := viss.getline [] '/'
  let vIndex := i32 ((← stoi indexStr) - 1)
  let position : Vec3 K := lookupOr vertices vIndex ⟨0, 0, 0⟩
  let (viss, indexStr) := viss.getline indexStr '/'
  let texCoord : Vec2 K ←
    if !viss.fail ∧ !indexStr.isEmpty then do
      let vtIndex := i32 ((← stoi indexStr) - 1)
      pure (lookupOr texCoords vtIndex ⟨0, 0⟩)
    else pure ⟨0, 0⟩
  let (viss, indexStr) := viss.getline indexStr '\n'
  let normal : Vec3 K ←
    if !viss.fail ∧ !indexStr.isEmpty then do
      let vnIndex := i32 ((← stoi indexStr) - 1)
      pure (lookupOr normals vnIndex ⟨0, 1, 0⟩)
    else pure ⟨0, 1, 0⟩
  pure { position := position, normal := normal, texCoords := texCoord }

/-- One pass of the loop over `{ vertex1, vertex2, vertex3 }`: appends the parsed vertex and
its index `finalVertices.size() - 1`, converted to `unsigned int`. -/
def pushFaceVertex (st : LoadState K) (vertexData : List Char) :
    Except CppException (LoadState K) := do
  let vertex ← parseFaceVertex st.vertices st.normals st.texCoords vertexData
  let finalVertices := st.finalVertices ++ [vertex]
  pure { st with finalVertices := finalVertices,
                 indices := st.indices ++ [u32 (finalVertices.length - 1)] }

/-- The body of the loop `while (std::getline(file, line))` of `Model::loadModel`. -/
def parseLine (P : FloatReader K) (st : LoadState K) (line : List Char) :
    Except CppException (LoadState K) :=
  let iss := IStream.ofChars line
  let (iss, keyword) := iss.readWord []
  if keyword = ['v'] then
    pure { st with vertices := st.vertices ++ [P.vec3 iss] }
  else if keyword = ['v', 'n'] then
    pure { st with normals := st.normals ++ [P.vec3 iss] }
  else if keyword = ['v', 't'] then
    pure { st with texCoords := st.texCoords ++ [P.vec2 iss] }
  else if keyword = ['f'] then
    let (iss, vertex1) := iss.readWord []
    let (iss, vertex2) := iss.readWord []
    let (_, vertex3) := iss.readWord []
    [vertex1, vertex2, vertex3].foldlM pushFaceVertex st
  else pure st

/-- The method `Model::loadModel`, run by the constructor on an empty `meshes` list: the
resulting `meshes`, or the exception that escapes.  `file` is the content of the file at
`path`, or `none` when it cannot be opened. -/
def loadModel (P : FloatReader K) (file : Option (List Char)) (gl : GLState) :
    Except CppException (List (Mesh K) × GLState) :=
  match file with
  | none => pure ([], gl)
  | some content => do
    let st ← (fileLines content).foldlM (parseLine P)
      { vertices := [], normals := [], texCoords := [], finalVertices := [], indices := [] }
    if !st.finalVertices.isEmpty ∧ !st.indices.isEmpty then
      let (mesh, gl) := Mesh.new st.finalVertices st.indices gl
      pure ([mesh], gl)
    else pure ([], gl)

end Load

/-- The spec's index resolution: the `p`-th entry of the list, counted from 1, when
`1 ≤ p ≤ length`, and the fallback value otherwise. -/
def resolveIndex {α : Type} (list : List α) (p : Int) (fallback : α) : α :=
  if 1 ≤ p ∧ p ≤ (list.length : Int) then list.getD (p.toNat - 1) fallback else fallback

/-- The first word of a line, as read by `iss >> prefix` in `Model::loadModel`. -/
def lineKeyword (line : List Char) : List Char :=
  ((IStream.ofChars line).readWord []).2

/-- The three words `vertex1`, `vertex2`, `vertex3` that `Model::loadModel` reads after the
first word of a face line. -/
def faceWords (line : List Char) : List (List Char) :=
  let (iss, _) := (IStream.ofChars line).readWord []
  let (iss, vertex1) := iss.readWord []
  let (iss, vertex2) := iss.readWord []
  let (_, vertex3) := iss.readWord []
  [vertex1, vertex2, vertex3]

/-- The number `F` of face lines of a file: the lines whose first word is `f`. -/
def faceLineCount (content : List Char) : Nat :=
  ((fileLines content).filter (fun line => decide (lineKeyword line = ['f']))).length

/-- A numeric index string: free of `/` and of line ends, and accepted by `std::stoi`. -/
def NumericIndex (s : List Char) : Prop :=
  '/' ∉ s ∧ '\n' ∉ s ∧ ∃ v : Int, stoi s = Except.ok v

/-- A vertex group in the OBJ syntax `v[/vt][/vn]` with numeric indices: one of `p`, `p/t`,
`p/t/n`, `p//n`. -/
def IsFaceGroup (g : List Char) : Prop :=
  (∃ sp, NumericIndex sp ∧ g = sp) ∨
  (∃ sp st, NumericIndex sp ∧ NumericIndex st ∧ g = sp ++ '/' :: st) ∨
  (∃ sp st sn, NumericIndex sp ∧ NumericIndex st ∧ NumericIndex sn ∧
    g = sp ++ '/' :: (st ++ '/' :: sn)) ∨
  (∃ sp sn, NumericIndex sp ∧ NumericIndex sn ∧ g = sp ++ '/' :: '/' :: sn)

/-- A well-formed OBJ text: on every face line, the three words after `f` are vertex groups
with numeric indices. -/
def WellFormedObj (content : List Char) : Prop :=
  ∀ line ∈ fileLines content, lineKeyword line = ['f'] → ∀ g ∈ faceWords line, IsFaceGroup g

/-- The spec's one-triangle OBJ text. -/
def triangleObj : List Char := "v 0 0 0\nv 1 0 0\nv 0 1 0\nf 1 2 3".toList

/-- The perpendicular distance from the point `sphereCenter` to the line through `rayOrigin`
with direction `rayDir`: the distance from the centre to the foot of the perpendicular,
the ray point at parameter `(sphereCenter − rayOrigin)·rayDir / rayDir·rayDir`. -/
def perpendicularDistance {K : Type} [Field K] (M : Libm K)
    (rayOrigin rayDir sphereCenter : Vec3 K) : K :=
  Vec3.length M (Vec3.sub
    (rayPoint rayOrigin rayDir
      (Vec3.dot (Vec3.sub sphereCenter rayOrigin) rayDir / Vec3.dot rayDir rayDir))
    sphereCenter)

/-! ## Sphere life cycle -/

namespace Sphere

variable {K : Type} [Field K]

/-- The method `Sphere::render`, as far as object names are concerned: the first call runs
`setup`; the uniform uploads and the draw call create and destroy nothing. -/
def render (s : Sphere K) (gl : GLState) : Sphere K × GLState :=
  if !s.isSetup then setup s gl else (s, gl)

/-- The destructor `Sphere::~Sphere`: releases the three object names of a sphere that was
set up. -/
def destroy (s : Sphere K) (gl : GLState) : GLState :=
  if s.isSetup then
    GLState.deleteBuffer (GLState.deleteBuffer (GLState.deleteVertexArray gl s.VAO) s.VBO) s.EBO
  else gl

end Sphere

/-- A call of one of the public methods of `Sphere` that change the object. -/
inductive SphereOp (K : Type) where
  | setup
  | render
  | setPosition (newPosition : Vec3 K)
  | setRadius (newRadius : K)
  | setColor (newColor : Vec3 K)

/-- The op is one of the three setters. -/
def SphereOp.isSetter {K : Type} : SphereOp K → Bool
  | SphereOp.setup => false
  | SphereOp.render => false
  | SphereOp.setPosition _ => true
  | SphereOp.setRadius _ => true
  | SphereOp.setColor _ => true

/-- The effect of one method call on the sphere and the OpenGL context. -/
def Sphere.step {K : Type} [Field K] (M : Libm K) (st : Sphere K × GLState) :
    SphereOp K → Sphere K × GLState
  | SphereOp.setup => Sphere.setup st.1 st.2
  | SphereOp.render => Sphere.render st.1 st.2
  | SphereOp.setPosition p => Sphere.setPosition M p st.1 st.2
  | SphereOp.setRadius r => Sphere.setRadius M r st.1 st.2
  | SphereOp.setColor c => Sphere.setColor M c st.1 st.2

/-- A sequence of method calls, first call first. -/
def Sphere.run {K : Type} [Field K] (M : Libm K) (ops : List (SphereOp K))
    (st : Sphere K × GLState) : Sphere K × GLState :=
  ops.foldl (Sphere.step M) st

/-- Buffer consistency: the vertex and index lists are what `generateVertices` produces from
the sphere's current position, radius, colour and tessellation counts. -/
def Sphere.Consistent {K : Type} [Field K] (M : Libm K) (s : Sphere K) : Prop :=
  s.vertices = (Sphere.generateVertices M s).vertices ∧
  s.indices = (Sphere.generateVertices M s).indices

/-- The set of live OpenGL object names: the vertex arrays and the buffers that were
generated and not yet deleted. -/
structure LiveHandles where
  vertexArrays : List Nat
  buffers : List Nat
deriving DecidableEq, Repr

/-- The effect of one call on the set of live names; `none` when the call generates a name
that is already live or deletes a name that is not live. -/
def LiveHandles.apply (live : LiveHandles) : GLCall → Option LiveHandles
  | GLCall.genVertexArray n =>
    if n ∈ live.vertexArrays then none
    else some { live with vertexArrays := n :: live.vertexArrays }
  | GLCall.deleteVertexArray n =>
    if n ∈ live.vertexArrays then some { live with vertexArrays := live.vertexArrays.erase n }
    else none
  | GLCall.genBuffer n =>
    if n ∈ live.buffers then none else some { live with buffers := n :: live.buffers }
  | GLCall.deleteBuffer n =>
    if n ∈ live.buffers then some { live with buffers := live.buffers.erase n } else none

/-- The effect of a trace of calls, oldest first, on the set of live names. -/
def LiveHandles.replay (live : LiveHandles) (calls : List GLCall) : Option LiveHandles :=
  calls.foldlM LiveHandles.apply live

/-- The live names that a sphere holds: its three object names once it is set up. -/
def Sphere.liveHandles {K : Type} (s : Sphere K) : LiveHandles :=
  if s.isSetup then { vertexArrays := [s.VAO], buffers := [s.EBO, s.VBO] }
  else { vertexArrays := [], buffers := [] }

/-! ## Model transform (`Model.h`, `Model.cpp`) with the GLM types it uses -/

/-- The type `glm::vec4`. -/
structure Vec4 (K : Type) where
  x : K
  y : K
  z : K
  w : K
deriving DecidableEq, Repr

/-- The type `glm::mat4`, stored as GLM stores it: the four columns `m[0]`, `m[1]`, `m[2]`,
`m[3]`, so that `m[c][r]` is component `r` of column `c`. -/
structure Mat4 (K : Type) where
  c0 : Vec4 K
  c1 : Vec4 K
  c2 : Vec4 K
  c3 : Vec4 K
deriving DecidableEq, Repr

/-- The type `glm::quat`, with the components named as in `glm::quat(w, x, y, z)`. -/
structure Quat (K : Type) where
  w : K
  x : K
  y : K
  z : K
deriving DecidableEq, Repr

namespace Vec4

variable {K : Type} [Field K]

/-- Componentwise sum, `a + b`. -/
def add (a b : Vec4 K) : Vec4 K := ⟨a.x + b.x, a.y + b.y, a.z + b.z, a.w + b.w⟩

/-- Product with a scalar on the right, `v * k`. -/
def muls (v : Vec4 K) (k : K) : Vec4 K := ⟨v.x * k, v.y * k, v.z * k, v.w * k⟩

end Vec4

namespace Mat4

variable {K : Type} [Field K]

/-- The matrix `glm::mat4(1.0f)`. -/
def identity : Mat4 K := ⟨⟨1, 0, 0, 0⟩, ⟨0, 1, 0, 0⟩, ⟨0, 0, 1, 0⟩, ⟨0, 0, 0, 1⟩⟩

/-- The product `m * v` of a matrix and a column vector. -/
def mulVec (m : Mat4 K) (v : Vec4 K) : Vec4 K :=
  Vec4.add (Vec4.add (Vec4.add (m.c0.muls v.x) (m.c1.muls v.y)) (m.c2.muls v.z)) (m.c3.muls v.w)

/-- The product `m1 * m2` of two matrices: column `j` is `m1` applied to column `j` of
`m2`. -/
def mul (m1 m2 : Mat4 K) : Mat4 K :=
  ⟨m1.mulVec m2.c0, m1.mulVec m2.c1, m1.mulVec m2.c2, m1.mulVec m2.c3⟩

/-- The image of a point of space under the matrix: `m * vec4(v, 1)`. -/
def applyPoint (m : Mat4 K) (v : Vec3 K) : Vec4 K := m.mulVec ⟨v.x, v.y, v.z, 1⟩

end Mat4

namespace Quat

variable {K : Type} [Field K]

/-- The quaternion product `p * q` of GLM. -/
def mul (p q : Quat K) : Quat K :=
  { w := p.w * q.w - p.x * q.x - p.y * q.y - p.z * q.z
    x := p.w * q.x + p.x * q.w + p.y * q.z - p.z * q.y
    y := p.w * q.y + p.y * q.w + p.z * q.x - p.x * q.z
    z := p.w * q.z + p.z * q.w + p.x * q.y - p.y * q.x }

end Quat

namespace glm

variable {K : Type} [Field K]

/-- The function `glm::translate(m, v)`: the last column becomes
`m[0] * v[0] + m[1] * v[1] + m[2] * v[2] + m[3]`. -/
def translate (m : Mat4 K) (v : Vec3 K) : Mat4 K :=
  { m with c3 := Vec4.add (Vec4.add (Vec4.add (m.c0.muls v.x) (m.c1.muls v.y))
      (m.c2.muls v.z)) m.c3 }

/-- The function `glm::scale(m, v)`: the first three columns are multiplied by the
components of `v`. -/
def scale (m : Mat4 K) (v : Vec3 K) : Mat4 K :=
  ⟨m.c0.muls v.x, m.c1.muls v.y, m.c2.muls v.z, m.c3⟩

/-- The function `glm::mat4_cast(q)`: the matrix of `glm::mat3_cast(q)` in the upper left
corner of the identity. -/
def mat4_cast (q : Quat K) : Mat4 K :=
  let qxx := q.x * q.x
  let qyy := q.y * q.y
  let qzz := q.z * q.z
  let qxz := q.x * q.z
  let qxy := q.x * q.y
  let qyz := q.y * q.z
  let qwx := q.w * q.x
  let qwy := q.w * q.y
  let qwz := q.w * q.z
  ⟨⟨1 - 2 * (qyy + qzz), 2 * (qxy + qwz), 2 * (qxz - qwy), 0⟩,
   ⟨2 * (qxy - qwz), 1 - 2 * (qxx + qzz), 2 * (qyz + qwx), 0⟩,
   ⟨2 * (qxz + qwy), 2 * (qyz - qwx), 1 - 2 * (qxx + qyy), 0⟩,
   ⟨0, 0, 0, 1⟩⟩

/-- The function `glm::angleAxis(angle, v)`: the quaternion
`(cos(angle * 0.5), v * sin(angle * 0.5))`. -/
def angleAxis (M : Libm K) (angle : K) (v : Vec3 K) : Quat K :=
  let s := M.sin (angle * (1 / 2))
  ⟨M.cos (angle * (1 / 2)), v.x * s, v.y * s, v.z * s⟩

/-- The function `glm::radians(degrees)`: the product with GLM's constant for `π / 180`. -/
def radians (degrees : K) : K :=
  degrees * (1745329251994329576923690768489 / 100000000000000000000000000000000)

/-- The function `glm::degrees(radians)` on a vector: the product of every component with
GLM's constant for `180 / π`. -/
def degrees (radians : Vec3 K) : Vec3 K :=
  Vec3.smul (57295779513082320876798154814105 / 1000000000000000000000000000000) radians

end glm

/-- The data members of the class `Model`. -/
structure Model (K : Type) where
  meshes : List (Mesh K)
  position : Vec3 K
  rotation : Vec3 K
  scale : Vec3 K
  rotationQuat : Quat K
  useQuaternion : Bool
deriving DecidableEq, Repr

namespace Model

variable {K : Type} [Field K]

/-- The method `Model::setPosition`. -/
def setPosition (m : Model K) (pos : Vec3 K) : Model K := { m with position := pos }

/-- The method `Model::setRotation`: stores the Euler angles and clears `useQuaternion`. -/
def setRotation (m : Model K) (rot : Vec3 K) : Model K :=
  { m with rotation := rot, useQuaternion := false }

/-- The method `Model::setScale`. -/
def setScale (m : Model K) (scl : Vec3 K) : Model K := { m with scale := scl }

/-- The method `Model::setRotationFromQuaternion`: stores
`glm::degrees(glm::eulerAngles(quat))` in `rotation` and `quat` in `rotationQuat`; it does
not assign `useQuaternion`.  The function `glm::eulerAngles`, which is computed with inverse
trigonometric functions, is the parameter `eulerAngles`. -/
def setRotationFromQuaternion (eulerAngles : Quat K → Vec3 K) (m : Model K) (quat : Quat K) :
    Model K :=
  { m with rotation := glm.degrees (eulerAngles quat), rotationQuat := quat }

/-- The method `Model::enableQuaternionRotation`. -/
def enableQuaternionRotation (m : Model K) (enable : Bool) : Model K :=
  { m with useQuaternion := enable }

/-- The quaternion `q = qYaw * qPitch * qRoll` of the Euler branch of
`Model::getModelMatrix`: `qPitch` turns by `rotation.x` about `(0, 0, 1)`, `qYaw` by
`rotation.y` about `(0, 1, 0)` and `qRoll` by `rotation.z` about `(1, 0, 0)`. -/
def eulerQuat (M : Libm K) (rotation : Vec3 K) : Quat K :=
  let qPitch := glm.angleAxis M (glm.radians rotation.x) ⟨0, 0, 1⟩
  let qYaw := glm.angleAxis M (glm.radians rotation.y) ⟨0, 1, 0⟩
  let qRoll := glm.angleAxis M (glm.radians rotation.z) ⟨1, 0, 0⟩
  Quat.mul (Quat.mul qYaw qPitch) qRoll

/-- The method `Model::getModelMatrix`. -/
def getModelMatrix (M : Libm K) (m : Model K) : Mat4 K :=
  let model : Mat4 K := Mat4.identity
  let model := glm.translate model m.position
  let model :=
    if m.useQuaternion then
      let rotMatrix := glm.mat4_cast m.rotationQuat
      Mat4.mul model rotMatrix
    else
      let rotMatrix := glm.mat4_cast (eulerQuat M m.rotation)
      Mat4.mul model rotMatrix
  let model := glm.scale model m.scale
  model

end Model

/-- The matrix of the rotation of space by `angle` about the X axis, in the column layout of
`Mat4`. -/
def rotationX {K : Type} [Field K] (M : Libm K) (angle : K) : Mat4 K :=
  ⟨⟨1, 0, 0, 0⟩, ⟨0, M.cos angle, M.sin angle, 0⟩, ⟨0, -M.sin angle, M.cos angle, 0⟩,
   ⟨0, 0, 0, 1⟩⟩

/-- The matrix of the rotation of space by `angle` about the Y axis. -/
def rotationY {K : Type} [Field K] (M : Libm K) (angle : K) : Mat4 K :=
  ⟨⟨M.cos angle, 0, -M.sin angle, 0⟩, ⟨0, 1, 0, 0⟩, ⟨M.sin angle, 0, M.cos angle, 0⟩,
   ⟨0, 0, 0, 1⟩⟩

/-- The matrix of the rotation of space by `angle` about the Z axis. -/
def rotationZ {K : Type} [Field K] (M : Libm K) (angle : K) : Mat4 K :=
  ⟨⟨M.cos angle, M.sin angle, 0, 0⟩, ⟨-M.sin angle, M.cos angle, 0, 0⟩, ⟨0, 0, 1, 0⟩,
   ⟨0, 0, 0, 1⟩⟩

/-- The translation matrix `T(p)`: the identity with `p` in the last column. -/
def translationMatrix {K : Type} [Field K] (p : Vec3 K) : Mat4 K :=
  ⟨⟨1, 0, 0, 0⟩, ⟨0, 1, 0, 0⟩, ⟨0, 0, 1, 0⟩, ⟨p.x, p.y, p.z, 1⟩⟩

/-- The scale matrix `S(s)`: the diagonal matrix of `s.x`, `s.y`, `s.z`, `1`. -/
def scaleMatrix {K : Type} [Field K] (s : Vec3 K) : Mat4 K :=
  ⟨⟨s.x, 0, 0, 0⟩, ⟨0, s.y, 0, 0⟩, ⟨0, 0, s.z, 0⟩, ⟨0, 0, 0, 1⟩⟩

/-- The squared norm of a quaternion. -/
def Quat.normSq {K : Type} [Field K] (q : Quat K) : K :=
  q.w * q.w + q.x * q.x + q.y * q.y + q.z * q.z

/-- The homogeneous form of the rotation matrix of a quaternion, `v ↦ q v q*`; it is the
matrix of `glm::mat4_cast` when the quaternion has norm one. -/
def Quat.conjugationMatrix {K : Type} [Field K] (q : Quat K) : Mat4 K :=
  ⟨⟨q.w * q.w + q.x * q.x - q.y * q.y - q.z * q.z, 2 * (q.x * q.y + q.w * q.z),
      2 * (q.x * q.z - q.w * q.y), 0⟩,
   ⟨2 * (q.x * q.y - q.w * q.z), q.w * q.w - q.x * q.x + q.y * q.y - q.z * q.z,
      2 * (q.y * q.z + q.w * q.x), 0⟩,
   ⟨2 * (q.x * q.z + q.w * q.y), 2 * (q.y * q.z - q.w * q.x),
      q.w * q.w - q.x * q.x - q.y * q.y + q.z * q.z, 0⟩,
   ⟨0, 0, 0, q.normSq⟩⟩

/-! ## Lights (`Light.h`, `Light.cpp`) -/

/-- The class `Light`. -/
structure Light (K : Type) where
  position : Vec3 K
  color : Vec3 K
  ambient : K
  diffuse : K
  specular : K
  constant : K
  linear : K
  quadratic : K
deriving DecidableEq, Repr

/-- The value passed to a uniform: three floats (`glUniform3fv`) or one (`glUniform1f`). -/
inductive UniformValue (K : Type) where
  | vec3 (v : Vec3 K)
  | float (x : K)
deriving DecidableEq, Repr

/-- One uniform write `glUniform…(glGetUniformLocation(program, name), …value…)`: the program
whose location table is asked, the uniform's name, and the value passed. -/
structure UniformWrite (K : Type) where
  program : Nat
  name : List Char
  value : UniformValue K
deriving DecidableEq, Repr

/-- The function `std::to_string(int)`: the decimal digits, with a minus sign in front of a
negative number. -/
def to_string (n : Int) : List Char := (toString n).toList

/-- The value last written for the uniform `name` of `program` in a trace of writes (oldest
first), if any. -/
def lastWrite {K : Type} (writes : List (UniformWrite K)) (program : Nat) (name : List Char) :
    Option (UniformValue K) :=
  ((writes.reverse.find? (fun w => decide (w.program = program ∧ w.name = name))).map
    (fun w => w.value))

namespace Light

variable {K : Type} [Field K]

/-- The constructor `Light::Light(position, color, ambient, diffuse, specular)`, with the
attenuation `1.0f`, `0.09f`, `0.032f`. -/
def new (position color : Vec3 K) (ambient diffuse specular : K) : Light K :=
  { position := position, color := color, ambient := ambient, diffuse := diffuse,
    specular := specular, constant := 1, linear := 9 / 100, quadratic := 32 / 1000 }

/-- The method `Light::updateShader(shaderProgram, lightIndex)`: the light after the call
and the trace of uniform writes, extended by the eight writes of the method in their
order. -/
def updateShader (l : Light K) (shaderProgram : Nat) (lightIndex : Int)
    (writes : List (UniformWrite K)) : Light K × List (UniformWrite K) :=
  let index := to_string lightIndex
  let writes := writes ++
    [⟨shaderProgram, "lights[".toList ++ index ++ "].position".toList,
      UniformValue.vec3 l.position⟩]
  let writes := writes ++
    [⟨shaderProgram, "lights[".toList ++ index ++ "].color".toList, UniformValue.vec3 l.color⟩]
  let writes := writes ++
    [⟨shaderProgram, "lights[".toList ++ index ++ "].ambient".toList,
      UniformValue.float l.ambient⟩]
  let writes := writes ++
    [⟨shaderProgram, "lights[".toList ++ index ++ "].diffuse".toList,
      UniformValue.float l.diffuse⟩]
  let writes := writes ++
    [⟨shaderProgram, "lights[".toList ++ index ++ "].specular".toList,
      UniformValue.float l.specular⟩]
  let writes := writes ++
    [⟨shaderProgram, "lights[".toList ++ index ++ "].constant".toList,
      UniformValue.float l.constant⟩]
  let writes := writes ++
    [⟨shaderProgram, "lights[".toList ++ index ++ "].linear".toList,
      UniformValue.float l.linear⟩]
  let writes := writes ++
    [⟨shaderProgram, "lights[".toList ++ index ++ "].quadratic".toList,
      UniformValue.float l.quadratic⟩]
  (l, writes)

/-- The method `Light::setPosition`. -/
def setPosition (l : Light K) (newPosition : Vec3 K) : Light K :=
  { l with position := newPosition }

/-- The method `Light::setColor`. -/
def setColor (l : Light K) (newColor : Vec3 K) : Light K := { l with color := newColor }

/-- The method `Light::setAmbient`. -/
def setAmbient (l : Light K) (value : K) : Light K := { l with ambient := value }

/-- The method `Light::setDiffuse`. -/
def setDiffuse (l : Light K) (value : K) : Light K := { l with diffuse := value }

/-- The method `Light::setSpecular`. -/
def setSpecular (l : Light K) (value : K) : Light K := { l with specular := value }

/-- The method `Light::setAttenuation`. -/
def setAttenuation (l : Light K) (newConstant newLinear newQuadratic : K) : Light K :=
  { l with constant := newConstant, linear := newLinear, quadratic := newQuadratic }

end Light

/-! ## Skybox cube map (`loadCubemap` in `main.cpp`) -/

/-- An image decoded by `stbi_load`: the values stored in `width`, `height`, `nrChannels`
and the bytes that the returned pointer refers to. -/
structure Image where
  width : Int
  height : Int
  nrChannels : Int
  data : List Nat
deriving DecidableEq, Repr

/-- The pixel formats that `loadCubemap` passes to `glTexImage2D`. -/
inductive PixelFormat where
  | GL_RED
  | GL_RGB
  | GL_RGBA
deriving DecidableEq, Repr

/-- The calls that `loadCubemap` makes on the OpenGL context.  In `texImage2D` the field
`face` is the offset `i` of the target `GL_TEXTURE_CUBE_MAP_POSITIVE_X + i`; in
`texParameteri` the target is `GL_TEXTURE_CUBE_MAP` and the two names are those of the
source. -/
inductive TexCall where
  | genTextures (name : Nat)
  | bindCubeMap (name : Nat)
  | texImage2D (face : Nat) (format : PixelFormat) (width height : Int) (data : List Nat)
  | texParameteri (pname : String) (param : String)
deriving DecidableEq, Repr

/-- The texture objects of the OpenGL context: the next unused texture name and the trace of
calls, oldest first. -/
structure TexState where
  nextTexture : Nat
  calls : List TexCall
deriving DecidableEq, Repr

/-- The body of the loop over the faces in `loadCubemap`: face `i` with path `path` is
uploaded when `stbi_load` returns data, and then `loadedAny` is set. -/
def loadCubemapFace (stbi_load : List Char → Option Image) (st : TexState × Bool)
    (face : Nat × List Char) : TexState × Bool :=
  match stbi_load face.2 with
  | some image =>
    let format :=
      if image.nrChannels = 1 then PixelFormat.GL_RED
      else if image.nrChannels = 3 then PixelFormat.GL_RGB
      else if image.nrChannels = 4 then PixelFormat.GL_RGBA
      else PixelFormat.GL_RGB
    ({ st.1 with calls := st.1.calls ++
        [TexCall.texImage2D face.1 format image.width image.height image.data] }, true)
  | none => st

/-- The function `loadCubemap(faces)`: the texture name returned and the context after the
call.  The decoder `stbi_load` is a parameter: the image of a path, or `none` when the
decoder returns a null pointer.  The loop `i < faces.size()` ends for fewer than `2^32`
faces. -/
def loadCubemap (stbi_load : List Char → Option Image) (faces : List (List Char))
    (gl : TexState) : Nat × TexState :=
  let textureID := gl.nextTexture
  let gl : TexState :=
    { nextTexture := gl.nextTexture + 1,
      calls := gl.calls ++ [TexCall.genTextures textureID, TexCall.bindCubeMap textureID] }
  let (gl, loadedAny) := faces.enum.foldl (loadCubemapFace stbi_load) (gl, false)
  let gl : TexState :=
    if !loadedAny then
      (List.range 6).foldl (fun (gl : TexState) (i : Nat) =>
        { gl with calls := gl.calls ++
            [TexCall.texImage2D i PixelFormat.GL_RGB 1 1 [255, 0, 255]] }) gl
    else gl
  let gl : TexState :=
    { gl with calls := gl.calls ++
        [TexCall.texParameteri "GL_TEXTURE_MIN_FILTER" "GL_LINEAR",
         TexCall.texParameteri "GL_TEXTURE_MAG_FILTER" "GL_LINEAR",
         TexCall.texParameteri "GL_TEXTURE_WRAP_S" "GL_CLAMP_TO_EDGE",
         TexCall.texParameteri "GL_TEXTURE_WRAP_T" "GL_CLAMP_TO_EDGE",
         TexCall.texParameteri "GL_TEXTURE_WRAP_R" "GL_CLAMP_TO_EDGE"] }
  (textureID, gl)

/-- The upload of a decoded image to cube face `+X + i`, with the format chosen from the
number of channels. -/
def faceUpload (i : Nat) (image : Image) : TexCall :=
  TexCall.texImage2D i
    (if image.nrChannels = 1 then PixelFormat.GL_RED
     else if image.nrChannels = 4 then PixelFormat.GL_RGBA
     else PixelFormat.GL_RGB)
    image.width image.height image.data

/-- The upload of the 1×1 magenta placeholder to cube face `+X + i`. -/
def placeholderUpload (i : Nat) : TexCall :=
  TexCall.texImage2D i PixelFormat.GL_RGB 1 1 [255, 0, 255]

/-- The uploads among a trace of calls: the calls of `glTexImage2D`. -/
def uploads (calls : List TexCall) : List TexCall :=
  calls.filter (fun c => match c with
    | TexCall.texImage2D _ _ _ _ _ => true
    | _ => false)

/-- The index entries that the quad in ring pair `i` and sector `j` contributes, with
`k1 = i·(sectors+1) + j` and `k2 = k1 + sectors + 1`: the triangle `(k1, k2, k1+1)` unless
`i = 0`, then the triangle `(k1+1, k2, k2+1)` unless `i = stacks − 1`. -/
def Sphere.quadIndices (sectorCount stackCount i j : Nat) : List Nat :=
  (if i ≠ 0 then
    [i * (sectorCount + 1) + j, i * (sectorCount + 1) + j + sectorCount + 1,
      i * (sectorCount + 1) + j + 1]
   else []) ++
  (if i ≠ stackCount - 1 then
    [i * (sectorCount + 1) + j + 1, i * (sectorCount + 1) + j + sectorCount + 1,
      i * (sectorCount + 1) + j + sectorCount + 1 + 1]
   else [])

/-- The triangles that `glDrawElements(GL_TRIANGLES, …)` reads from an index list: each
three consecutive entries. -/
def triangles : List Nat → List (Nat × Nat × Nat)
  | a :: b :: c :: rest => (a, b, c) :: triangles rest
  | _ => []

/-- The ring of a vertex index of the generated sphere: the stack number
`index / (sectors + 1)`. -/
def Sphere.ringOf (sectorCount index : Nat) : Nat := index / (sectorCount + 1)

/-- Two of the three vertices of the triangle `t` lie in ring `ring` of a sphere with the
given sector count. -/
def Sphere.twoInRing (sectorCount ring : Nat) (t : Nat × Nat × Nat) : Prop :=
  (Sphere.ringOf sectorCount t.1 = ring ∧ Sphere.ringOf sectorCount t.2.1 = ring) ∨
  (Sphere.ringOf sectorCount t.1 = ring ∧ Sphere.ringOf sectorCount t.2.2 = ring) ∨
  (Sphere.ringOf sectorCount t.2.1 = ring ∧ Sphere.ringOf sectorCount t.2.2 = ring)

/-! ## Drawing a sphere (`Sphere::render`, `SphereShader.h`) -/

/-- The conversion `vec3(v)` of a `vec4`: its first three components. -/
def Vec4.xyz {K : Type} (v : Vec4 K) : Vec3 K := ⟨v.x, v.y, v.z⟩

/-- The matrix `model` that `Sphere::render` uploads:
`glm::translate(glm::mat4(1.0f), position)`. -/
def Sphere.modelMatrix {K : Type} [Field K] (s : Sphere K) : Mat4 K :=
  glm.translate Mat4.identity s.position

/-- The world position that the sphere's vertex shader computes for the vertex attribute
`aPos`: `FragPos = vec3(model * vec4(aPos, 1.0))`. -/
def sphereVertexShader_FragPos {K : Type} [Field K] (model : Mat4 K) (aPos : Vec3 K) :
    Vec3 K :=
  (model.mulVec ⟨aPos.x, aPos.y, aPos.z, 1⟩).xyz

/-- A one-triangle OBJ text with its `v`, `vt` and `vn` lines in front of its face line. -/
def definitionsFirstObj : List Char :=
  "v 1 2 3\nvt 4 5\nvn 6 7 8\nf 1/1/1 1/1/1 1/1/1".toList

/-- The same four lines with the face line moved to the front. -/
def faceFirstObj : List Char :=
  "f 1/1/1 1/1/1 1/1/1\nv 1 2 3\nvt 4 5\nvn 6 7 8".toList

/-- The constructor `Model::Model(path)`: the initialiser list
`position(0.0f), rotation(0.0f), scale(1.0f)`, then `loadModel(path)` on the empty mesh list;
an exception of `loadModel` escapes.  The members `rotationQuat` and `useQuaternion` have no
initialiser and no default member initialiser in `Model.h`: the values they hold after
construction are indeterminate and are the parameters `indeterminateQuat` and
`indeterminateFlag`. -/
def Model.new {K : Type} [Field K] (P : FloatReader K) (file : Option (List Char))
    (gl : GLState) (indeterminateQuat : Quat K) (indeterminateFlag : Bool) :
    Except CppException (Model K × GLState) :=
  match loadModel P file gl with
  | Except.error e => Except.error e
  | Except.ok (meshes, gl) =>
    Except.ok
      ({ meshes := meshes, position := Vec3.splat 0, rotation := Vec3.splat 0,
         scale := Vec3.splat 1, rotationQuat := indeterminateQuat,
         useQuaternion := indeterminateFlag }, gl)

/-! ## Binary32 arithmetic (the type `float`)

The finite values of a `float` are the numbers `mant · 2^exp` with a mantissa of at most 24
binary digits.  Every operation computes the exact result and rounds it to the nearest such
number, ties to the even mantissa.  The exponent range (overflow to infinity, subnormal
numbers) and the sign of zero are not part of the model. -/

/-- A finite binary32 value `mant · 2^exp`.  The operations below return the representation
with an odd mantissa, and `0 · 2^0` for zero.  They round to 24 significant digits, to the
nearest value with ties to the even mantissa, as the `float` operations of the source do; the
exponent is not bounded, so they are the binary32 operations as long as no result leaves the
range of the normal numbers (magnitude from `2^-126` to below `2^128`, or zero). -/
structure F32 where
  mant : Int
  exp : Int
deriving DecidableEq, Repr

/-- The number of binary digits of `n`, for `n < 2^fuel`. -/
def bitLength : Nat → Nat → Nat
  | 0, _ => 0
  | fuel + 1, n => if n = 0 then 0 else bitLength fuel (n / 2) + 1

/-- Removes the trailing zero digits of the mantissa `n` and raises the exponent `e`
accordingly. -/
def stripZeros : Nat → Nat → Int → Nat × Int
  | 0, n, e => (n, e)
  | fuel + 1, n, e => if n ≠ 0 ∧ n % 2 = 0 then stripZeros fuel (n / 2) (e + 1) else (n, e)

namespace F32

/-- The value as a rational number. -/
def toRat (a : F32) : ℚ := (a.mant : ℚ) * 2 ^ a.exp

/-- The representation with an odd mantissa of the number `± n · 2^e`. -/
def canonical (negative : Bool) (n : Nat) (e : Int) : F32 :=
  if n = 0 then ⟨0, 0⟩
  else
    let p := stripZeros 512 n e
    ⟨if negative then -(p.1 : Int) else (p.1 : Int), p.2⟩

/-- Rounding of the exact number `m · 2^e` to binary32: to the nearest number with 24
significant digits, ties to the even mantissa. -/
def round (m : Int) (e : Int) : F32 :=
  let n := m.natAbs
  let bits := bitLength 1024 n
  if bits ≤ 24 then canonical (decide (m < 0)) n e
  else
    let shift := bits - 24
    let q := n / 2 ^ shift
    let r := n % 2 ^ shift
    let half := 2 ^ (shift - 1)
    let q := if half < r ∨ (r = half ∧ q % 2 = 1) then q + 1 else q
    canonical (decide (m < 0)) q (e + (shift : Int))

/-- The conversion of an integer constant, such as the `4` of `4 * a * c`. -/
def ofInt (n : Int) : F32 := round n 0

/-- The sum `a + b`, rounded. -/
def add (a b : F32) : F32 :=
  let e := min a.exp b.exp
  round (a.mant * 2 ^ (a.exp - e).toNat + b.mant * 2 ^ (b.exp - e).toNat) e

/-- The negation `-a`, which is exact. -/
def neg (a : F32) : F32 := ⟨-a.mant, a.exp⟩

/-- The difference `a - b`, rounded. -/
def sub (a b : F32) : F32 := add a (neg b)

/-- The product `a * b`, rounded. -/
def mul (a b : F32) : F32 := round (a.mant * b.mant) (a.exp + b.exp)

/-- The quotient `a / b`, rounded; `none` for a zero divisor, where the result is a NaN or an
infinity.  The quotient of the mantissas is computed to more than 64 digits, with one more
digit that records whether the division left a remainder. -/
def div (a b : F32) : Option F32 :=
  if b.mant = 0 then none
  else
    let k := 64 + bitLength 1024 b.mant.natAbs
    let q := a.mant.natAbs * 2 ^ k / b.mant.natAbs
    let r := a.mant.natAbs * 2 ^ k % b.mant.natAbs
    let q := 2 * q + (if r = 0 then 0 else 1)
    some (round (if decide (a.mant < 0) = decide (b.mant < 0) then (q : Int) else -(q : Int))
      (a.exp - b.exp - (k : Int) - 1))

/-- One pass per binary digit of the integer square root of `n`. -/
def isqrtAux (n : Nat) : Nat → Nat → Nat
  | 0, r => r
  | i + 1, r => isqrtAux n i (if (r + 2 ^ i) * (r + 2 ^ i) ≤ n then r + 2 ^ i else r)

/-- The integer square root: the largest `r` with `r · r ≤ n`. -/
def isqrt (n : Nat) : Nat := isqrtAux n (bitLength 1024 n / 2 + 1) 0

/-- The square root `sqrt(a)` of a value that is not negative, rounded: the root of the
mantissa is computed to 32 more digits, with one more digit that records whether it is
inexact. -/
def sqrt (a : F32) : F32 :=
  let m := if a.exp % 2 = 0 then a.mant.natAbs else 2 * a.mant.natAbs
  let e := if a.exp % 2 = 0 then a.exp else a.exp - 1
  let n := m * 2 ^ 64
  let s := isqrt n
  round ((2 * s + (if s * s = n then 0 else 1) : Nat) : Int) (e / 2 - 32 - 1)

/-- The comparison `a < b`. -/
def lt (a b : F32) : Bool :=
  let e := min a.exp b.exp
  decide (a.mant * 2 ^ (a.exp - e).toNat < b.mant * 2 ^ (b.exp - e).toNat)

end F32

/-- The function `glm::dot` on `vec3` of `float`: the three products, then
`tmp.x + tmp.y + tmp.z`. -/
def dot32 (u v : Vec3 F32) : F32 :=
  F32.add (F32.add (F32.mul u.x v.x) (F32.mul u.y v.y)) (F32.mul u.z v.z)

/-- The values of the components of a vector of `float`, as real numbers. -/
def Vec3.toRat32 (v : Vec3 F32) : Vec3 ℚ := ⟨v.x.toRat, v.y.toRat, v.z.toRat⟩

/-- The function `raySphereIntersection` of `main.cpp` read in binary32: the same statements
as in `raySphereIntersection`, with every `float` operation rounded.  When `2.0f * a` is
zero both quotients are not finite numbers; `a` is zero only for the zero direction, then
`b` and the discriminant are zero, the quotients are NaN and the comparisons with them are
false. -/
def raySphereIntersection32 (rayOrigin rayDir sphereCenter : Vec3 F32) (sphereRadius : F32) :
    Option F32 :=
  let oc : Vec3 F32 :=
    ⟨F32.sub rayOrigin.x sphereCenter.x, F32.sub rayOrigin.y sphereCenter.y,
      F32.sub rayOrigin.z sphereCenter.z⟩
  let a := dot32 rayDir rayDir
  let b := F32.mul (F32.ofInt 2) (dot32 oc rayDir)
  let c := F32.sub (dot32 oc oc) (F32.mul sphereRadius sphereRadius)
  let discriminant := F32.sub (F32.mul b b) (F32.mul (F32.mul (F32.ofInt 4) a) c)
  if F32.lt discriminant (F32.ofInt 0) then none
  else
    let sqrtDiscriminant := F32.sqrt discriminant
    match F32.div (F32.sub (F32.neg b) sqrtDiscriminant) (F32.mul (F32.ofInt 2) a),
        F32.div (F32.add (F32.neg b) sqrtDiscriminant) (F32.mul (F32.ofInt 2) a) with
    | some t1, some t2 =>
      let t := if F32.lt (F32.ofInt 0) t1 then t1 else t2
      if F32.lt (F32.ofInt 0) t then some t else none
    | _, _ => none

/-- The vector with the function applied to every component. -/
def Vec3.map {α β : Type} (f : α → β) (v : Vec3 α) : Vec3 β := ⟨f v.x, f v.y, f v.z⟩

/-! ## The spec's sphere generation, as a function of the five parameters -/

/-- The spec's vertex record for stack ring `i` and sector column `j`:
`xy = radius·cos(stackAngle)`, `z = radius·sin(stackAngle)`, `x = xy·cos(sectorAngle)`,
`y = xy·sin(sectorAngle)`, `normal = normalize((x,y,z))`, with the polar angle going from
`+90°` to `−90°` over the `stackCount` steps and the azimuth from 0 to `360°` over the
`sectorCount` steps; the record is the position plus the translation offset, the normal and
the fill colour. -/
def specVertexRecord {K : Type} [Field K] (M : Libm K) (position : Vec3 K) (radius : K)
    (color : Vec3 K) (sectorCount stackCount i j : Nat) : List K :=
  let stackAngle := M.pi / 2 - (i : K) * (M.pi / (stackCount : K))
  let sectorAngle := (j : K) * (2 * M.pi / (sectorCount : K))
  let xy := radius * M.cos stackAngle
  let z := radius * M.sin stackAngle
  let x := xy * M.cos sectorAngle
  let y := xy * M.sin sectorAngle
  let normal := Vec3.normalize M ⟨x, y, z⟩
  [x + position.x, y + position.y, z + position.z, normal.x, normal.y, normal.z,
   color.x, color.y, color.z]

/-- The spec's vertex buffer `generate(position, radius, sectorCount, stackCount)` with the
current fill colour: the records of the `stackCount + 1` rings, each with its
`sectorCount + 1` columns, interleaved in that order.  It is a function of the five
parameters alone. -/
def specVertices {K : Type} [Field K] (M : Libm K) (position : Vec3 K) (radius : K)
    (color : Vec3 K) (sectorCount stackCount : Nat) : List K :=
  ((List.range (stackCount + 1)).flatMap (fun i =>
    (List.range (sectorCount + 1)).map (fun j =>
      specVertexRecord M position radius color sectorCount stackCount i j))).flatten

/-- The spec's index buffer: for each pair of adjacent rings and each sector the quad's two
triangles, without the first triangle at the top ring and without the second at the bottom
ring.  It is a function of the two counts alone. -/
def specIndices (sectorCount stackCount : Nat) : List Nat :=
  (List.range stackCount).flatMap (fun i =>
    (List.range sectorCount).flatMap (Sphere.quadIndices sectorCount stackCount i))

/-- The parameters `(position, radius, colour)` that a sequence of method calls leaves: each
setter replaces its own parameter, `setup` and `render` replace none. -/
def paramsAfter {K : Type} (ops : List (SphereOp K)) (params : Vec3 K × K × Vec3 K) :
    Vec3 K × K × Vec3 K :=
  ops.foldl (fun (p : Vec3 K × K × Vec3 K) (op : SphereOp K) =>
    match op with
    | SphereOp.setup => p
    | SphereOp.render => p
    | SphereOp.setPosition newPosition => (newPosition, p.2.1, p.2.2)
    | SphereOp.setRadius newRadius => (p.1, newRadius, p.2.2)
    | SphereOp.setColor newColor => (p.1, p.2.1, newColor)) params

/-! ## Theorems -/

section RaySphere

/-- A non-zero vector has a positive squared length. -/
theorem Vec3.dot_self_pos {d : Vec3 ℝ} (hd : d ≠ ⟨0, 0, 0⟩) : 0 < Vec3.dot d d := by
  obtain ⟨x, y, z⟩ := d
  have h : ¬ (x = 0 ∧ y = 0 ∧ z = 0) := by
    rintro ⟨rfl, rfl, rfl⟩
    exact hd rfl
  simp only [Vec3.dot]
  by_contra hneg
  have hx : x = 0 := by nlinarith [sq_nonneg x, sq_nonneg y, sq_nonneg z]
  have hy : y = 0 := by nlinarith [sq_nonneg x, sq_nonneg y, sq_nonneg z]
  have hz : z = 0 := by nlinarith [sq_nonneg x, sq_nonneg y, sq_nonneg z]
  exact h ⟨hx, hy, hz⟩

/-- The squared distance from the ray point to the centre, minus the squared radius, is the
quadratic `a t² + b t + c` of `raySphereIntersection`. -/
theorem rayPoint_quadratic (o d c : Vec3 ℝ) (r t : ℝ) :
    Vec3.dot (Vec3.sub (rayPoint o d t) c) (Vec3.sub (rayPoint o d t) c) - r * r
      = Vec3.dot d d * t * t + 2 * Vec3.dot (Vec3.sub o c) d * t
        + (Vec3.dot (Vec3.sub o c) (Vec3.sub o c) - r * r) := by
  simp only [Vec3.dot, Vec3.sub, rayPoint, Vec3.add, Vec3.smul]
  ring

/-- Over the reals, for a non-negative radius, the ray point is on the sphere exactly when
the parameter is a root of the quadratic. -/
theorem onSphere_iff_root (o d c : Vec3 ℝ) (r t : ℝ) (hr : 0 ≤ r) :
    OnSphere (Libm.mk Real.pi Real.cos Real.sin Real.sqrt) o d c r t ↔
      Vec3.dot d d * t * t + 2 * Vec3.dot (Vec3.sub o c) d * t
        + (Vec3.dot (Vec3.sub o c) (Vec3.sub o c) - r * r) = 0 := by
  rw [← rayPoint_quadratic]
  unfold OnSphere Vec3.length
  simp only
  set X := Vec3.dot (Vec3.sub (rayPoint o d t) c) (Vec3.sub (rayPoint o d t) c) with hX
  have hXnn : 0 ≤ X := by
    simp only [hX, Vec3.dot]
    nlinarith [sq_nonneg (Vec3.sub (rayPoint o d t) c).x,
      sq_nonneg (Vec3.sub (rayPoint o d t) c).y, sq_nonneg (Vec3.sub (rayPoint o d t) c).z]
  constructor
  · intro h
    have := Real.mul_self_sqrt hXnn
    rw [h] at this
    linarith
  · intro h
    have hXr : X = r * r := by linarith
    rw [hXr]
    exact Real.sqrt_mul_self hr

/-- Factorisation of a quadratic with non-negative discriminant through its two roots. -/
theorem quadratic_factor (a b c s t : ℝ) (ha : a ≠ 0) (hs : s * s = b * b - 4 * a * c) :
    a * t * t + b * t + c = a * (t - (-b - s) / (2 * a)) * (t - (-b + s) / (2 * a)) := by
  field_simp
  linear_combination a * hs

/-- A quadratic with positive leading coefficient and negative discriminant has no root. -/
theorem quadratic_no_root (a b c t : ℝ) (ha : 0 < a) (hdisc : b * b - 4 * a * c < 0) :
    a * t * t + b * t + c ≠ 0 := by
  intro h
  nlinarith [sq_nonneg (2 * a * t + b)]

/-- The roots of the quadratic are exactly the two values computed by the code, and they are
ordered. -/
theorem quadratic_roots (a b c t : ℝ) (ha : 0 < a) (hdisc : ¬ b * b - 4 * a * c < 0) :
    (a * t * t + b * t + c = 0 ↔
      t = (-b - Real.sqrt (b * b - 4 * a * c)) / (2 * a) ∨
      t = (-b + Real.sqrt (b * b - 4 * a * c)) / (2 * a)) ∧
    (-b - Real.sqrt (b * b - 4 * a * c)) / (2 * a)
      ≤ (-b + Real.sqrt (b * b - 4 * a * c)) / (2 * a) := by
  have hnn : 0 ≤ b * b - 4 * a * c := not_lt.mp hdisc
  have hs := Real.mul_self_sqrt hnn
  have hs0 := Real.sqrt_nonneg (b * b - 4 * a * c)
  have hfac := quadratic_factor a b c (Real.sqrt (b * b - 4 * a * c)) t ha.ne' (by linarith)
  refine ⟨?_, ?_⟩
  · rw [hfac]
    constructor
    · intro h
      rcases mul_eq_zero.mp h with h1 | h2
      · rcases mul_eq_zero.mp h1 with h0 | h3
        · exact absurd h0 ha.ne'
        · left; linarith
      · right; linarith
    · rintro (h | h)
      · rw [← h]; ring
      · rw [← h]; ring
  · apply div_le_div_of_nonneg_right _ (by linarith : (0 : ℝ) ≤ 2 * a)
    linarith

/-- Over the reals, for a non-zero direction and a non-negative radius, a parameter reported
by `raySphereIntersection` is positive and puts the ray point on the sphere. -/
theorem raySphereIntersection_sound (o d c : Vec3 ℝ) (r : ℝ)
    (hd : d ≠ ⟨0, 0, 0⟩) (hr : 0 ≤ r) (t0 : ℝ)
    (h : raySphereIntersection (Libm.mk Real.pi Real.cos Real.sin Real.sqrt) o d c r = some t0) :
    0 < t0 ∧ OnSphere (Libm.mk Real.pi Real.cos Real.sin Real.sqrt) o d c r t0 := by
  have ha := Vec3.dot_self_pos hd
  rw [onSphere_iff_root o d c r _ hr]
  unfold raySphereIntersection at h
  simp only at h
  by_cases hdisc : 2 * Vec3.dot (Vec3.sub o c) d * (2 * Vec3.dot (Vec3.sub o c) d)
      - 4 * Vec3.dot d d * (Vec3.dot (Vec3.sub o c) (Vec3.sub o c) - r * r) < 0
  · rw [if_pos hdisc] at h
    exact absurd h (by simp)
  · rw [if_neg hdisc] at h
    have hroots := fun t => (quadratic_roots (Vec3.dot d d) (2 * Vec3.dot (Vec3.sub o c) d)
      (Vec3.dot (Vec3.sub o c) (Vec3.sub o c) - r * r) t ha hdisc).1
    by_cases h1 : (-(2 * Vec3.dot (Vec3.sub o c) d)
        - Real.sqrt (2 * Vec3.dot (Vec3.sub o c) d * (2 * Vec3.dot (Vec3.sub o c) d)
          - 4 * Vec3.dot d d * (Vec3.dot (Vec3.sub o c) (Vec3.sub o c) - r * r)))
        / (2 * Vec3.dot d d) > 0
    · simp only [h1, if_true] at h
      rw [← Option.some.inj h]
      exact ⟨h1, (hroots _).2 (Or.inl rfl)⟩
    · simp only [h1, if_false] at h
      by_cases h2 : (-(2 * Vec3.dot (Vec3.sub o c) d)
          + Real.sqrt (2 * Vec3.dot (Vec3.sub o c) d * (2 * Vec3.dot (Vec3.sub o c) d)
            - 4 * Vec3.dot d d * (Vec3.dot (Vec3.sub o c) (Vec3.sub o c) - r * r)))
          / (2 * Vec3.dot d d) > 0
      · simp only [h2, if_true] at h
        rw [← Option.some.inj h]
        exact ⟨h2, (hroots _).2 (Or.inr rfl)⟩
      · simp only [h2, if_false] at h
        exact absurd h (by simp)

/-- C1. Over the reals, for a non-zero direction and a non-negative radius,
`raySphereIntersection` reports a hit exactly when some positive ray parameter puts the ray
point on the sphere, and the parameter it reports is positive, lies on the sphere and is the
least such parameter. -/
theorem raySphereIntersection_nearest_positive (o d c : Vec3 ℝ) (r : ℝ)
    (hd : d ≠ ⟨0, 0, 0⟩) (hr : 0 ≤ r) :
    ((raySphereIntersection (Libm.mk Real.pi Real.cos Real.sin Real.sqrt) o d c r).isSome = true ↔
      ∃ t, 0 < t ∧ OnSphere (Libm.mk Real.pi Real.cos Real.sin Real.sqrt) o d c r t) ∧
    ∀ t0, raySphereIntersection (Libm.mk Real.pi Real.cos Real.sin Real.sqrt) o d c r = some t0 →
      0 < t0 ∧ OnSphere (Libm.mk Real.pi Real.cos Real.sin Real.sqrt) o d c r t0 ∧
      ∀ t, 0 < t → OnSphere (Libm.mk Real.pi Real.cos Real.sin Real.sqrt) o d c r t → t0 ≤ t := by
  have ha := Vec3.dot_self_pos hd
  simp only [onSphere_iff_root o d c r _ hr]
  unfold raySphereIntersection
  simp only
  set a := Vec3.dot d d with ha_def
  set b := 2 * Vec3.dot (Vec3.sub o c) d with hb_def
  set cc := Vec3.dot (Vec3.sub o c) (Vec3.sub o c) - r * r with hc_def
  by_cases hdisc : b * b - 4 * a * cc < 0
  · simp only [hdisc, if_true]
    refine ⟨⟨fun h => by simp at h, ?_⟩, fun t0 h => by simp at h⟩
    rintro ⟨t, _, ht⟩
    exact absurd ht (quadratic_no_root a b cc t ha hdisc)
  · simp only [hdisc, if_false]
    have hroots := fun t => (quadratic_roots a b cc t ha hdisc).1
    have hle := (quadratic_roots a b cc 0 ha hdisc).2
    set t1 := (-b - Real.sqrt (b * b - 4 * a * cc)) / (2 * a) with ht1
    set t2 := (-b + Real.sqrt (b * b - 4 * a * cc)) / (2 * a) with ht2
    by_cases h1 : t1 > 0
    · simp only [h1, if_true]
      refine ⟨⟨fun _ => ⟨t1, h1, (hroots t1).2 (Or.inl rfl)⟩, fun _ => rfl⟩, ?_⟩
      intro t0 h
      have ht0 : t1 = t0 := Option.some.inj h
      subst ht0
      refine ⟨h1, (hroots _).2 (Or.inl rfl), ?_⟩
      intro t _ ht
      rcases (hroots t).1 ht with h' | h'
      · rw [h']
      · rw [h']; exact hle
    · simp only [h1, if_false]
      by_cases h2 : t2 > 0
      · simp only [h2, if_true]
        refine ⟨⟨fun _ => ⟨t2, h2, (hroots t2).2 (Or.inr rfl)⟩, fun _ => rfl⟩, ?_⟩
        intro t0 h
        have ht0 : t2 = t0 := Option.some.inj h
        subst ht0
        refine ⟨h2, (hroots _).2 (Or.inr rfl), ?_⟩
        intro t htpos ht
        rcases (hroots t).1 ht with h' | h'
        · rw [h'] at htpos; exact absurd htpos h1
        · rw [h']
      · simp only [h2, if_false]
        refine ⟨⟨fun h => by simp at h, ?_⟩, fun t0 h => by simp at h⟩
        rintro ⟨t, htpos, ht⟩
        rcases (hroots t).1 ht with h' | h'
        · rw [h'] at htpos; exact absurd htpos h1
        · rw [h'] at htpos; exact absurd htpos h2
/-- C1 at the spec's example: the ray from the origin along `-z` hits the unit sphere centred
at `(0,0,-5)` at `t = 4`, misses the one centred at `(0,0,5)`, and the reported parameter is
the least positive one on the sphere. -/
theorem raySphereIntersection_nearest_positive_witness :
    raySphereIntersection (Libm.mk Real.pi Real.cos Real.sin Real.sqrt)
        ⟨0, 0, 0⟩ ⟨0, 0, -1⟩ ⟨0, 0, -5⟩ 1 = some 4 ∧
    raySphereIntersection (Libm.mk Real.pi Real.cos Real.sin Real.sqrt)
        ⟨0, 0, 0⟩ ⟨0, 0, -1⟩ ⟨0, 0, 5⟩ 1 = none ∧
    (OnSphere (Libm.mk Real.pi Real.cos Real.sin Real.sqrt) ⟨0, 0, 0⟩ ⟨0, 0, -1⟩ ⟨0, 0, -5⟩ 1 4 ∧
      ∀ t : ℝ, 0 < t →
        OnSphere (Libm.mk Real.pi Real.cos Real.sin Real.sqrt) ⟨0, 0, 0⟩ ⟨0, 0, -1⟩ ⟨0, 0, -5⟩ 1 t →
        4 ≤ t) := by
  have hsqrt : Real.sqrt 4 = 2 := by
    rw [show (4 : ℝ) = 2 * 2 by norm_num]
    exact Real.sqrt_mul_self (by norm_num)
  have h1 : raySphereIntersection (Libm.mk Real.pi Real.cos Real.sin Real.sqrt)
      ⟨0, 0, 0⟩ ⟨0, 0, -1⟩ ⟨0, 0, -5⟩ 1 = some 4 := by
    simp only [raySphereIntersection, Vec3.sub, Vec3.dot]
    norm_num [hsqrt]
  have h2 : raySphereIntersection (Libm.mk Real.pi Real.cos Real.sin Real.sqrt)
      ⟨0, 0, 0⟩ ⟨0, 0, -1⟩ ⟨0, 0, 5⟩ 1 = none := by
    simp only [raySphereIntersection, Vec3.sub, Vec3.dot]
    norm_num [hsqrt]
  have hd : (⟨0, 0, -1⟩ : Vec3 ℝ) ≠ ⟨0, 0, 0⟩ := by
    intro h
    have hz := congrArg Vec3.z h
    norm_num at hz
  have h := (raySphereIntersection_nearest_positive ⟨0, 0, 0⟩ ⟨0, 0, -1⟩ ⟨0, 0, -5⟩ 1 hd
    (by norm_num)).2 4 h1
  exact ⟨h1, h2, h.2.1, h.2.2⟩

end RaySphere

section SphereCounts

variable {K : Type} [Field K]

/-- A left fold whose step always appends `c` elements grows the accumulator by `c` per
element folded. -/
theorem foldl_length_add {α β : Type} (f : List α → β → List α) (c : Nat)
    (h : ∀ acc x, (f acc x).length = acc.length + c) (xs : List β) (acc : List α) :
    (xs.foldl f acc).length = acc.length + c * xs.length := by
  induction xs generalizing acc with
  | nil => simp
  | cons x xs ih =>
    rw [List.foldl_cons, ih, h, List.length_cons]
    ring

/-- The same for a fold that carries extra state next to the list. -/
theorem foldl_fst_length_add {α β γ : Type} (f : List α × γ → β → List α × γ) (c : Nat)
    (h : ∀ st x, (f st x).1.length = st.1.length + c) (xs : List β) (st : List α × γ) :
    (xs.foldl f st).1.length = st.1.length + c * xs.length := by
  induction xs generalizing st with
  | nil => simp
  | cons x xs ih =>
    rw [List.foldl_cons, ih, h, List.length_cons]
    ring

/-- Number of index entries present after the first `n` stack iterations of the index loop:
the first triangle is skipped for `i = 0`, the second for `i = last`. -/
theorem indexLoop_length (sectorCount last : Nat) (n : Nat) :
    ((List.range n).foldl (fun (indices : List Nat) (i : Nat) =>
      let k1 := u32 (i * u32 (sectorCount + 1))
      let k2 := u32 (u32 (k1 + sectorCount) + 1)
      ((List.range sectorCount).foldl (fun (st : List Nat × Nat × Nat) _ =>
        let indices := st.1
        let k1 := st.2.1
        let k2 := st.2.2
        let indices := if i ≠ 0 then indices ++ [k1, k2, u32 (k1 + 1)] else indices
        let indices :=
          if i ≠ last then indices ++ [u32 (k1 + 1), k2, u32 (k2 + 1)]
          else indices
        (indices, u32 (k1 + 1), u32 (k2 + 1))) (indices, k1, k2)).1) []).length
      = 3 * sectorCount * ((n - 1) + (if n ≤ last then n else n - 1)) := by
  induction n with
  | zero => simp
  | succ n ih =>
    rw [List.range_succ, List.foldl_append, List.foldl_cons, List.foldl_nil]
    simp only
    rw [foldl_fst_length_add _
      ((if n ≠ 0 then 3 else 0) + (if n ≠ last then 3 else 0))]
    · simp only [List.length_range]
      rw [ih]
      by_cases h0 : n = 0
      · subst h0
        by_cases hl : (0 : Nat) = last
        · subst hl; simp
        · have : 1 ≤ last := by omega
          simp [hl, this]
      · by_cases hl : n = last
        · subst hl
          simp [h0]
          have : 1 ≤ n := by omega
          obtain ⟨m, rfl⟩ : ∃ m, n = m + 1 := ⟨n - 1, by omega⟩
          simp
          ring
        · simp only [h0, hl, ne_eq, not_false_eq_true, if_true]
          by_cases hle : n ≤ last
          · have h1 : n + 1 ≤ last := by omega
            simp only [hle, h1, if_true]
            obtain ⟨m, rfl⟩ : ∃ m, n = m + 1 := ⟨n - 1, by omega⟩
            simp
            ring
          · have h1 : ¬ n + 1 ≤ last := by omega
            simp only [hle, h1, if_false]
            obtain ⟨m, rfl⟩ : ∃ m, n = m + 1 := ⟨n - 1, by omega⟩
            simp
            ring
    · intro st x
      simp only
      split_ifs <;> simp [List.length_append]

/-- C6. For every sector count and every stack count from 1 up to the range of
`unsigned int` (in particular sectors ≥ 3, stacks ≥ 2), the generated index list has exactly
`6·sectors·(stacks−1)` entries, three for each of `2·sectors·(stacks−1)` triangles. -/
theorem generateVertices_index_count (M : Libm K) (s : Sphere K)
    (hst : 1 ≤ s.stackCount) (hrange : s.stackCount < 4294967296) :
    (Sphere.generateVertices M s).indices.length
        = 6 * s.sectorCount * (s.stackCount - 1) ∧
      (Sphere.generateVertices M s).indices.length
        = 3 * (2 * s.sectorCount * (s.stackCount - 1)) := by
  have hlast : u32 (s.stackCount + 4294967295) = s.stackCount - 1 := by
    unfold u32
    omega
  have h : (Sphere.generateVertices M s).indices.length
      = 6 * s.sectorCount * (s.stackCount - 1) := by
    simp only [Sphere.generateVertices, hlast]
    rw [indexLoop_length]
    have : ¬ s.stackCount ≤ s.stackCount - 1 := by omega
    simp only [this, if_false]
    ring
  exact ⟨h, by rw [h]; ring⟩

/-- C6 at the smallest sphere of the claim: three sectors and two stacks give 18 index
entries. -/
theorem generateVertices_index_count_witness :
    (Sphere.generateVertices (Libm.mk 3 id id id)
        (Sphere.new (Libm.mk 3 id id id) (⟨0, 0, 0⟩ : Vec3 ℚ) 1 3 2)).indices.length
      = 6 * 3 * (2 - 1) :=
  (generateVertices_index_count (Libm.mk 3 id id id)
    (Sphere.new (Libm.mk 3 id id id) (⟨0, 0, 0⟩ : Vec3 ℚ) 1 3 2)
    (by decide) (by decide)).1

/-- A push-back loop is the concatenation of what each iteration pushes. -/
theorem foldl_append_eq_flatMap {α β : Type} (g : β → List α) (xs : List β) (acc : List α) :
    xs.foldl (fun acc x => acc ++ g x) acc = acc ++ xs.flatMap g := by
  induction xs generalizing acc with
  | nil => simp
  | cons x xs ih => simp [List.foldl_cons, ih, List.flatMap_cons, List.append_assoc]

/-- The vertex buffer is the concatenation, ring by ring and column by column, of the
nine-float vertex records. -/
theorem generateVertices_vertices (M : Libm K) (s : Sphere K) :
    (Sphere.generateVertices M s).vertices
      = ((List.range (s.stackCount + 1)).flatMap (fun i =>
          (List.range (s.sectorCount + 1)).map (fun j => Sphere.vertexRecord M s i j))).flatten := by
  simp only [Sphere.generateVertices]
  have hinner : ∀ (acc : List K) (i : Nat),
      (List.range (s.sectorCount + 1)).foldl (fun (vertices : List K) (j : Nat) =>
        vertices ++ Sphere.vertexRecord M s i j) acc
      = acc ++ ((List.range (s.sectorCount + 1)).map
          (fun j => Sphere.vertexRecord M s i j)).flatten := by
    intro acc i
    rw [foldl_append_eq_flatMap, List.flatten_eq_flatMap, List.flatMap_map]
    rfl
  have houter := foldl_append_eq_flatMap
    (fun i => ((List.range (s.sectorCount + 1)).map
      (fun j => Sphere.vertexRecord M s i j)).flatten) (List.range (s.stackCount + 1)) []
  simp only [← hinner, List.nil_append] at houter
  simp only [Sphere.vertexRecord] at houter
  rw [houter]
  simp only [List.flatten_eq_flatMap, List.flatMap_assoc, List.flatMap_map, Sphere.vertexRecord,
    List.flatMap_id, id]

/-- Reading a buffer of nine-float records: float `m` of record `k`. -/
theorem getD_flatten_records {α : Type} (recs : List (List α)) (d : α)
    (h9 : ∀ r ∈ recs, r.length = 9) (k m : Nat) (hk : k < recs.length) (hm : m < 9) :
    recs.flatten.getD (9 * k + m) d = (recs.getD k []).getD m d := by
  induction recs generalizing k with
  | nil => simp at hk
  | cons r rs ih =>
    have hr : r.length = 9 := h9 r (List.mem_cons_self _ _)
    cases k with
    | zero =>
      simp only [List.flatten_cons, Nat.mul_zero, Nat.zero_add]
      rw [List.getD_append _ _ _ _ (by omega)]
      simp
    | succ k =>
      simp only [List.flatten_cons]
      rw [List.getD_append_right _ _ _ _ (by omega)]
      have hidx : 9 * (k + 1) + m - r.length = 9 * k + m := by omega
      rw [hidx, ih (fun r' hr' => h9 r' (List.mem_cons_of_mem _ hr')) k
        (by simpa using hk)]
      simp

/-- The number of records pushed by two nested counting loops. -/
theorem length_flatMap_map {α β γ : Type} (f : α → β → γ) (xs : List α) (ys : List β) :
    (xs.flatMap (fun i => ys.map (f i))).length = xs.length * ys.length := by
  induction xs with
  | nil => simp
  | cons x xs ih =>
    simp only [List.flatMap_cons, List.length_append, List.length_map, ih, List.length_cons]
    ring

/-- C5. For every radius, position, colour, sector count and stack count (in particular
radius > 0, sectors ≥ 3, stacks ≥ 2), the generated vertex buffer holds nine floats for each
of the `(stacks+1)·(sectors+1)` vertices, and the last three floats of every vertex record
are the sphere's colour. -/
theorem generateVertices_vertex_count (M : Libm K) (s : Sphere K) :
    (Sphere.generateVertices M s).vertices.length
      = 9 * ((s.stackCount + 1) * (s.sectorCount + 1)) ∧
    ∀ k, k < (s.stackCount + 1) * (s.sectorCount + 1) →
      Sphere.vertexColor (Sphere.generateVertices M s) k = s.color := by
  constructor
  · simp only [Sphere.generateVertices]
    rw [foldl_length_add _ (9 * (s.sectorCount + 1))]
    · simp only [List.length_range, List.length_nil]
      ring
    · intro acc i
      rw [foldl_length_add _ 9]
      · simp [List.length_range]
      · intro acc j
        simp
  · intro k hk
    simp only [Sphere.vertexColor, generateVertices_vertices]
    have hlen : ((List.range (s.stackCount + 1)).flatMap (fun i =>
        (List.range (s.sectorCount + 1)).map
          (fun j => Sphere.vertexRecord M s i j))).length
        = (s.stackCount + 1) * (s.sectorCount + 1) := by
      rw [length_flatMap_map]
      simp
    have hmem : ∀ r ∈ (List.range (s.stackCount + 1)).flatMap (fun i =>
        (List.range (s.sectorCount + 1)).map (fun j => Sphere.vertexRecord M s i j)),
        ∃ i j, r = Sphere.vertexRecord M s i j := by
      intro r hrm
      rw [List.mem_flatMap] at hrm
      obtain ⟨i, _, hri⟩ := hrm
      rw [List.mem_map] at hri
      obtain ⟨j, _, hrj⟩ := hri
      exact ⟨i, j, hrj.symm⟩
    have h9 : ∀ r ∈ (List.range (s.stackCount + 1)).flatMap (fun i =>
        (List.range (s.sectorCount + 1)).map (fun j => Sphere.vertexRecord M s i j)),
        r.length = 9 := by
      intro r hrm
      obtain ⟨i, j, rfl⟩ := hmem r hrm
      rfl
    have hklt := hk
    rw [← hlen] at hklt
    have hget := List.getElem_mem (l := (List.range (s.stackCount + 1)).flatMap (fun i =>
        (List.range (s.sectorCount + 1)).map (fun j => Sphere.vertexRecord M s i j))) hklt
    obtain ⟨i, j, hij⟩ := hmem _ hget
    rw [getD_flatten_records _ (0 : K) h9 k 6 hklt (by omega),
      getD_flatten_records _ (0 : K) h9 k 7 hklt (by omega),
      getD_flatten_records _ (0 : K) h9 k 8 hklt (by omega),
      List.getD_eq_getElem _ _ hklt, hij]
    rfl

/-- C5 at the smallest sphere of the claim: three sectors and two stacks give 12 vertices,
108 floats, and vertex 5 carries the sphere's colour. -/
theorem generateVertices_vertex_count_witness :
    (Sphere.generateVertices (Libm.mk 3 id id id)
        (Sphere.new (Libm.mk 3 id id id) (⟨0, 0, 0⟩ : Vec3 ℚ) 1 3 2)).vertices.length
      = 9 * ((2 + 1) * (3 + 1)) ∧
    Sphere.vertexColor (Sphere.generateVertices (Libm.mk 3 id id id)
        (Sphere.new (Libm.mk 3 id id id) (⟨0, 0, 0⟩ : Vec3 ℚ) 1 3 2)) 5 = ⟨1, 1, 1⟩ :=
  ⟨(generateVertices_vertex_count (Libm.mk 3 id id id)
      (Sphere.new (Libm.mk 3 id id id) (⟨0, 0, 0⟩ : Vec3 ℚ) 1 3 2)).1,
    (generateVertices_vertex_count (Libm.mk 3 id id id)
      (Sphere.new (Libm.mk 3 id id id) (⟨0, 0, 0⟩ : Vec3 ℚ) 1 3 2)).2 5 (by decide)⟩

/-- Over the reals, the point computed from the two angles lies at distance `radius` from the
origin: `x² + y² + z² = radius²`. -/
theorem sphere_point_sq (R u v : ℝ) :
    R * Real.cos u * Real.cos v * (R * Real.cos u * Real.cos v)
      + R * Real.cos u * Real.sin v * (R * Real.cos u * Real.sin v)
      + R * Real.sin u * (R * Real.sin u) = R * R := by
  have hu := Real.cos_sq_add_sin_sq u
  have hv := Real.cos_sq_add_sin_sq v
  linear_combination (R ^ 2 * Real.cos u ^ 2) * hv + R ^ 2 * hu

/-- Over the reals and for a positive radius, every vertex record carries a unit normal and
a position at distance `radius` from the sphere's centre. -/
theorem vertexRecord_unit_normal_on_sphere (s : Sphere ℝ) (hr : 0 < s.radius) (i j : Nat) :
    Vec3.length (Libm.mk Real.pi Real.cos Real.sin Real.sqrt)
        ⟨(Sphere.vertexRecord (Libm.mk Real.pi Real.cos Real.sin Real.sqrt) s i j).getD 3 0,
         (Sphere.vertexRecord (Libm.mk Real.pi Real.cos Real.sin Real.sqrt) s i j).getD 4 0,
         (Sphere.vertexRecord (Libm.mk Real.pi Real.cos Real.sin Real.sqrt) s i j).getD 5 0⟩ = 1 ∧
    Vec3.length (Libm.mk Real.pi Real.cos Real.sin Real.sqrt)
        (Vec3.sub
          ⟨(Sphere.vertexRecord (Libm.mk Real.pi Real.cos Real.sin Real.sqrt) s i j).getD 0 0,
           (Sphere.vertexRecord (Libm.mk Real.pi Real.cos Real.sin Real.sqrt) s i j).getD 1 0,
           (Sphere.vertexRecord (Libm.mk Real.pi Real.cos Real.sin Real.sqrt) s i j).getD 2 0⟩
          s.position) = s.radius := by
  simp only [Sphere.vertexRecord, Vec3.length, Vec3.normalize, Vec3.smul, Vec3.dot, Vec3.sub,
    List.getD_cons_zero, List.getD_cons_succ]
  set u := Real.pi / 2 - (i : ℝ) * (Real.pi / (s.stackCount : ℝ)) with hu
  set v := (j : ℝ) * (2 * Real.pi / (s.sectorCount : ℝ)) with hv
  have hsq := sphere_point_sq s.radius u v
  have hR : Real.sqrt (s.radius * s.radius) = s.radius := Real.sqrt_mul_self hr.le
  rw [hsq, hR]
  constructor
  · have h1 : 1 / s.radius * (s.radius * Real.cos u * Real.cos v)
          * (1 / s.radius * (s.radius * Real.cos u * Real.cos v))
        + 1 / s.radius * (s.radius * Real.cos u * Real.sin v)
          * (1 / s.radius * (s.radius * Real.cos u * Real.sin v))
        + 1 / s.radius * (s.radius * Real.sin u) * (1 / s.radius * (s.radius * Real.sin u))
        = 1 := by
      have hne : s.radius ≠ 0 := hr.ne'
      field_simp
      linear_combination hsq
    rw [h1, Real.sqrt_one]
  · have h2 : (s.radius * Real.cos u * Real.cos v + s.position.x - s.position.x)
          * (s.radius * Real.cos u * Real.cos v + s.position.x - s.position.x)
        + (s.radius * Real.cos u * Real.sin v + s.position.y - s.position.y)
          * (s.radius * Real.cos u * Real.sin v + s.position.y - s.position.y)
        + (s.radius * Real.sin u + s.position.z - s.position.z)
          * (s.radius * Real.sin u + s.position.z - s.position.z)
        = s.radius * s.radius := by
      linear_combination hsq
    rw [h2, hR]

/-- C7. Over the reals, for every sphere with positive radius (any centre, colour, sector
and stack counts), every generated vertex has a normal of length 1 and a position whose
distance from the sphere's position equals the radius. -/
theorem generateVertices_unit_normals_on_sphere (s : Sphere ℝ) (hr : 0 < s.radius)
    (k : Nat) (hk : k < (s.stackCount + 1) * (s.sectorCount + 1)) :
    Vec3.length (Libm.mk Real.pi Real.cos Real.sin Real.sqrt)
        (Sphere.vertexNormal
          (Sphere.generateVertices (Libm.mk Real.pi Real.cos Real.sin Real.sqrt) s) k) = 1 ∧
    Vec3.length (Libm.mk Real.pi Real.cos Real.sin Real.sqrt)
        (Vec3.sub
          (Sphere.vertexPosition
            (Sphere.generateVertices (Libm.mk Real.pi Real.cos Real.sin Real.sqrt) s) k)
          (Sphere.getPosition
            (Sphere.generateVertices (Libm.mk Real.pi Real.cos Real.sin Real.sqrt) s)))
      = s.radius := by
  have hpos : Sphere.getPosition
      (Sphere.generateVertices (Libm.mk Real.pi Real.cos Real.sin Real.sqrt) s) = s.position := rfl
  rw [hpos]
  simp only [Sphere.vertexNormal, Sphere.vertexPosition, generateVertices_vertices]
  set recs := (List.range (s.stackCount + 1)).flatMap (fun i =>
      (List.range (s.sectorCount + 1)).map
        (fun j => Sphere.vertexRecord (Libm.mk Real.pi Real.cos Real.sin Real.sqrt) s i j))
    with hrecs
  have hlen : recs.length = (s.stackCount + 1) * (s.sectorCount + 1) := by
    rw [hrecs, length_flatMap_map]
    simp
  have hmem : ∀ r ∈ recs, ∃ i j,
      r = Sphere.vertexRecord (Libm.mk Real.pi Real.cos Real.sin Real.sqrt) s i j := by
    intro r hrm
    rw [hrecs, List.mem_flatMap] at hrm
    obtain ⟨i, _, hri⟩ := hrm
    rw [List.mem_map] at hri
    obtain ⟨j, _, hrj⟩ := hri
    exact ⟨i, j, hrj.symm⟩
  have h9 : ∀ r ∈ recs, r.length = 9 := by
    intro r hrm
    obtain ⟨i, j, rfl⟩ := hmem r hrm
    rfl
  have hklt : k < recs.length := by rw [hlen]; exact hk
  have hget : recs.getD k [] ∈ recs := by
    rw [List.getD_eq_getElem _ _ hklt]
    exact List.getElem_mem _
  obtain ⟨i, j, hij⟩ := hmem _ hget
  have h0 := getD_flatten_records recs (0 : ℝ) h9 k 0 hklt (by omega)
  have h1 := getD_flatten_records recs (0 : ℝ) h9 k 1 hklt (by omega)
  have h2 := getD_flatten_records recs (0 : ℝ) h9 k 2 hklt (by omega)
  have h3 := getD_flatten_records recs (0 : ℝ) h9 k 3 hklt (by omega)
  have h4 := getD_flatten_records recs (0 : ℝ) h9 k 4 hklt (by omega)
  have h5 := getD_flatten_records recs (0 : ℝ) h9 k 5 hklt (by omega)
  simp only [Nat.add_zero] at h0
  rw [h0, h1, h2, h3, h4, h5, hij]
  exact vertexRecord_unit_normal_on_sphere s hr i j

/-- C7 at a concrete sphere: radius 2, centre `(1,2,3)`, three sectors and two stacks; its
vertex number 5 has a unit normal and lies at distance 2 from the centre. -/
theorem generateVertices_unit_normals_on_sphere_witness :
    Vec3.length (Libm.mk Real.pi Real.cos Real.sin Real.sqrt)
        (Sphere.vertexNormal
          (Sphere.generateVertices (Libm.mk Real.pi Real.cos Real.sin Real.sqrt)
            (Sphere.new (Libm.mk Real.pi Real.cos Real.sin Real.sqrt) ⟨1, 2, 3⟩ 2 3 2)) 5) = 1 ∧
    Vec3.length (Libm.mk Real.pi Real.cos Real.sin Real.sqrt)
        (Vec3.sub
          (Sphere.vertexPosition
            (Sphere.generateVertices (Libm.mk Real.pi Real.cos Real.sin Real.sqrt)
              (Sphere.new (Libm.mk Real.pi Real.cos Real.sin Real.sqrt) ⟨1, 2, 3⟩ 2 3 2)) 5)
          (Sphere.getPosition
            (Sphere.generateVertices (Libm.mk Real.pi Real.cos Real.sin Real.sqrt)
              (Sphere.new (Libm.mk Real.pi Real.cos Real.sin Real.sqrt) ⟨1, 2, 3⟩ 2 3 2))))
      = 2 :=
  generateVertices_unit_normals_on_sphere
    (Sphere.new (Libm.mk Real.pi Real.cos Real.sin Real.sqrt) ⟨1, 2, 3⟩ 2 3 2)
    (by show (0 : ℝ) < 2; norm_num) 5 (by show 5 < (2 + 1) * (3 + 1); decide)

end SphereCounts

section ClickScanProofs

variable {K : Type} [LinearOrderedField K]

/-- A sphere index below `2^31` survives the conversion `int closestSphereIndex = i`. -/
theorem i32_natCast (n : Nat) (h : n < 2147483648) : i32 (n : Int) = (n : Int) := by
  unfold i32
  omega

end ClickScanProofs

section ClickExamples

/-- The square roots needed by the examples. -/
theorem sqrt_examples : Real.sqrt 1 = 1 ∧ Real.sqrt 16 = 4 ∧ Real.sqrt 36 = 6 := by
  refine ⟨Real.sqrt_one, ?_, ?_⟩
  · rw [show (16 : ℝ) = 4 * 4 by norm_num]
    exact Real.sqrt_mul_self (by norm_num)
  · rw [show (36 : ℝ) = 6 * 6 by norm_num]
    exact Real.sqrt_mul_self (by norm_num)

/-- In the two-sphere scenario the first sphere is hit at `t = 7`. -/
theorem twoSphereGame_hit_first :
    clickHit (Libm.mk Real.pi Real.cos Real.sin Real.sqrt)
      (twoSphereGame ℝ (Libm.mk Real.pi Real.cos Real.sin Real.sqrt))
      (Sphere.new (Libm.mk Real.pi Real.cos Real.sin Real.sqrt) ⟨0, 0, -10⟩ 2 3 2) = some 7 := by
  obtain ⟨h1, _, h36⟩ := sqrt_examples
  simp only [clickHit, twoSphereGame, Sphere.getPosition, Sphere.getRadius, Sphere.new,
    Sphere.generateVertices, raySphereIntersection, Vec3.normalize, Vec3.smul, Vec3.dot,
    Vec3.sub]
  norm_num [h1, h36]

/-- In the two-sphere scenario the second sphere is hit at `t = 3`. -/
theorem twoSphereGame_hit_second :
    clickHit (Libm.mk Real.pi Real.cos Real.sin Real.sqrt)
      (twoSphereGame ℝ (Libm.mk Real.pi Real.cos Real.sin Real.sqrt))
      (Sphere.new (Libm.mk Real.pi Real.cos Real.sin Real.sqrt) ⟨0, 0, -5⟩ 1 3 2) = some 3 := by
  obtain ⟨h1, h16, _⟩ := sqrt_examples
  simp only [clickHit, twoSphereGame, Sphere.getPosition, Sphere.getRadius, Sphere.new,
    Sphere.generateVertices, raySphereIntersection, Vec3.normalize, Vec3.smul, Vec3.dot,
    Vec3.sub]
  norm_num [h1, h16]

end ClickExamples


/-- The method `setup` leaves the sphere's parameters as they are. -/
theorem setup_fields {K : Type} (s : Sphere K) (gl : GLState) :
    (Sphere.setup s gl).1.position = s.position ∧
    (Sphere.setup s gl).1.radius = s.radius ∧
    (Sphere.setup s gl).1.color = s.color ∧
    (Sphere.setup s gl).1.sectorCount = s.sectorCount ∧
    (Sphere.setup s gl).1.stackCount = s.stackCount :=
  ⟨rfl, rfl, rfl, rfl, rfl⟩

section SphereFields

variable {K : Type} [Field K]

/-- Regeneration of the buffers leaves the sphere's parameters and set-up flag as they
are. -/
theorem generateVertices_fields (M : Libm K) (s : Sphere K) :
    (Sphere.generateVertices M s).position = s.position ∧
    (Sphere.generateVertices M s).radius = s.radius ∧
    (Sphere.generateVertices M s).color = s.color ∧
    (Sphere.generateVertices M s).sectorCount = s.sectorCount ∧
    (Sphere.generateVertices M s).stackCount = s.stackCount ∧
    (Sphere.generateVertices M s).isSetup = s.isSetup :=
  ⟨rfl, rfl, rfl, rfl, rfl, rfl⟩

/-- The parameters of a sphere after `setPosition`. -/
theorem setPosition_fields (M : Libm K) (p : Vec3 K) (s : Sphere K) (gl : GLState) :
    (Sphere.setPosition M p s gl).1.position = p ∧
    (Sphere.setPosition M p s gl).1.radius = s.radius ∧
    (Sphere.setPosition M p s gl).1.color = s.color ∧
    (Sphere.setPosition M p s gl).1.sectorCount = s.sectorCount ∧
    (Sphere.setPosition M p s gl).1.stackCount = s.stackCount := by
  unfold Sphere.setPosition
  simp only [(generateVertices_fields M _).2.2.2.2.2]
  cases s.isSetup
  · exact ⟨rfl, rfl, rfl, rfl, rfl⟩
  · exact ⟨rfl, rfl, rfl, rfl, rfl⟩

/-- The parameters of a sphere after `setColor`. -/
theorem setColor_fields (M : Libm K) (c : Vec3 K) (s : Sphere K) (gl : GLState) :
    (Sphere.setColor M c s gl).1.position = s.position ∧
    (Sphere.setColor M c s gl).1.radius = s.radius ∧
    (Sphere.setColor M c s gl).1.color = c ∧
    (Sphere.setColor M c s gl).1.sectorCount = s.sectorCount ∧
    (Sphere.setColor M c s gl).1.stackCount = s.stackCount := by
  unfold Sphere.setColor
  simp only [(generateVertices_fields M _).2.2.2.2.2]
  cases s.isSetup
  · exact ⟨rfl, rfl, rfl, rfl, rfl⟩
  · exact ⟨rfl, rfl, rfl, rfl, rfl⟩

/-- The parameters of a sphere after `setRadius`. -/
theorem setRadius_fields (M : Libm K) (r : K) (s : Sphere K) (gl : GLState) :
    (Sphere.setRadius M r s gl).1.position = s.position ∧
    (Sphere.setRadius M r s gl).1.radius = r ∧
    (Sphere.setRadius M r s gl).1.color = s.color ∧
    (Sphere.setRadius M r s gl).1.sectorCount = s.sectorCount ∧
    (Sphere.setRadius M r s gl).1.stackCount = s.stackCount := by
  unfold Sphere.setRadius
  simp only [(generateVertices_fields M _).2.2.2.2.2]
  cases s.isSetup
  · exact ⟨rfl, rfl, rfl, rfl, rfl⟩
  · exact ⟨rfl, rfl, rfl, rfl, rfl⟩

end SphereFields

section ClickFrame

variable {K : Type} [LinearOrderedField K]

/-- A respawned sphere carries the three random values and keeps its tessellation
counts. -/
theorem respawn_fields (M : Libm K) (rnd : Respawn K) (s : Sphere K) (gl : GLState) :
    (respawn M rnd s gl).1.position = rnd.position ∧
    (respawn M rnd s gl).1.color = rnd.color ∧
    (respawn M rnd s gl).1.radius = rnd.size ∧
    (respawn M rnd s gl).1.sectorCount = s.sectorCount ∧
    (respawn M rnd s gl).1.stackCount = s.stackCount := by
  unfold respawn
  simp only
  obtain ⟨hp1, _, _, hp4, hp5⟩ := setPosition_fields M rnd.position s gl
  obtain ⟨hc1, _, hc3, hc4, hc5⟩ := setColor_fields M rnd.color
    (Sphere.setPosition M rnd.position s gl).1 (Sphere.setPosition M rnd.position s gl).2
  obtain ⟨hr1, hr2, hr3, hr4, hr5⟩ := setRadius_fields M rnd.size
    (Sphere.setColor M rnd.color (Sphere.setPosition M rnd.position s gl).1
      (Sphere.setPosition M rnd.position s gl).2).1
    (Sphere.setColor M rnd.color (Sphere.setPosition M rnd.position s gl).1
      (Sphere.setPosition M rnd.position s gl).2).2
  exact ⟨by rw [hr1, hc1, hp1], by rw [hr3, hc3], hr2, by rw [hr4, hc4, hp4],
    by rw [hr5, hc5, hp5]⟩

/-- While the loop runs, a recorded hit index is the index of a visited sphere that reported
a hit. -/
theorem clickFold_hit (M : Libm K) (g : Game K) (xs : List (Sphere K)) :
    ∀ (pre : List (Sphere K)) (st : ClickScan K),
      (pre ++ xs).length < 2147483648 →
      (st.hitAny = true → ∃ (k : Nat) (s : Sphere K),
        st.closestSphereIndex = (k : Int) ∧ pre[k]? = some s ∧
        (clickHit M g s).isSome = true) →
      (((List.enumFrom pre.length xs).foldl (clickStep M g) st).hitAny = true →
        ∃ (k : Nat) (s : Sphere K),
          ((List.enumFrom pre.length xs).foldl (clickStep M g) st).closestSphereIndex
            = (k : Int) ∧
          (pre ++ xs)[k]? = some s ∧ (clickHit M g s).isSome = true) := by
  induction xs with
  | nil => intro pre st _ h; simpa using h
  | cons x rest ih =>
    intro pre st hlen h
    have hlen1 : pre.length < 2147483648 := by
      simp only [List.length_append, List.length_cons] at hlen
      omega
    have hstep : (clickStep M g st (pre.length, x)).hitAny = true →
        ∃ (k : Nat) (s : Sphere K),
          (clickStep M g st (pre.length, x)).closestSphereIndex = (k : Int) ∧
          (pre ++ [x])[k]? = some s ∧ (clickHit M g s).isSome = true := by
      have hkeep : st.hitAny = true → ∃ (k : Nat) (s : Sphere K),
          st.closestSphereIndex = (k : Int) ∧
          (pre ++ [x])[k]? = some s ∧ (clickHit M g s).isSome = true := by
        intro h'
        obtain ⟨k, s, hk, hget, hsome⟩ := h h'
        have hklt : k < pre.length := (List.getElem?_eq_some_iff.mp hget).1
        exact ⟨k, s, hk, by rw [List.getElem?_append_left hklt]; exact hget, hsome⟩
      unfold clickStep
      simp only
      cases hx : clickHit M g x with
      | none => simpa using hkeep
      | some t =>
        simp only
        by_cases hlt : t < st.closestDistance
        · simp only [hlt, if_true]
          intro _
          refine ⟨pre.length, x, i32_natCast _ hlen1, ?_, by rw [hx]; rfl⟩
          rw [List.getElem?_append_right (le_refl _)]
          simp
        · simpa only [hlt, if_false] using hkeep
    have hih := ih (pre ++ [x]) (clickStep M g st (pre.length, x))
      (by simpa using hlen) hstep
    simpa [List.enumFrom_cons, List.foldl_cons] using hih

/-- A left-button press either changes nothing, or respawns one sphere that reported a hit
and updates the score. -/
theorem mouse_button_callback_press_hit (M : Libm K) (rnd : Respawn K) (g : Game K)
    (spheres : List (Sphere K)) (hs : g.spheres = some spheres)
    (hlen : spheres.length < 2147483648) :
    (¬ ((clickScan M g spheres).hitAny = true ∧
          0 ≤ (clickScan M g spheres).closestSphereIndex) ∧
      mouse_button_callback M rnd GLFW_MOUSE_BUTTON_LEFT GLFW_PRESS g = g) ∨
    (((clickScan M g spheres).hitAny = true ∧
          0 ≤ (clickScan M g spheres).closestSphereIndex) ∧
      ∃ (k : Nat) (sphere : Sphere K),
        (clickScan M g spheres).closestSphereIndex = (k : Int) ∧
        spheres[k]? = some sphere ∧ (clickHit M g sphere).isSome = true ∧
        mouse_button_callback M rnd GLFW_MOUSE_BUTTON_LEFT GLFW_PRESS g =
          { g with score := i32 (g.score + 10),
                   spheres := some (spheres.set k (respawn M rnd sphere g.gl).1),
                   gl := (respawn M rnd sphere g.gl).2 }) := by
  by_cases hsel : (clickScan M g spheres).hitAny = true ∧
      0 ≤ (clickScan M g spheres).closestSphereIndex
  · right
    have hidx := clickFold_hit M g spheres []
      { hitAny := false, closestDistance := FLT_MAX, closestSphereIndex := -1,
        hitDistance := 0 }
      (by simpa using hlen) (by simp)
    have hidx' : ∃ (k : Nat) (s : Sphere K),
        (clickScan M g spheres).closestSphereIndex = (k : Int) ∧
        spheres[k]? = some s ∧ (clickHit M g s).isSome = true := by
      simpa [clickScan, List.enum] using hidx (by simpa [clickScan, List.enum] using hsel.1)
    obtain ⟨k, sphere, hk, hget, hsome⟩ := hidx'
    have hklt : k < spheres.length := (List.getElem?_eq_some_iff.mp hget).1
    have hne : (!spheres.isEmpty) = true := by
      cases spheres with
      | nil => simp at hklt
      | cons a l => rfl
    refine ⟨hsel, k, sphere, hk, hget, hsome, ?_⟩
    unfold mouse_button_callback
    simp only [and_self, if_true, hs, hne, hsel.1, hk, true_and, ge_iff_le,
      Nat.cast_nonneg, Int.toNat_ofNat, hget]
  · left
    refine ⟨hsel, ?_⟩
    unfold mouse_button_callback
    simp only [and_self, if_true, hs]
    by_cases hne : (!spheres.isEmpty) = true
    · rw [if_pos hne]
      simp only [ge_iff_le]
      rw [if_neg hsel]
    · rw [if_neg hne]

/-- C4. For every game state whose score can grow by 10 within `int` and whose sphere list
has fewer than `2^31` entries: an event that is not a left-button press changes nothing; a
left press with an absent or empty sphere list, or one whose hit resolution selects no
sphere, changes nothing; and a left press whose hit resolution selects a sphere adds exactly
10 to the score and replaces exactly the selected sphere by one carrying the random position,
colour and radius, every other sphere staying as it was. -/
theorem mouse_button_callback_frame (M : Libm K) (rnd : Respawn K) (button action : Int)
    (g : Game K)
    (hscore : -2147483648 ≤ g.score ∧ g.score + 10 < 2147483648)
    (hlen : ∀ spheres, g.spheres = some spheres → spheres.length < 2147483648) :
    (¬ (button = GLFW_MOUSE_BUTTON_LEFT ∧ action = GLFW_PRESS) →
      mouse_button_callback M rnd button action g = g) ∧
    (g.spheres = none →
      mouse_button_callback M rnd GLFW_MOUSE_BUTTON_LEFT GLFW_PRESS g = g) ∧
    (∀ spheres, g.spheres = some spheres →
      (spheres = [] →
        mouse_button_callback M rnd GLFW_MOUSE_BUTTON_LEFT GLFW_PRESS g = g) ∧
      (¬ ((clickScan M g spheres).hitAny = true ∧
            0 ≤ (clickScan M g spheres).closestSphereIndex) →
        mouse_button_callback M rnd GLFW_MOUSE_BUTTON_LEFT GLFW_PRESS g = g) ∧
      (((clickScan M g spheres).hitAny = true ∧
            0 ≤ (clickScan M g spheres).closestSphereIndex) →
        ∃ (k : Nat) (spheres' : List (Sphere K)) (hitSphere : Sphere K),
          (clickScan M g spheres).closestSphereIndex = (k : Int) ∧
          k < spheres.length ∧
          (mouse_button_callback M rnd GLFW_MOUSE_BUTTON_LEFT GLFW_PRESS g).score
            = g.score + 10 ∧
          (mouse_button_callback M rnd GLFW_MOUSE_BUTTON_LEFT GLFW_PRESS g).spheres
            = some spheres' ∧
          spheres'.length = spheres.length ∧
          spheres'[k]? = some hitSphere ∧
          hitSphere.position = rnd.position ∧
          hitSphere.color = rnd.color ∧
          hitSphere.radius = rnd.size ∧
          ∀ j : Nat, j ≠ k → spheres'[j]? = spheres[j]?)) := by
  refine ⟨?_, ?_, ?_⟩
  · intro h
    unfold mouse_button_callback
    rw [if_neg h]
  · intro h
    unfold mouse_button_callback
    simp [h]
  · intro spheres hs
    refine ⟨?_, ?_, ?_⟩
    · intro hemp
      unfold mouse_button_callback
      simp [hs, hemp]
    · intro hsel
      rcases mouse_button_callback_press_hit M rnd g spheres hs (hlen spheres hs) with
        ⟨_, h⟩ | ⟨h, _⟩
      · exact h
      · exact absurd h hsel
    · intro hsel
      rcases mouse_button_callback_press_hit M rnd g spheres hs (hlen spheres hs) with
        ⟨h, _⟩ | ⟨_, k, sphere, hk, hget, _, hres⟩
      · exact absurd hsel h
      · have hklt : k < spheres.length := (List.getElem?_eq_some_iff.mp hget).1
        have hi32 : i32 (g.score + 10) = g.score + 10 := by
          unfold i32
          omega
        obtain ⟨hp, hc, hr, _, _⟩ := respawn_fields M rnd sphere g.gl
        refine ⟨k, spheres.set k (respawn M rnd sphere g.gl).1,
          (respawn M rnd sphere g.gl).1, hk, hklt, ?_, ?_, ?_, ?_, hp, hc, hr, ?_⟩
        · rw [hres]; exact hi32
        · rw [hres]
        · simp
        · rw [List.getElem?_set_self hklt]
        · intro j hj
          rw [List.getElem?_set_ne (Ne.symm hj)]

end ClickFrame

section ClickFrameExample

/-- In the two-sphere scenario the loop ends with the second sphere recorded at `t = 3`. -/
theorem twoSphereGame_scan :
    clickScan (Libm.mk Real.pi Real.cos Real.sin Real.sqrt)
      (twoSphereGame ℝ (Libm.mk Real.pi Real.cos Real.sin Real.sqrt))
      [Sphere.new (Libm.mk Real.pi Real.cos Real.sin Real.sqrt) ⟨0, 0, -10⟩ 2 3 2,
       Sphere.new (Libm.mk Real.pi Real.cos Real.sin Real.sqrt) ⟨0, 0, -5⟩ 1 3 2]
      = { hitAny := true, closestDistance := 3, closestSphereIndex := 1, hitDistance := 3 } := by
  have h7 : (7 : ℝ) < FLT_MAX := by norm_num [FLT_MAX]
  have h37 : (3 : ℝ) < 7 := by norm_num
  have hi : i32 ((1 : Nat) : Int) = 1 := by decide
  simp only [clickScan, List.enum, List.enumFrom, List.foldl_cons, List.foldl_nil, clickStep,
    twoSphereGame_hit_first, twoSphereGame_hit_second, h7, h37, if_true, hi]

/-- C4 at the spec's scenario: the left click adds 10 to the score of 0 and the second
sphere, and only it, is replaced by a sphere with the random position, colour and radius. -/
theorem mouse_button_callback_frame_witness :
    ∃ (spheres' : List (Sphere ℝ)) (hitSphere : Sphere ℝ),
      (mouse_button_callback (Libm.mk Real.pi Real.cos Real.sin Real.sqrt)
          ⟨⟨1, 2, 3⟩, ⟨1, 0, 0⟩, 3⟩ GLFW_MOUSE_BUTTON_LEFT GLFW_PRESS
          (twoSphereGame ℝ (Libm.mk Real.pi Real.cos Real.sin Real.sqrt))).score = 0 + 10 ∧
      (mouse_button_callback (Libm.mk Real.pi Real.cos Real.sin Real.sqrt)
          ⟨⟨1, 2, 3⟩, ⟨1, 0, 0⟩, 3⟩ GLFW_MOUSE_BUTTON_LEFT GLFW_PRESS
          (twoSphereGame ℝ (Libm.mk Real.pi Real.cos Real.sin Real.sqrt))).spheres
        = some spheres' ∧
      spheres'.length = 2 ∧
      spheres'[1]? = some hitSphere ∧
      hitSphere.position = ⟨1, 2, 3⟩ ∧ hitSphere.color = ⟨1, 0, 0⟩ ∧ hitSphere.radius = 3 ∧
      spheres'[0]? = some
        (Sphere.new (Libm.mk Real.pi Real.cos Real.sin Real.sqrt) ⟨0, 0, -10⟩ 2 3 2) := by
  have hsel :
      (clickScan (Libm.mk Real.pi Real.cos Real.sin Real.sqrt)
        (twoSphereGame ℝ (Libm.mk Real.pi Real.cos Real.sin Real.sqrt))
        [Sphere.new (Libm.mk Real.pi Real.cos Real.sin Real.sqrt) ⟨0, 0, -10⟩ 2 3 2,
         Sphere.new (Libm.mk Real.pi Real.cos Real.sin Real.sqrt) ⟨0, 0, -5⟩ 1 3 2]).hitAny
        = true ∧
      0 ≤ (clickScan (Libm.mk Real.pi Real.cos Real.sin Real.sqrt)
        (twoSphereGame ℝ (Libm.mk Real.pi Real.cos Real.sin Real.sqrt))
        [Sphere.new (Libm.mk Real.pi Real.cos Real.sin Real.sqrt) ⟨0, 0, -10⟩ 2 3 2,
         Sphere.new (Libm.mk Real.pi Real.cos Real.sin Real.sqrt) ⟨0, 0, -5⟩ 1 3 2]).closestSphereIndex := by
    rw [twoSphereGame_scan]
    exact ⟨rfl, by decide⟩
  obtain ⟨k, spheres', hitSphere, hk, _, hscore, hres, hlen, hget, hp, hc, hr, hothers⟩ :=
    ((mouse_button_callback_frame (Libm.mk Real.pi Real.cos Real.sin Real.sqrt)
      ⟨⟨1, 2, 3⟩, ⟨1, 0, 0⟩, 3⟩ GLFW_MOUSE_BUTTON_LEFT GLFW_PRESS
      (twoSphereGame ℝ (Libm.mk Real.pi Real.cos Real.sin Real.sqrt))
      (by constructor <;> simp [twoSphereGame])
      (by
        intro spheres h
        have h' : spheres = [Sphere.new (Libm.mk Real.pi Real.cos Real.sin Real.sqrt)
              ⟨0, 0, -10⟩ 2 3 2,
            Sphere.new (Libm.mk Real.pi Real.cos Real.sin Real.sqrt) ⟨0, 0, -5⟩ 1 3 2] :=
          (Option.some.inj h).symm
        rw [h']
        simp)).2.2 _ rfl).2.2 hsel
  have hk1 : k = 1 := by
    rw [twoSphereGame_scan] at hk
    have hk' : (1 : Int) = (k : Int) := hk
    omega
  subst hk1
  refine ⟨spheres', hitSphere, hscore, hres, hlen, hget, hp, hc, hr, ?_⟩
  rw [hothers 0 (by decide)]
  rfl

end ClickFrameExample

section ClickGeometry

/-- Over the reals, normalizing a non-zero vector gives a vector of squared length 1. -/
theorem normalize_dot_self {f : Vec3 ℝ} (hf : f ≠ ⟨0, 0, 0⟩) :
    Vec3.dot (Vec3.normalize (Libm.mk Real.pi Real.cos Real.sin Real.sqrt) f)
      (Vec3.normalize (Libm.mk Real.pi Real.cos Real.sin Real.sqrt) f) = 1 := by
  have hpos := Vec3.dot_self_pos hf
  have hs := Real.mul_self_sqrt hpos.le
  have hsp : 0 < Real.sqrt (Vec3.dot f f) := Real.sqrt_pos.mpr hpos
  simp only [Vec3.normalize, Vec3.smul]
  simp only [Vec3.dot] at hs hsp ⊢
  have hne := hsp.ne'
  field_simp
  linear_combination -hs

/-- Over the reals, normalizing a non-zero vector gives a non-zero vector. -/
theorem normalize_ne_zero {f : Vec3 ℝ} (hf : f ≠ ⟨0, 0, 0⟩) :
    Vec3.normalize (Libm.mk Real.pi Real.cos Real.sin Real.sqrt) f ≠ ⟨0, 0, 0⟩ := by
  intro h
  have h1 := normalize_dot_self hf
  rw [h] at h1
  simp [Vec3.dot] at h1

/-- Over the reals, for a unit direction and a non-negative radius: when the distance from
the centre to the line of the ray exceeds the radius, `raySphereIntersection` reports no
hit. -/
theorem raySphereIntersection_miss (o d c : Vec3 ℝ) (r : ℝ)
    (hd : Vec3.dot d d = 1) (hr : 0 ≤ r)
    (hfar : r < distToCenter (Libm.mk Real.pi Real.cos Real.sin Real.sqrt) o d c) :
    raySphereIntersection (Libm.mk Real.pi Real.cos Real.sin Real.sqrt) o d c r = none := by
  unfold distToCenter Vec3.length at hfar
  simp only at hfar
  have hsq := (Real.lt_sqrt hr).mp hfar
  unfold raySphereIntersection
  simp only
  have hdisc : 2 * Vec3.dot (Vec3.sub o c) d * (2 * Vec3.dot (Vec3.sub o c) d)
      - 4 * Vec3.dot d d * (Vec3.dot (Vec3.sub o c) (Vec3.sub o c) - r * r) < 0 := by
    have key : 2 * Vec3.dot (Vec3.sub o c) d * (2 * Vec3.dot (Vec3.sub o c) d)
        - 4 * Vec3.dot d d * (Vec3.dot (Vec3.sub o c) (Vec3.sub o c) - r * r)
        = 4 * (r ^ 2 - Vec3.dot
            (Vec3.sub (Vec3.add o (Vec3.smul (Vec3.dot (Vec3.sub c o) d) d)) c)
            (Vec3.sub (Vec3.add o (Vec3.smul (Vec3.dot (Vec3.sub c o) d) d)) c))
          + (Vec3.dot d d - 1) * (4 * Vec3.dot (Vec3.sub o c) d ^ 2
            - 4 * Vec3.dot (Vec3.sub o c) (Vec3.sub o c) + 4 * r ^ 2) := by
      simp only [Vec3.dot, Vec3.sub, Vec3.add, Vec3.smul]
      ring
    rw [key, hd]
    linarith
  rw [if_pos hdisc]

/-- Over the reals, a zero `cameraFront` normalizes to the zero direction, for which
`raySphereIntersection` reports no hit. -/
theorem raySphereIntersection_zero_front (o c : Vec3 ℝ) (r : ℝ) :
    raySphereIntersection (Libm.mk Real.pi Real.cos Real.sin Real.sqrt) o
      (Vec3.normalize (Libm.mk Real.pi Real.cos Real.sin Real.sqrt) ⟨0, 0, 0⟩) c r = none := by
  simp [raySphereIntersection, Vec3.normalize, Vec3.smul, Vec3.dot]

/-- The test sphere of `main` is centred at `(0,0,-2)` and has radius `1/2`. -/
theorem testSphere_fields {K : Type} [Field K] (M : Libm K) (gl : GLState) :
    (testSphere K M gl).1.position = ⟨0, 0, -2⟩ ∧ (testSphere K M gl).1.radius = 1 / 2 :=
  ⟨rfl, rfl⟩

/-- In the near-miss scenario the click handler's hit test, run with radius
`getRadius() + 1`, reports a hit at `t = 19/5`. -/
theorem nearMissGame_hit :
    clickHit (Libm.mk Real.pi Real.cos Real.sin Real.sqrt)
      (nearMissGame ℝ (Libm.mk Real.pi Real.cos Real.sin Real.sqrt))
      (testSphere ℝ (Libm.mk Real.pi Real.cos Real.sin Real.sqrt) ⟨1, 1, []⟩).1
      = some (19 / 5) := by
  have h1 : Real.sqrt 1 = 1 := Real.sqrt_one
  have h2 : Real.sqrt (144 / 25) = 12 / 5 := by
    rw [show (144 / 25 : ℝ) = 12 / 5 * (12 / 5) by norm_num]
    exact Real.sqrt_mul_self (by norm_num)
  simp only [clickHit, Sphere.getPosition, Sphere.getRadius,
    (testSphere_fields (Libm.mk Real.pi Real.cos Real.sin Real.sqrt) ⟨1, 1, []⟩).1,
    (testSphere_fields (Libm.mk Real.pi Real.cos Real.sin Real.sqrt) ⟨1, 1, []⟩).2,
    nearMissGame, raySphereIntersection, Vec3.normalize, Vec3.smul, Vec3.dot, Vec3.sub]
  norm_num [h1, h2]

/-- In the near-miss scenario a left click respawns the sphere and sets the score to 10. -/
theorem nearMissGame_click (rnd : Respawn ℝ) :
    mouse_button_callback (Libm.mk Real.pi Real.cos Real.sin Real.sqrt) rnd
        GLFW_MOUSE_BUTTON_LEFT GLFW_PRESS
        (nearMissGame ℝ (Libm.mk Real.pi Real.cos Real.sin Real.sqrt))
      = { nearMissGame ℝ (Libm.mk Real.pi Real.cos Real.sin Real.sqrt) with
          score := 10,
          spheres := some [(respawn (Libm.mk Real.pi Real.cos Real.sin Real.sqrt) rnd
            (testSphere ℝ (Libm.mk Real.pi Real.cos Real.sin Real.sqrt) ⟨1, 1, []⟩).1
            (testSphere ℝ (Libm.mk Real.pi Real.cos Real.sin Real.sqrt) ⟨1, 1, []⟩).2).1],
          gl := (respawn (Libm.mk Real.pi Real.cos Real.sin Real.sqrt) rnd
            (testSphere ℝ (Libm.mk Real.pi Real.cos Real.sin Real.sqrt) ⟨1, 1, []⟩).1
            (testSphere ℝ (Libm.mk Real.pi Real.cos Real.sin Real.sqrt) ⟨1, 1, []⟩).2).2 } := by
  have hflt : (19 / 5 : ℝ) < FLT_MAX := by norm_num [FLT_MAX]
  have hi : i32 ((0 : Nat) : Int) = 0 := by decide
  have hscan : clickScan (Libm.mk Real.pi Real.cos Real.sin Real.sqrt)
      (nearMissGame ℝ (Libm.mk Real.pi Real.cos Real.sin Real.sqrt))
      [(testSphere ℝ (Libm.mk Real.pi Real.cos Real.sin Real.sqrt) ⟨1, 1, []⟩).1]
      = { hitAny := true, closestDistance := 19 / 5, closestSphereIndex := 0,
          hitDistance := 19 / 5 } := by
    simp only [clickScan, List.enum, List.enumFrom, List.foldl_cons, List.foldl_nil,
      clickStep, nearMissGame_hit, hflt, if_true, hi]
  rcases mouse_button_callback_press_hit (Libm.mk Real.pi Real.cos Real.sin Real.sqrt) rnd
      (nearMissGame ℝ (Libm.mk Real.pi Real.cos Real.sin Real.sqrt))
      [(testSphere ℝ (Libm.mk Real.pi Real.cos Real.sin Real.sqrt) ⟨1, 1, []⟩).1]
      rfl (by simp) with
    ⟨hno, _⟩ | ⟨_, k, sphere, hk, hget, _, hres⟩
  · rw [hscan] at hno
    exact absurd ⟨rfl, le_refl _⟩ hno
  · rw [hscan] at hk
    have hk' : (0 : Int) = (k : Int) := hk
    have hk0 : k = 0 := by omega
    subst hk0
    have hsphere : (testSphere ℝ (Libm.mk Real.pi Real.cos Real.sin Real.sqrt) ⟨1, 1, []⟩).1
        = sphere := by
      rw [List.getElem?_cons_zero] at hget
      exact Option.some.inj hget
    subst hsphere
    rw [hres]
    have hscore : i32 ((nearMissGame ℝ (Libm.mk Real.pi Real.cos Real.sin Real.sqrt)).score + 10)
        = 10 := by
      show i32 (0 + 10) = 10
      decide
    rw [hscore]
    rfl

/-- C3 fails as stated: in the near-miss scenario the line of sight passes the only sphere at
distance `9/10`, more than its radius `1/2`, and `raySphereIntersection` with the sphere's own
radius reports no hit, yet the left click scores. -/
theorem mouse_button_callback_own_radius_counterexample :
    (∀ s ∈ [(testSphere ℝ (Libm.mk Real.pi Real.cos Real.sin Real.sqrt) ⟨1, 1, []⟩).1],
      s.getRadius < distToCenter (Libm.mk Real.pi Real.cos Real.sin Real.sqrt)
        (nearMissGame ℝ (Libm.mk Real.pi Real.cos Real.sin Real.sqrt)).cameraPos
        (Vec3.normalize (Libm.mk Real.pi Real.cos Real.sin Real.sqrt)
          (nearMissGame ℝ (Libm.mk Real.pi Real.cos Real.sin Real.sqrt)).cameraFront)
        s.getPosition ∧
      raySphereIntersection (Libm.mk Real.pi Real.cos Real.sin Real.sqrt)
        (nearMissGame ℝ (Libm.mk Real.pi Real.cos Real.sin Real.sqrt)).cameraPos
        (Vec3.normalize (Libm.mk Real.pi Real.cos Real.sin Real.sqrt)
          (nearMissGame ℝ (Libm.mk Real.pi Real.cos Real.sin Real.sqrt)).cameraFront)
        s.getPosition s.getRadius = none) ∧
    (nearMissGame ℝ (Libm.mk Real.pi Real.cos Real.sin Real.sqrt)).spheres
      = some [(testSphere ℝ (Libm.mk Real.pi Real.cos Real.sin Real.sqrt) ⟨1, 1, []⟩).1] ∧
    (nearMissGame ℝ (Libm.mk Real.pi Real.cos Real.sin Real.sqrt)).score = 0 ∧
    (mouse_button_callback (Libm.mk Real.pi Real.cos Real.sin Real.sqrt)
        ⟨⟨1, 2, 3⟩, ⟨1, 0, 0⟩, 3⟩ GLFW_MOUSE_BUTTON_LEFT GLFW_PRESS
        (nearMissGame ℝ (Libm.mk Real.pi Real.cos Real.sin Real.sqrt))).score = 10 := by
  have h1 : Real.sqrt 1 = 1 := Real.sqrt_one
  have h2 : Real.sqrt (81 / 100) = 9 / 10 := by
    rw [show (81 / 100 : ℝ) = 9 / 10 * (9 / 10) by norm_num]
    exact Real.sqrt_mul_self (by norm_num)
  refine ⟨?_, rfl, rfl, ?_⟩
  · intro s hs
    rw [List.mem_singleton.mp hs]
    constructor
    · simp only [distToCenter, Sphere.getPosition, Sphere.getRadius,
        (testSphere_fields (Libm.mk Real.pi Real.cos Real.sin Real.sqrt) ⟨1, 1, []⟩).1,
        (testSphere_fields (Libm.mk Real.pi Real.cos Real.sin Real.sqrt) ⟨1, 1, []⟩).2,
        nearMissGame, Vec3.normalize, Vec3.smul, Vec3.dot, Vec3.sub, Vec3.add, Vec3.length]
      norm_num [h1, h2]
    · simp only [Sphere.getPosition, Sphere.getRadius,
        (testSphere_fields (Libm.mk Real.pi Real.cos Real.sin Real.sqrt) ⟨1, 1, []⟩).1,
        (testSphere_fields (Libm.mk Real.pi Real.cos Real.sin Real.sqrt) ⟨1, 1, []⟩).2,
        nearMissGame, raySphereIntersection, Vec3.normalize, Vec3.smul, Vec3.dot, Vec3.sub]
      norm_num [h1]
  · rw [nearMissGame_click]

/-- C3, amended. Over the reals, for fewer than `2^31` spheres with
`getRadius() + 1 ≥ 0`: a left click changes a sphere of the list only if the camera ray
(origin `cameraPos`, direction `normalize(cameraFront)`) meets, at some positive parameter,
the sphere with centre `getPosition()` and radius `getRadius() + 1`; and when the distance
from every sphere's centre to the line of sight exceeds that sphere's radius plus one, the
click changes nothing. -/
theorem mouse_button_callback_hit_radius_plus_one (rnd : Respawn ℝ) (g : Game ℝ)
    (spheres : List (Sphere ℝ)) (hs : g.spheres = some spheres)
    (hrad : ∀ s ∈ spheres, 0 ≤ s.getRadius + 1)
    (hlen : spheres.length < 2147483648) :
    (∀ (k : Nat) (sphere : Sphere ℝ) (spheres' : List (Sphere ℝ)),
      spheres[k]? = some sphere →
      (mouse_button_callback (Libm.mk Real.pi Real.cos Real.sin Real.sqrt) rnd
        GLFW_MOUSE_BUTTON_LEFT GLFW_PRESS g).spheres = some spheres' →
      spheres'[k]? ≠ some sphere →
      ∃ t, 0 < t ∧ OnSphere (Libm.mk Real.pi Real.cos Real.sin Real.sqrt) g.cameraPos
        (Vec3.normalize (Libm.mk Real.pi Real.cos Real.sin Real.sqrt) g.cameraFront)
        sphere.getPosition (sphere.getRadius + 1) t) ∧
    ((∀ s ∈ spheres, s.getRadius + 1 <
        distToCenter (Libm.mk Real.pi Real.cos Real.sin Real.sqrt) g.cameraPos
          (Vec3.normalize (Libm.mk Real.pi Real.cos Real.sin Real.sqrt) g.cameraFront)
          s.getPosition) →
      mouse_button_callback (Libm.mk Real.pi Real.cos Real.sin Real.sqrt) rnd
        GLFW_MOUSE_BUTTON_LEFT GLFW_PRESS g = g) := by
  have hcases := mouse_button_callback_press_hit (Libm.mk Real.pi Real.cos Real.sin Real.sqrt)
    rnd g spheres hs hlen
  by_cases hfront : g.cameraFront = ⟨0, 0, 0⟩
  · have hnohit : ∀ s : Sphere ℝ,
        clickHit (Libm.mk Real.pi Real.cos Real.sin Real.sqrt) g s = none := by
      intro s
      unfold clickHit
      rw [hfront]
      exact raySphereIntersection_zero_front _ _ _
    have hsame : mouse_button_callback (Libm.mk Real.pi Real.cos Real.sin Real.sqrt) rnd
        GLFW_MOUSE_BUTTON_LEFT GLFW_PRESS g = g := by
      rcases hcases with ⟨_, hsame⟩ | ⟨_, k0, sphere0, _, _, hsome, _⟩
      · exact hsame
      · rw [hnohit sphere0] at hsome
        simp at hsome
    refine ⟨?_, fun _ => hsame⟩
    intro k sphere spheres' hget hres hchanged
    rw [hsame, hs] at hres
    rw [← Option.some.inj hres] at hchanged
    exact absurd hget hchanged
  constructor
  · intro k sphere spheres' hget hres hchanged
    rcases hcases with ⟨_, hsame⟩ | ⟨_, k0, sphere0, _, hget0, hsome, hres0⟩
    · rw [hsame, hs] at hres
      rw [← Option.some.inj hres] at hchanged
      exact absurd hget hchanged
    · rw [hres0] at hres
      have hspheres' : spheres' = spheres.set k0
          (respawn (Libm.mk Real.pi Real.cos Real.sin Real.sqrt) rnd sphere0 g.gl).1 :=
        (Option.some.inj hres).symm
      have hk : k = k0 := by
        by_contra hne
        rw [hspheres', List.getElem?_set_ne (Ne.symm hne)] at hchanged
        exact hchanged hget
      subst hk
      have hsph : sphere = sphere0 := by
        rw [hget] at hget0
        exact Option.some.inj hget0
      subst hsph
      obtain ⟨t, ht⟩ := Option.isSome_iff_exists.mp hsome
      have hmem : sphere ∈ spheres := List.getElem?_mem hget
      have h := raySphereIntersection_sound g.cameraPos
        (Vec3.normalize (Libm.mk Real.pi Real.cos Real.sin Real.sqrt) g.cameraFront)
        sphere.getPosition (sphere.getRadius + 1) (normalize_ne_zero hfront)
        (hrad sphere hmem) t ht
      exact ⟨t, h.1, h.2⟩
  · intro hfar
    rcases hcases with ⟨_, hsame⟩ | ⟨_, k0, sphere0, _, hget0, hsome, _⟩
    · exact hsame
    · exfalso
      have hmem : sphere0 ∈ spheres := List.getElem?_mem hget0
      have hmiss := raySphereIntersection_miss g.cameraPos
        (Vec3.normalize (Libm.mk Real.pi Real.cos Real.sin Real.sqrt) g.cameraFront)
        sphere0.getPosition (sphere0.getRadius + 1) (normalize_dot_self hfront)
        (hrad sphere0 hmem) (hfar sphere0 hmem)
      unfold clickHit at hsome
      rw [hmiss] at hsome
      simp at hsome

/-- C3 (amended) at the near-miss scenario: the click respawns the test sphere, so the
camera ray meets the sphere of radius `1/2 + 1` around its centre at a positive
parameter. -/
theorem mouse_button_callback_hit_radius_plus_one_witness :
    ∃ t : ℝ, 0 < t ∧
      OnSphere (Libm.mk Real.pi Real.cos Real.sin Real.sqrt) ⟨9 / 10, 0, 3⟩
        (Vec3.normalize (Libm.mk Real.pi Real.cos Real.sin Real.sqrt) ⟨0, 0, -1⟩)
        ⟨0, 0, -2⟩ (1 / 2 + 1) t := by
  have hne : (respawn (Libm.mk Real.pi Real.cos Real.sin Real.sqrt) ⟨⟨1, 2, 3⟩, ⟨1, 0, 0⟩, 3⟩
      (testSphere ℝ (Libm.mk Real.pi Real.cos Real.sin Real.sqrt) ⟨1, 1, []⟩).1
      (testSphere ℝ (Libm.mk Real.pi Real.cos Real.sin Real.sqrt) ⟨1, 1, []⟩).2).1
      ≠ (testSphere ℝ (Libm.mk Real.pi Real.cos Real.sin Real.sqrt) ⟨1, 1, []⟩).1 := by
    intro h
    have hp := (respawn_fields (Libm.mk Real.pi Real.cos Real.sin Real.sqrt)
      ⟨⟨1, 2, 3⟩, ⟨1, 0, 0⟩, 3⟩
      (testSphere ℝ (Libm.mk Real.pi Real.cos Real.sin Real.sqrt) ⟨1, 1, []⟩).1
      (testSphere ℝ (Libm.mk Real.pi Real.cos Real.sin Real.sqrt) ⟨1, 1, []⟩).2).1
    rw [h, (testSphere_fields (Libm.mk Real.pi Real.cos Real.sin Real.sqrt) ⟨1, 1, []⟩).1] at hp
    have hx := congrArg Vec3.x hp
    norm_num at hx
  have hrad : ∀ s ∈ [(testSphere ℝ (Libm.mk Real.pi Real.cos Real.sin Real.sqrt)
      ⟨1, 1, []⟩).1], (0 : ℝ) ≤ s.getRadius + 1 := by
    intro s hs
    rw [List.mem_singleton.mp hs, Sphere.getRadius,
      (testSphere_fields (Libm.mk Real.pi Real.cos Real.sin Real.sqrt) ⟨1, 1, []⟩).2]
    norm_num
  have h := (mouse_button_callback_hit_radius_plus_one ⟨⟨1, 2, 3⟩, ⟨1, 0, 0⟩, 3⟩
    (nearMissGame ℝ (Libm.mk Real.pi Real.cos Real.sin Real.sqrt))
    [(testSphere ℝ (Libm.mk Real.pi Real.cos Real.sin Real.sqrt) ⟨1, 1, []⟩).1]
    rfl hrad (by simp)).1 0
    (testSphere ℝ (Libm.mk Real.pi Real.cos Real.sin Real.sqrt) ⟨1, 1, []⟩).1
    [(respawn (Libm.mk Real.pi Real.cos Real.sin Real.sqrt) ⟨⟨1, 2, 3⟩, ⟨1, 0, 0⟩, 3⟩
      (testSphere ℝ (Libm.mk Real.pi Real.cos Real.sin Real.sqrt) ⟨1, 1, []⟩).1
      (testSphere ℝ (Libm.mk Real.pi Real.cos Real.sin Real.sqrt) ⟨1, 1, []⟩).2).1]
    (by simp) (by rw [nearMissGame_click]) (by simpa using hne)
  simpa only [nearMissGame, Sphere.getPosition, Sphere.getRadius,
    (testSphere_fields (Libm.mk Real.pi Real.cos Real.sin Real.sqrt) ⟨1, 1, []⟩).1,
    (testSphere_fields (Libm.mk Real.pi Real.cos Real.sin Real.sqrt) ⟨1, 1, []⟩).2] using h

end ClickGeometry

section LoadErrors

variable {K : Type} [Zero K] [One K]

/-- C8 fails on the code: a face line with only two vertex groups, or with a group that is
not a number, makes `std::stoi` throw `std::invalid_argument`, and the exception escapes
`loadModel`. -/
theorem loadModel_malformed_face_throws (P : FloatReader K) (gl : GLState) :
    loadModel P (some ['f', ' ', '1', ' ', '2']) gl
      = Except.error CppException.invalid_argument ∧
    loadModel P (some ['f', ' ', 'a', ' ', 'b', ' ', 'c']) gl
      = Except.error CppException.invalid_argument :=
  ⟨rfl, rfl⟩

end LoadErrors

section Streams

/-- The function `getline` on a good stream that holds the delimiter: the part before the
first delimiter is read and the delimiter is dropped. -/
theorem getline_delim (seg tail str : List Char) (delim : Char) (h : delim ∉ seg) :
    IStream.getline ⟨seg ++ delim :: tail, false, false⟩ str delim
      = (⟨tail, false, false⟩, seg) := by
  have hall : ∀ a ∈ seg, (fun ch => ch != delim) a = true := by
    intro a ha
    simp only [bne_iff_ne, ne_eq]
    rintro rfl
    exact h ha
  unfold IStream.getline IStream.good
  simp only [List.dropWhile_append_of_pos hall, List.takeWhile_append_of_pos hall]
  simp

/-- The function `getline` on a good stream without the delimiter: everything is read,
`eofbit` is set, and `failbit` is set when nothing was there. -/
theorem getline_eof (seg str : List Char) (delim : Char) (h : delim ∉ seg) :
    IStream.getline ⟨seg, false, false⟩ str delim = (⟨[], true, seg.isEmpty⟩, seg) := by
  have hall : ∀ a ∈ seg, (fun ch => ch != delim) a = true := by
    intro a ha
    simp only [bne_iff_ne, ne_eq]
    rintro rfl
    exact h ha
  unfold IStream.getline IStream.good
  have hd : seg.dropWhile (fun ch => ch != delim) = [] := List.dropWhile_eq_nil_iff.mpr hall
  have ht : seg.takeWhile (fun ch => ch != delim) = seg := List.takeWhile_eq_self_iff.mpr hall
  simp only [hd, ht]
  simp

/-- The function `getline` on a stream at end of file: `failbit` is set and `str` keeps its
value. -/
theorem getline_at_eof (rest str : List Char) (fail : Bool) (delim : Char) :
    IStream.getline ⟨rest, true, fail⟩ str delim = (⟨rest, true, true⟩, str) := by
  unfold IStream.getline IStream.good
  simp

/-- A string accepted by `std::stoi` is not empty. -/
theorem stoi_ok_ne_nil {s : List Char} {v : Int} (h : stoi s = Except.ok v) : s ≠ [] := by
  rintro rfl
  simp [stoi] at h

/-- The final range check of `std::stoi`. -/
theorem stoi_check (b : Bool) (val v : Int)
    (h : (if b = true then Except.error CppException.invalid_argument
          else if val < -2147483648 ∨ 2147483647 < val then
            Except.error CppException.out_of_range
          else Except.ok val) = Except.ok v) :
    b = false ∧ val = v ∧ -2147483648 ≤ v ∧ v ≤ 2147483647 := by
  cases b with
  | true => simp at h
  | false =>
    simp only [Bool.false_eq_true, if_false] at h
    by_cases hr : val < -2147483648 ∨ 2147483647 < val
    · rw [if_pos hr] at h
      exact absurd h (by simp)
    · rw [if_neg hr] at h
      have hv := Except.ok.inj h
      refine ⟨rfl, hv, ?_⟩
      omega

/-- A value returned by `std::stoi` fits an `int`. -/
theorem stoi_ok_range {s : List Char} {v : Int} (h : stoi s = Except.ok v) :
    -2147483648 ≤ v ∧ v ≤ 2147483647 :=
  (stoi_check _ _ v h).2.2

end Streams

section FaceGroups

variable {K : Type} [Zero K] [One K]

/-- A vertex group that is a single number `p`. -/
theorem parseFaceVertex_p (vertices normals : List (Vec3 K)) (texCoords : List (Vec2 K))
    (sp : List Char) (p : Int) (hsp : '/' ∉ sp) (hp : stoi sp = Except.ok p) :
    parseFaceVertex vertices normals texCoords sp
      = Except.ok { position := lookupOr vertices (i32 (p - 1)) ⟨0, 0, 0⟩,
                    normal := ⟨0, 1, 0⟩, texCoords := ⟨0, 0⟩ } := by
  unfold parseFaceVertex
  simp only [IStream.ofChars]
  rw [getline_eof sp [] '/' hsp]
  simp only [hp, getline_at_eof]
  rfl

/-- A vertex group `p/t`. -/
theorem parseFaceVertex_p_t (vertices normals : List (Vec3 K)) (texCoords : List (Vec2 K))
    (sp st : List Char) (p t : Int) (hsp : '/' ∉ sp) (hst : '/' ∉ st)
    (hp : stoi sp = Except.ok p) (ht : stoi st = Except.ok t) :
    parseFaceVertex vertices normals texCoords (sp ++ '/' :: st)
      = Except.ok { position := lookupOr vertices (i32 (p - 1)) ⟨0, 0, 0⟩,
                    normal := ⟨0, 1, 0⟩,
                    texCoords := lookupOr texCoords (i32 (t - 1)) ⟨0, 0⟩ } := by
  have hne : st.isEmpty = false := by
    cases st with
    | nil => exact absurd rfl (stoi_ok_ne_nil ht)
    | cons a l => rfl
  unfold parseFaceVertex
  simp only [IStream.ofChars]
  rw [getline_delim sp st [] '/' hsp]
  simp only [hp]
  rw [getline_eof st sp '/' hst]
  simp only [ht, hne, getline_at_eof]
  rfl

/-- A vertex group `p/t/n`. -/
theorem parseFaceVertex_p_t_n (vertices normals : List (Vec3 K)) (texCoords : List (Vec2 K))
    (sp st sn : List Char) (p t n : Int) (hsp : '/' ∉ sp) (hst : '/' ∉ st) (hsn : '\n' ∉ sn)
    (hp : stoi sp = Except.ok p) (ht : stoi st = Except.ok t) (hn : stoi sn = Except.ok n) :
    parseFaceVertex vertices normals texCoords (sp ++ '/' :: (st ++ '/' :: sn))
      = Except.ok { position := lookupOr vertices (i32 (p - 1)) ⟨0, 0, 0⟩,
                    normal := lookupOr normals (i32 (n - 1)) ⟨0, 1, 0⟩,
                    texCoords := lookupOr texCoords (i32 (t - 1)) ⟨0, 0⟩ } := by
  have hne : st.isEmpty = false := by
    cases st with
    | nil => exact absurd rfl (stoi_ok_ne_nil ht)
    | cons a l => rfl
  have hne' : sn.isEmpty = false := by
    cases sn with
    | nil => exact absurd rfl (stoi_ok_ne_nil hn)
    | cons a l => rfl
  unfold parseFaceVertex
  simp only [IStream.ofChars]
  rw [getline_delim sp (st ++ '/' :: sn) [] '/' hsp]
  simp only [hp]
  rw [getline_delim st sn sp '/' hst]
  simp only [ht, hne]
  rw [getline_eof sn st '\n' hsn]
  simp only [hn, hne']
  rfl

/-- A vertex group `p//n`. -/
theorem parseFaceVertex_p_n (vertices normals : List (Vec3 K)) (texCoords : List (Vec2 K))
    (sp sn : List Char) (p n : Int) (hsp : '/' ∉ sp) (hsn : '\n' ∉ sn)
    (hp : stoi sp = Except.ok p) (hn : stoi sn = Except.ok n) :
    parseFaceVertex vertices normals texCoords (sp ++ '/' :: '/' :: sn)
      = Except.ok { position := lookupOr vertices (i32 (p - 1)) ⟨0, 0, 0⟩,
                    normal := lookupOr normals (i32 (n - 1)) ⟨0, 1, 0⟩,
                    texCoords := ⟨0, 0⟩ } := by
  have hne' : sn.isEmpty = false := by
    cases sn with
    | nil => exact absurd rfl (stoi_ok_ne_nil hn)
    | cons a l => rfl
  unfold parseFaceVertex
  simp only [IStream.ofChars]
  rw [getline_delim sp ('/' :: sn) [] '/' hsp]
  simp only [hp]
  have h2 : IStream.getline ⟨'/' :: sn, false, false⟩ sp '/' = (⟨sn, false, false⟩, []) :=
    getline_delim [] sn sp '/' (List.not_mem_nil _)
  rw [h2]
  simp only
  rw [getline_eof sn [] '\n' hsn]
  simp only [hn, hne']
  rfl

/-- For an index above the smallest `int`, the code's zero-based lookup of `p - 1` is the
spec's one-based resolution of `p`. -/
theorem lookupOr_i32_pred {α : Type} (list : List α) (fallback : α) (p : Int)
    (hlo : -2147483648 < p) (hhi : p ≤ 2147483647) :
    lookupOr list (i32 (p - 1)) fallback = resolveIndex list p fallback := by
  have hi : i32 (p - 1) = p - 1 := by
    unfold i32
    omega
  unfold lookupOr resolveIndex
  rw [hi]
  by_cases h : 1 ≤ p ∧ p ≤ (list.length : Int)
  · have h' : 0 ≤ p - 1 ∧ (p - 1).toNat < list.length := by omega
    rw [if_pos h, if_pos h']
    have : (p - 1).toNat = p.toNat - 1 := by omega
    rw [this]
  · have h' : ¬ (0 ≤ p - 1 ∧ (p - 1).toNat < list.length) := by omega
    rw [if_neg h, if_neg h']

/-- C10. For every face vertex group built from numeric index strings (strings that
`std::stoi` accepts, with values above the smallest `int`): the position is the `p`-th `v`
entry when `1 ≤ p ≤` number of positions and `(0,0,0)` otherwise; the texture coordinate is
the `t`-th `vt` entry when `t` is present and in range, and `(0,0)` when it is absent (`p`),
empty (`p//n`) or out of range; the normal is the `n`-th `vn` entry when `n` is present and in
range, and `(0,1,0)` when it is absent (`p`, `p/t`) or out of range. -/
theorem parseFaceVertex_resolution (vertices normals : List (Vec3 K))
    (texCoords : List (Vec2 K)) (sp st sn : List Char) (p t n : Int)
    (hsp : '/' ∉ sp) (hst : '/' ∉ st) (hsn : '\n' ∉ sn)
    (hp : stoi sp = Except.ok p) (ht : stoi st = Except.ok t) (hn : stoi sn = Except.ok n)
    (hpmin : -2147483648 < p) (htmin : -2147483648 < t) (hnmin : -2147483648 < n) :
    parseFaceVertex vertices normals texCoords sp
      = Except.ok { position := resolveIndex vertices p ⟨0, 0, 0⟩,
                    normal := ⟨0, 1, 0⟩, texCoords := ⟨0, 0⟩ } ∧
    parseFaceVertex vertices normals texCoords (sp ++ '/' :: st)
      = Except.ok { position := resolveIndex vertices p ⟨0, 0, 0⟩,
                    normal := ⟨0, 1, 0⟩,
                    texCoords := resolveIndex texCoords t ⟨0, 0⟩ } ∧
    parseFaceVertex vertices normals texCoords (sp ++ '/' :: (st ++ '/' :: sn))
      = Except.ok { position := resolveIndex vertices p ⟨0, 0, 0⟩,
                    normal := resolveIndex normals n ⟨0, 1, 0⟩,
                    texCoords := resolveIndex texCoords t ⟨0, 0⟩ } ∧
    parseFaceVertex vertices normals texCoords (sp ++ '/' :: '/' :: sn)
      = Except.ok { position := resolveIndex vertices p ⟨0, 0, 0⟩,
                    normal := resolveIndex normals n ⟨0, 1, 0⟩,
                    texCoords := ⟨0, 0⟩ } := by
  have hP := lookupOr_i32_pred vertices (⟨0, 0, 0⟩ : Vec3 K) p hpmin (stoi_ok_range hp).2
  have hT := lookupOr_i32_pred texCoords (⟨0, 0⟩ : Vec2 K) t htmin (stoi_ok_range ht).2
  have hN := lookupOr_i32_pred normals (⟨0, 1, 0⟩ : Vec3 K) n hnmin (stoi_ok_range hn).2
  refine ⟨?_, ?_, ?_, ?_⟩
  · rw [parseFaceVertex_p vertices normals texCoords sp p hsp hp, hP]
  · rw [parseFaceVertex_p_t vertices normals texCoords sp st p t hsp hst hp ht, hP, hT]
  · rw [parseFaceVertex_p_t_n vertices normals texCoords sp st sn p t n hsp hst hsn hp ht hn,
      hP, hT, hN]
  · rw [parseFaceVertex_p_n vertices normals texCoords sp sn p n hsp hsn hp hn, hP, hN]

/-- C10 at concrete groups over two positions, one normal and one texture coordinate, in
the four shapes `p`, `p/t`, `p/t/n` and `p//n` with `p = 2`, `t = 1` and `n = -1`: position 2
is resolved, the texture index 1 resolves the only `vt` entry, and the negative normal index
falls back to `(0,1,0)`. -/
theorem parseFaceVertex_resolution_witness :
    parseFaceVertex [(⟨1, 0, 0⟩ : Vec3 ℚ), ⟨2, 0, 0⟩] [⟨0, 0, 1⟩] [⟨5, 6⟩] ['2']
      = Except.ok { position := ⟨2, 0, 0⟩, normal := ⟨0, 1, 0⟩, texCoords := ⟨0, 0⟩ } ∧
    parseFaceVertex [(⟨1, 0, 0⟩ : Vec3 ℚ), ⟨2, 0, 0⟩] [⟨0, 0, 1⟩] [⟨5, 6⟩] ['2', '/', '1']
      = Except.ok { position := ⟨2, 0, 0⟩, normal := ⟨0, 1, 0⟩, texCoords := ⟨5, 6⟩ } ∧
    parseFaceVertex [(⟨1, 0, 0⟩ : Vec3 ℚ), ⟨2, 0, 0⟩] [⟨0, 0, 1⟩] [⟨5, 6⟩]
        ['2', '/', '1', '/', '-', '1']
      = Except.ok { position := ⟨2, 0, 0⟩, normal := ⟨0, 1, 0⟩, texCoords := ⟨5, 6⟩ } ∧
    parseFaceVertex [(⟨1, 0, 0⟩ : Vec3 ℚ), ⟨2, 0, 0⟩] [⟨0, 0, 1⟩] [⟨5, 6⟩]
        ['2', '/', '/', '-', '1']
      = Except.ok { position := ⟨2, 0, 0⟩, normal := ⟨0, 1, 0⟩, texCoords := ⟨0, 0⟩ } :=
  parseFaceVertex_resolution [(⟨1, 0, 0⟩ : Vec3 ℚ), ⟨2, 0, 0⟩] [⟨0, 0, 1⟩] [⟨5, 6⟩]
    ['2'] ['1'] ['-', '1'] 2 1 (-1) (by decide) (by decide) (by decide) rfl rfl rfl
    (by decide) (by decide) (by decide)

end FaceGroups

section LoadCounts

variable {K : Type} [Zero K] [One K]

/-- A vertex group with numeric indices is parsed without an exception. -/
theorem parseFaceVertex_ok (vertices normals : List (Vec3 K)) (texCoords : List (Vec2 K))
    (g : List Char) (hg : IsFaceGroup g) :
    ∃ v, parseFaceVertex vertices normals texCoords g = Except.ok v := by
  rcases hg with ⟨sp, ⟨h1, _, p, hp⟩, hg⟩ | ⟨sp, st, ⟨h1, _, p, hp⟩, ⟨h2, _, t, ht⟩, hg⟩ |
    ⟨sp, st, sn, ⟨h1, _, p, hp⟩, ⟨h2, _, t, ht⟩, ⟨_, h3, n, hn⟩, hg⟩ |
    ⟨sp, sn, ⟨h1, _, p, hp⟩, ⟨_, h3, n, hn⟩, hg⟩
  · rw [hg]
    exact ⟨_, parseFaceVertex_p vertices normals texCoords sp p h1 hp⟩
  · rw [hg]
    exact ⟨_, parseFaceVertex_p_t vertices normals texCoords sp st p t h1 h2 hp ht⟩
  · rw [hg]
    exact ⟨_, parseFaceVertex_p_t_n vertices normals texCoords sp st sn p t n h1 h2 h3 hp ht hn⟩
  · rw [hg]
    exact ⟨_, parseFaceVertex_p_n vertices normals texCoords sp sn p n h1 h3 hp hn⟩

/-- Pushing a vertex group with numeric indices appends one vertex and the index of that
vertex, and leaves the `v`, `vn`, `vt` lists as they are. -/
theorem pushFaceVertex_ok (st : LoadState K) (g : List Char) (hg : IsFaceGroup g) :
    ∃ v, pushFaceVertex st g = Except.ok
      { st with finalVertices := st.finalVertices ++ [v],
                indices := st.indices ++ [u32 st.finalVertices.length] } := by
  obtain ⟨v, hv⟩ := parseFaceVertex_ok st.vertices st.normals st.texCoords g hg
  refine ⟨v, ?_⟩
  unfold pushFaceVertex
  rw [hv]
  simp only [List.length_append, List.length_singleton, Nat.add_sub_cancel]
  rfl

/-- The face branch of `parseLine` pushes the three words after `f`. -/
theorem parseLine_face (P : FloatReader K) (st : LoadState K) (line : List Char)
    (hf : lineKeyword line = ['f']) :
    parseLine P st line = (faceWords line).foldlM pushFaceVertex st := by
  unfold parseLine
  unfold lineKeyword at hf
  simp only [hf]
  rfl

/-- A line whose first word is not `f` leaves the flattened vertex and index lists as they
are. -/
theorem parseLine_other (P : FloatReader K) (st : LoadState K) (line : List Char)
    (hf : lineKeyword line ≠ ['f']) :
    ∃ st', parseLine P st line = Except.ok st' ∧
      st'.finalVertices = st.finalVertices ∧ st'.indices = st.indices := by
  unfold parseLine
  unfold lineKeyword at hf
  simp only [hf, if_false]
  split
  · exact ⟨_, rfl, rfl, rfl⟩
  · split
    · exact ⟨_, rfl, rfl, rfl⟩
    · split
      · exact ⟨_, rfl, rfl, rfl⟩
      · exact ⟨_, rfl, rfl, rfl⟩

/-- A well-formed face line appends three vertices and their three consecutive indices. -/
theorem parseLine_face_ok (P : FloatReader K) (st : LoadState K) (line : List Char)
    (hf : lineKeyword line = ['f']) (hg : ∀ g ∈ faceWords line, IsFaceGroup g) :
    ∃ st', parseLine P st line = Except.ok st' ∧
      st'.finalVertices.length = st.finalVertices.length + 3 ∧
      st'.indices = st.indices ++ [u32 st.finalVertices.length,
        u32 (st.finalVertices.length + 1), u32 (st.finalVertices.length + 2)] := by
  rw [parseLine_face P st line hf]
  obtain ⟨w1, w2, w3, hw⟩ : ∃ w1 w2 w3, faceWords line = [w1, w2, w3] := ⟨_, _, _, rfl⟩
  rw [hw] at hg ⊢
  obtain ⟨v1, h1⟩ := pushFaceVertex_ok st w1 (hg w1 (by simp))
  obtain ⟨v2, h2⟩ := pushFaceVertex_ok
    { st with finalVertices := st.finalVertices ++ [v1],
              indices := st.indices ++ [u32 st.finalVertices.length] } w2 (hg w2 (by simp))
  obtain ⟨v3, h3⟩ := pushFaceVertex_ok
    { st with finalVertices := st.finalVertices ++ [v1] ++ [v2],
              indices := st.indices ++ [u32 st.finalVertices.length]
                ++ [u32 (st.finalVertices ++ [v1]).length] } w3 (hg w3 (by simp))
  refine ⟨{ st with
      finalVertices := st.finalVertices ++ [v1] ++ [v2] ++ [v3],
      indices := st.indices ++ [u32 st.finalVertices.length]
        ++ [u32 (st.finalVertices ++ [v1]).length]
        ++ [u32 (st.finalVertices ++ [v1] ++ [v2]).length] }, ?_, ?_, ?_⟩
  · simp only [List.foldlM_cons, List.foldlM_nil]
    rw [h1]
    show (pushFaceVertex _ w2 >>= fun s => pushFaceVertex s w3 >>= pure) = _
    rw [h2]
    show (pushFaceVertex _ w3 >>= pure) = _
    rw [h3]
    rfl
  · simp
  · simp

/-- The loop over the lines of a well-formed file succeeds; when it starts with `3k`
flattened vertices indexed `0 … 3k-1` it ends with three more vertices and indices for
every face line. -/
theorem parseLines_ok (P : FloatReader K) (lines : List (List Char)) :
    ∀ (st : LoadState K) (k : Nat),
      (∀ line ∈ lines, lineKeyword line = ['f'] → ∀ g ∈ faceWords line, IsFaceGroup g) →
      3 * (k + (lines.filter (fun line => decide (lineKeyword line = ['f']))).length)
        ≤ 4294967296 →
      st.finalVertices.length = 3 * k → st.indices = List.range (3 * k) →
      ∃ st', lines.foldlM (parseLine P) st = Except.ok st' ∧
        st'.finalVertices.length
          = 3 * (k + (lines.filter (fun line => decide (lineKeyword line = ['f']))).length) ∧
        st'.indices = List.range
          (3 * (k + (lines.filter (fun line => decide (lineKeyword line = ['f']))).length)) := by
  induction lines with
  | nil =>
    intro st k _ _ hlen hidx
    exact ⟨st, rfl, by simpa using hlen, by simpa using hidx⟩
  | cons line rest ih =>
    intro st k hwf hbound hlen hidx
    by_cases hf : lineKeyword line = ['f']
    · have hfilter : ((line :: rest).filter (fun line => decide (lineKeyword line = ['f']))).length
          = (rest.filter (fun line => decide (lineKeyword line = ['f']))).length + 1 := by
        simp [List.filter_cons, hf]
      rw [hfilter] at hbound ⊢
      obtain ⟨st1, h1, hlen1, hidx1⟩ := parseLine_face_ok P st line hf
        (hwf line (List.mem_cons_self _ _) hf)
      have hlen1' : st1.finalVertices.length = 3 * (k + 1) := by omega
      have hidx1' : st1.indices = List.range (3 * (k + 1)) := by
        rw [hidx1, hidx, hlen]
        have e1 : u32 (3 * k) = 3 * k := by unfold u32; omega
        have e2 : u32 (3 * k + 1) = 3 * k + 1 := by unfold u32; omega
        have e3 : u32 (3 * k + 2) = 3 * k + 2 := by unfold u32; omega
        rw [e1, e2, e3, show 3 * (k + 1) = 3 * k + 1 + 1 + 1 by ring]
        simp [List.range_succ]
      obtain ⟨st', h', hlen', hidx'⟩ := ih st1 (k + 1)
        (fun l hl => hwf l (List.mem_cons_of_mem _ hl)) (by omega) hlen1' hidx1'
      refine ⟨st', ?_, ?_, ?_⟩
      · rw [List.foldlM_cons, h1]
        exact h'
      · rw [hlen']; ring_nf
      · rw [hidx']; ring_nf
    · have hfilter : ((line :: rest).filter (fun line => decide (lineKeyword line = ['f'])))
          = rest.filter (fun line => decide (lineKeyword line = ['f'])) := by
        simp [List.filter_cons, hf]
      rw [hfilter] at hbound ⊢
      obtain ⟨st1, h1, hfv, hix⟩ := parseLine_other P st line hf
      obtain ⟨st', h', hlen', hidx'⟩ := ih st1 k
        (fun l hl => hwf l (List.mem_cons_of_mem _ hl)) hbound (by rw [hfv]; exact hlen)
        (by rw [hix]; exact hidx)
      exact ⟨st', by rw [List.foldlM_cons, h1]; exact h', hlen', hidx'⟩

/-- C9. For every well-formed OBJ text with `F` face lines (`3·F` within the range of
`unsigned int`), loading succeeds; with `F = 0` there is no mesh, and with `F > 0` there is
exactly one mesh, which has `3·F` vertices and the `3·F` indices `0, 1, …, 3F−1` in
order. -/
theorem loadModel_face_count (P : FloatReader K) (content : List Char) (gl : GLState)
    (hwf : WellFormedObj content) (hF : 3 * faceLineCount content ≤ 4294967296) :
    ∃ r, loadModel P (some content) gl = Except.ok r ∧
      (faceLineCount content = 0 → r.1 = []) ∧
      (0 < faceLineCount content →
        ∃ mesh, r.1 = [mesh] ∧ mesh.vertices.length = 3 * faceLineCount content ∧
          mesh.indices.length = 3 * faceLineCount content ∧
          mesh.indices = List.range (3 * faceLineCount content)) := by
  obtain ⟨st, hst, hlen, hidx⟩ := parseLines_ok P (fileLines content)
    { vertices := [], normals := [], texCoords := [], finalVertices := [], indices := [] } 0
    hwf (by simpa [faceLineCount] using hF) rfl rfl
  simp only [Nat.zero_add] at hlen hidx
  change st.finalVertices.length = 3 * faceLineCount content at hlen
  change st.indices = List.range (3 * faceLineCount content) at hidx
  have hload : loadModel P (some content) gl =
      (if (!st.finalVertices.isEmpty) = true ∧ (!st.indices.isEmpty) = true then
        Except.ok ([(Mesh.new st.finalVertices st.indices gl).1],
          (Mesh.new st.finalVertices st.indices gl).2)
      else Except.ok ([], gl)) := by
    unfold loadModel
    simp only
    rw [hst]
    rfl
  rw [hload]
  by_cases hzero : faceLineCount content = 0
  · have hfv : st.finalVertices.isEmpty = true := by
      cases hc : st.finalVertices with
      | nil => rfl
      | cons a l => rw [hc] at hlen; simp at hlen; omega
    refine ⟨([], gl), ?_, fun _ => rfl, fun h => absurd hzero (by omega)⟩
    rw [if_neg (by simp [hfv])]
  · have hfv : st.finalVertices.isEmpty = false := by
      cases hc : st.finalVertices with
      | nil => rw [hc] at hlen; simp at hlen; omega
      | cons a l => rfl
    have hix : st.indices.isEmpty = false := by
      cases hc : st.indices with
      | nil =>
        have := congrArg List.length hidx
        rw [hc] at this
        simp at this
        omega
      | cons a l => rfl
    refine ⟨([(Mesh.new st.finalVertices st.indices gl).1],
      (Mesh.new st.finalVertices st.indices gl).2), ?_, fun h => absurd h hzero, fun _ => ?_⟩
    · rw [if_pos (by simp [hfv, hix])]
    · refine ⟨(Mesh.new st.finalVertices st.indices gl).1, rfl, hlen, ?_, hidx⟩
      show st.indices.length = _
      rw [hidx, List.length_range]

end LoadCounts

section LoadExamples

/-- The one-triangle text is well formed. -/
theorem triangleObj_wellFormed : WellFormedObj triangleObj := by
  have hlines : fileLines triangleObj
      = [['v', ' ', '0', ' ', '0', ' ', '0'], ['v', ' ', '1', ' ', '0', ' ', '0'],
         ['v', ' ', '0', ' ', '1', ' ', '0'], ['f', ' ', '1', ' ', '2', ' ', '3']] := by
    decide
  have hnum : ∀ c : Char, c = '1' ∨ c = '2' ∨ c = '3' → IsFaceGroup [c] := by
    intro c hc
    rcases hc with rfl | rfl | rfl
    · exact Or.inl ⟨['1'], ⟨by decide, by decide, 1, rfl⟩, rfl⟩
    · exact Or.inl ⟨['2'], ⟨by decide, by decide, 2, rfl⟩, rfl⟩
    · exact Or.inl ⟨['3'], ⟨by decide, by decide, 3, rfl⟩, rfl⟩
  intro line hline hf g hg
  rw [hlines] at hline
  simp only [List.mem_cons, List.mem_singleton, List.not_mem_nil, or_false] at hline
  rcases hline with rfl | rfl | rfl | rfl
  · exact absurd hf (by decide)
  · exact absurd hf (by decide)
  · exact absurd hf (by decide)
  · have hwords : faceWords ['f', ' ', '1', ' ', '2', ' ', '3'] = [['1'], ['2'], ['3']] := by
      decide
    rw [hwords] at hg
    simp only [List.mem_cons, List.mem_singleton, List.not_mem_nil, or_false] at hg
    rcases hg with rfl | rfl | rfl
    · exact hnum '1' (Or.inl rfl)
    · exact hnum '2' (Or.inr (Or.inl rfl))
    · exact hnum '3' (Or.inr (Or.inr rfl))

/-- C9 at the spec's one-triangle text: the load yields one mesh with 3 vertices and the
indices `[0, 1, 2]`. -/
theorem loadModel_face_count_witness :
    ∃ (r : List (Mesh ℚ) × GLState) (mesh : Mesh ℚ),
      loadModel (FloatReader.mk (fun _ => ⟨0, 0, 0⟩) (fun _ => ⟨0, 0⟩)) (some triangleObj)
        ⟨1, 1, []⟩ = Except.ok r ∧
      r.1 = [mesh] ∧ mesh.vertices.length = 3 ∧ mesh.indices = [0, 1, 2] := by
  have hcount : faceLineCount triangleObj = 1 := by decide
  obtain ⟨r, hr, _, hmesh⟩ := loadModel_face_count
    (FloatReader.mk (fun _ => (⟨0, 0, 0⟩ : Vec3 ℚ)) (fun _ => ⟨0, 0⟩)) triangleObj ⟨1, 1, []⟩
    triangleObj_wellFormed (by rw [hcount]; decide)
  obtain ⟨mesh, hm, hv, _, hi⟩ := hmesh (by rw [hcount]; decide)
  rw [hcount] at hv hi
  exact ⟨r, mesh, hr, hm, hv, by rw [hi]; rfl⟩

end LoadExamples

section RaySphereCases

/-- C12. Over the reals, for every non-zero direction and every origin strictly inside the
sphere, `raySphereIntersection` reports a hit at the larger root
`t2 = (−b + √(b² − 4ac)) / (2a)`, which is positive, while the entry root `t1` is
negative. -/
theorem raySphereIntersection_inside_exit (o d c : Vec3 ℝ) (r : ℝ)
    (hd : d ≠ ⟨0, 0, 0⟩)
    (hin : Vec3.length (Libm.mk Real.pi Real.cos Real.sin Real.sqrt) (Vec3.sub o c) < r) :
    raySphereIntersection (Libm.mk Real.pi Real.cos Real.sin Real.sqrt) o d c r
      = some ((-(2 * Vec3.dot (Vec3.sub o c) d)
          + Real.sqrt (2 * Vec3.dot (Vec3.sub o c) d * (2 * Vec3.dot (Vec3.sub o c) d)
            - 4 * Vec3.dot d d * (Vec3.dot (Vec3.sub o c) (Vec3.sub o c) - r * r)))
          / (2 * Vec3.dot d d)) ∧
    0 < (-(2 * Vec3.dot (Vec3.sub o c) d)
          + Real.sqrt (2 * Vec3.dot (Vec3.sub o c) d * (2 * Vec3.dot (Vec3.sub o c) d)
            - 4 * Vec3.dot d d * (Vec3.dot (Vec3.sub o c) (Vec3.sub o c) - r * r)))
          / (2 * Vec3.dot d d) ∧
    (-(2 * Vec3.dot (Vec3.sub o c) d)
          - Real.sqrt (2 * Vec3.dot (Vec3.sub o c) d * (2 * Vec3.dot (Vec3.sub o c) d)
            - 4 * Vec3.dot d d * (Vec3.dot (Vec3.sub o c) (Vec3.sub o c) - r * r)))
          / (2 * Vec3.dot d d) < 0 := by
  have ha := Vec3.dot_self_pos hd
  unfold Vec3.length at hin
  simp only at hin
  have hX : 0 ≤ Vec3.dot (Vec3.sub o c) (Vec3.sub o c) := by
    simp only [Vec3.dot]
    nlinarith [sq_nonneg (Vec3.sub o c).x, sq_nonneg (Vec3.sub o c).y,
      sq_nonneg (Vec3.sub o c).z]
  have hr : 0 < r := lt_of_le_of_lt (Real.sqrt_nonneg _) hin
  have hlt : Vec3.dot (Vec3.sub o c) (Vec3.sub o c) < r ^ 2 := (Real.sqrt_lt' hr).mp hin
  unfold raySphereIntersection
  simp only
  set a := Vec3.dot d d with ha_def
  set b := 2 * Vec3.dot (Vec3.sub o c) d with hb_def
  set cc := Vec3.dot (Vec3.sub o c) (Vec3.sub o c) - r * r with hc_def
  have hcc : cc < 0 := by rw [hc_def]; nlinarith
  have hdisc : b ^ 2 < b * b - 4 * a * cc := by nlinarith
  have hnn : ¬ b * b - 4 * a * cc < 0 := by nlinarith [sq_nonneg b]
  have hs : |b| < Real.sqrt (b * b - 4 * a * cc) := by
    rw [Real.lt_sqrt (abs_nonneg b), sq_abs]
    exact hdisc
  have hs1 := (abs_lt.mp hs).1
  have hs2 := (abs_lt.mp hs).2
  have h2a : 0 < 2 * a := by linarith
  have ht1 : (-b - Real.sqrt (b * b - 4 * a * cc)) / (2 * a) < 0 :=
    div_neg_of_neg_of_pos (by linarith) h2a
  have ht2 : 0 < (-b + Real.sqrt (b * b - 4 * a * cc)) / (2 * a) :=
    div_pos (by linarith) h2a
  refine ⟨?_, ht2, ht1⟩
  rw [if_neg hnn]
  have h1 : ¬ (-b - Real.sqrt (b * b - 4 * a * cc)) / (2 * a) > 0 := not_lt.mpr ht1.le
  simp only [h1, if_false]
  rw [if_pos ht2]

/-- C12 at the spec's example: from the centre of the unit sphere, along `-z`, the hit is
reported at the exit parameter `t = 1`. -/
theorem raySphereIntersection_inside_exit_witness :
    raySphereIntersection (Libm.mk Real.pi Real.cos Real.sin Real.sqrt)
        ⟨0, 0, 0⟩ ⟨0, 0, -1⟩ ⟨0, 0, 0⟩ 1 = some 1 := by
  have hsqrt : Real.sqrt 4 = 2 := by
    rw [show (4 : ℝ) = 2 * 2 by norm_num]
    exact Real.sqrt_mul_self (by norm_num)
  have hd : (⟨0, 0, -1⟩ : Vec3 ℝ) ≠ ⟨0, 0, 0⟩ := by
    intro h
    have hz := congrArg Vec3.z h
    norm_num at hz
  have hin : Vec3.length (Libm.mk Real.pi Real.cos Real.sin Real.sqrt)
      (Vec3.sub (⟨0, 0, 0⟩ : Vec3 ℝ) ⟨0, 0, 0⟩) < 1 := by
    simp [Vec3.length, Vec3.sub, Vec3.dot]
  have h := (raySphereIntersection_inside_exit ⟨0, 0, 0⟩ ⟨0, 0, -1⟩ ⟨0, 0, 0⟩ 1 hd hin).1
  rw [h]
  simp only [Vec3.sub, Vec3.dot]
  norm_num [hsqrt]

/-- Over the reals, for a non-zero direction, the squared perpendicular distance is
`|oc|² − (oc·d)² / (d·d)`, and the discriminant of `raySphereIntersection` is
`4 (d·d) (r² − that)`. -/
theorem discriminant_eq_perpendicular (o d c : Vec3 ℝ) (r : ℝ) (hd : d ≠ ⟨0, 0, 0⟩) :
    2 * Vec3.dot (Vec3.sub o c) d * (2 * Vec3.dot (Vec3.sub o c) d)
      - 4 * Vec3.dot d d * (Vec3.dot (Vec3.sub o c) (Vec3.sub o c) - r * r)
    = 4 * Vec3.dot d d * (r ^ 2 - Vec3.dot
        (Vec3.sub (rayPoint o d (Vec3.dot (Vec3.sub c o) d / Vec3.dot d d)) c)
        (Vec3.sub (rayPoint o d (Vec3.dot (Vec3.sub c o) d / Vec3.dot d d)) c)) := by
  have ha := (Vec3.dot_self_pos hd).ne'
  simp only [Vec3.dot, Vec3.sub, rayPoint, Vec3.add, Vec3.smul] at ha ⊢
  field_simp
  ring

/-- Over the reals, no point of the line is closer to the centre than the perpendicular
distance. -/
theorem perpendicularDistance_le (o d c : Vec3 ℝ) (t : ℝ) (hd : d ≠ ⟨0, 0, 0⟩) :
    perpendicularDistance (Libm.mk Real.pi Real.cos Real.sin Real.sqrt) o d c
      ≤ Vec3.length (Libm.mk Real.pi Real.cos Real.sin Real.sqrt)
          (Vec3.sub (rayPoint o d t) c) := by
  unfold perpendicularDistance Vec3.length
  simp only
  apply Real.sqrt_le_sqrt
  have ha := Vec3.dot_self_pos hd
  have key : Vec3.dot (Vec3.sub (rayPoint o d t) c) (Vec3.sub (rayPoint o d t) c)
      - Vec3.dot
        (Vec3.sub (rayPoint o d (Vec3.dot (Vec3.sub c o) d / Vec3.dot d d)) c)
        (Vec3.sub (rayPoint o d (Vec3.dot (Vec3.sub c o) d / Vec3.dot d d)) c)
      = Vec3.dot d d * (t - Vec3.dot (Vec3.sub c o) d / Vec3.dot d d) ^ 2 := by
    have ha' := ha.ne'
    simp only [Vec3.dot, Vec3.sub, rayPoint, Vec3.add, Vec3.smul] at ha' ⊢
    field_simp
    ring
  have hnn : 0 ≤ Vec3.dot d d * (t - Vec3.dot (Vec3.sub c o) d / Vec3.dot d d) ^ 2 :=
    mul_nonneg ha.le (sq_nonneg _)
  linarith

/-- C13. Over the reals, for every ray with non-zero direction and every radius `r ≥ 0`:
when the supporting line passes the sphere centre at perpendicular distance strictly greater
than `r`, `raySphereIntersection` returns false. -/
theorem raySphereIntersection_far_line (o d c : Vec3 ℝ) (r : ℝ)
    (hd : d ≠ ⟨0, 0, 0⟩) (hr : 0 ≤ r)
    (hfar : r < perpendicularDistance (Libm.mk Real.pi Real.cos Real.sin Real.sqrt) o d c) :
    raySphereIntersection (Libm.mk Real.pi Real.cos Real.sin Real.sqrt) o d c r = none := by
  have ha := Vec3.dot_self_pos hd
  unfold perpendicularDistance Vec3.length at hfar
  simp only at hfar
  have hsq := (Real.lt_sqrt hr).mp hfar
  unfold raySphereIntersection
  simp only
  have hdisc : 2 * Vec3.dot (Vec3.sub o c) d * (2 * Vec3.dot (Vec3.sub o c) d)
      - 4 * Vec3.dot d d * (Vec3.dot (Vec3.sub o c) (Vec3.sub o c) - r * r) < 0 := by
    rw [discriminant_eq_perpendicular o d c r hd]
    have : r ^ 2 - Vec3.dot
        (Vec3.sub (rayPoint o d (Vec3.dot (Vec3.sub c o) d / Vec3.dot d d)) c)
        (Vec3.sub (rayPoint o d (Vec3.dot (Vec3.sub c o) d / Vec3.dot d d)) c) < 0 := by
      linarith
    exact mul_neg_of_pos_of_neg (by linarith) this
  rw [if_pos hdisc]

/-- C13 at the spec's example: the ray from the origin along `-z` passes the centre
`(2,0,-5)` at perpendicular distance 2, more than the radius 1, and no hit is reported. -/
theorem raySphereIntersection_far_line_witness :
    perpendicularDistance (Libm.mk Real.pi Real.cos Real.sin Real.sqrt)
        ⟨0, 0, 0⟩ ⟨0, 0, -1⟩ ⟨2, 0, -5⟩ = 2 ∧
    raySphereIntersection (Libm.mk Real.pi Real.cos Real.sin Real.sqrt)
        ⟨0, 0, 0⟩ ⟨0, 0, -1⟩ ⟨2, 0, -5⟩ 1 = none := by
  have hsqrt : Real.sqrt 4 = 2 := by
    rw [show (4 : ℝ) = 2 * 2 by norm_num]
    exact Real.sqrt_mul_self (by norm_num)
  have hdist : perpendicularDistance (Libm.mk Real.pi Real.cos Real.sin Real.sqrt)
      ⟨0, 0, 0⟩ ⟨0, 0, -1⟩ ⟨2, 0, -5⟩ = 2 := by
    simp only [perpendicularDistance, Vec3.length, Vec3.sub, Vec3.dot, rayPoint, Vec3.add,
      Vec3.smul]
    norm_num [hsqrt]
  have hd : (⟨0, 0, -1⟩ : Vec3 ℝ) ≠ ⟨0, 0, 0⟩ := by
    intro h
    have hz := congrArg Vec3.z h
    norm_num at hz
  exact ⟨hdist, raySphereIntersection_far_line ⟨0, 0, 0⟩ ⟨0, 0, -1⟩ ⟨2, 0, -5⟩ 1 hd
    (by norm_num) (by rw [hdist]; norm_num)⟩

/-- C14. Over the reals, for every non-zero direction `d` and every scale `k > 0`: the call
with direction `k·d` reports a hit exactly when the call with `d` does, its parameter is the
other one divided by `k`, and the two parameters give the same point of the ray. -/
theorem raySphereIntersection_scale (o d c : Vec3 ℝ) (r k : ℝ)
    (hd : d ≠ ⟨0, 0, 0⟩) (hk : 0 < k) :
    raySphereIntersection (Libm.mk Real.pi Real.cos Real.sin Real.sqrt) o (Vec3.smul k d) c r
      = (raySphereIntersection (Libm.mk Real.pi Real.cos Real.sin Real.sqrt) o d c r).map
          (fun t => t / k) ∧
    ∀ t : ℝ, rayPoint o (Vec3.smul k d) (t / k) = rayPoint o d t := by
  have ha := Vec3.dot_self_pos hd
  constructor
  · unfold raySphereIntersection
    simp only
    have hA : Vec3.dot (Vec3.smul k d) (Vec3.smul k d) = k * k * Vec3.dot d d := by
      simp only [Vec3.dot, Vec3.smul]; ring
    have hB : 2 * Vec3.dot (Vec3.sub o c) (Vec3.smul k d)
        = k * (2 * Vec3.dot (Vec3.sub o c) d) := by
      simp only [Vec3.dot, Vec3.smul]; ring
    rw [hA, hB]
    set a := Vec3.dot d d with ha_def
    set b := 2 * Vec3.dot (Vec3.sub o c) d with hb_def
    set cc := Vec3.dot (Vec3.sub o c) (Vec3.sub o c) - r * r with hc_def
    have hD : k * b * (k * b) - 4 * (k * k * a) * cc = k * k * (b * b - 4 * a * cc) := by ring
    rw [hD]
    have hkk : 0 < k * k := mul_pos hk hk
    by_cases hdisc : b * b - 4 * a * cc < 0
    · have hdisc' : k * k * (b * b - 4 * a * cc) < 0 := mul_neg_of_pos_of_neg hkk hdisc
      rw [if_pos hdisc', if_pos hdisc]
      rfl
    · have hnn : 0 ≤ b * b - 4 * a * cc := not_lt.mp hdisc
      have hdisc' : ¬ k * k * (b * b - 4 * a * cc) < 0 := not_lt.mpr (mul_nonneg hkk.le hnn)
      rw [if_neg hdisc', if_neg hdisc]
      have hS : Real.sqrt (k * k * (b * b - 4 * a * cc))
          = k * Real.sqrt (b * b - 4 * a * cc) := by
        rw [Real.sqrt_mul hkk.le, Real.sqrt_mul_self hk.le]
      rw [hS]
      have h1 : (-(k * b) - k * Real.sqrt (b * b - 4 * a * cc)) / (2 * (k * k * a))
          = (-b - Real.sqrt (b * b - 4 * a * cc)) / (2 * a) / k := by
        field_simp
        ring
      have h2 : (-(k * b) + k * Real.sqrt (b * b - 4 * a * cc)) / (2 * (k * k * a))
          = (-b + Real.sqrt (b * b - 4 * a * cc)) / (2 * a) / k := by
        field_simp
        ring
      rw [h1, h2]
      have hpos : ∀ x : ℝ, x / k > 0 ↔ x > 0 := fun x => div_pos_iff_of_pos_right hk
      by_cases ht1 : (-b - Real.sqrt (b * b - 4 * a * cc)) / (2 * a) > 0
      · have ht1' := (hpos _).mpr ht1
        simp only [ht1, ht1', if_true, Option.map_some']
      · have ht1' : ¬ (-b - Real.sqrt (b * b - 4 * a * cc)) / (2 * a) / k > 0 :=
          fun h => ht1 ((hpos _).mp h)
        simp only [ht1, ht1', if_false]
        by_cases ht2 : (-b + Real.sqrt (b * b - 4 * a * cc)) / (2 * a) > 0
        · have ht2' := (hpos _).mpr ht2
          simp only [ht2, ht2', if_true, Option.map_some']
        · have ht2' : ¬ (-b + Real.sqrt (b * b - 4 * a * cc)) / (2 * a) / k > 0 :=
            fun h => ht2 ((hpos _).mp h)
          simp only [ht2, ht2', if_false, Option.map_none']
  · intro t
    have hk' := hk.ne'
    simp only [rayPoint, Vec3.add, Vec3.smul]
    congr 1 <;> (field_simp; ring)

/-- C14 at a concrete ray: doubling the direction of the spec's example ray halves the
reported parameter, `t = 2` instead of `t = 4`. -/
theorem raySphereIntersection_scale_witness :
    raySphereIntersection (Libm.mk Real.pi Real.cos Real.sin Real.sqrt)
        ⟨0, 0, 0⟩ (Vec3.smul 2 ⟨0, 0, -1⟩) ⟨0, 0, -5⟩ 1 = some 2 := by
  have hsqrt : Real.sqrt 4 = 2 := by
    rw [show (4 : ℝ) = 2 * 2 by norm_num]
    exact Real.sqrt_mul_self (by norm_num)
  have h1 : raySphereIntersection (Libm.mk Real.pi Real.cos Real.sin Real.sqrt)
      ⟨0, 0, 0⟩ ⟨0, 0, -1⟩ ⟨0, 0, -5⟩ 1 = some 4 := by
    simp only [raySphereIntersection, Vec3.sub, Vec3.dot]
    norm_num [hsqrt]
  have hd : (⟨0, 0, -1⟩ : Vec3 ℝ) ≠ ⟨0, 0, 0⟩ := by
    intro h
    have hz := congrArg Vec3.z h
    norm_num at hz
  rw [(raySphereIntersection_scale ⟨0, 0, 0⟩ ⟨0, 0, -1⟩ ⟨0, 0, -5⟩ 1 2 hd (by norm_num)).1,
    h1]
  norm_num

end RaySphereCases

section SphereLifeCycle

variable {K : Type} [Field K]

/-- Freshly generated buffers are consistent. -/
theorem generateVertices_consistent (M : Libm K) (s : Sphere K) :
    Sphere.Consistent M (Sphere.generateVertices M s) :=
  ⟨rfl, rfl⟩

/-- The method `setup` keeps consistent buffers consistent. -/
theorem setup_consistent (M : Libm K) (s : Sphere K) (gl : GLState)
    (h : Sphere.Consistent M s) : Sphere.Consistent M (Sphere.setup s gl).1 :=
  ⟨h.1, h.2⟩

/-- The method `render` keeps consistent buffers consistent. -/
theorem render_consistent (M : Libm K) (s : Sphere K) (gl : GLState)
    (h : Sphere.Consistent M s) : Sphere.Consistent M (Sphere.render s gl).1 := by
  unfold Sphere.render
  cases s.isSetup
  · exact setup_consistent M s gl h
  · exact h

/-- After `setPosition` the buffers are consistent, whatever they were before. -/
theorem setPosition_consistent (M : Libm K) (p : Vec3 K) (s : Sphere K) (gl : GLState) :
    Sphere.Consistent M (Sphere.setPosition M p s gl).1 := by
  unfold Sphere.setPosition
  simp only [(generateVertices_fields M _).2.2.2.2.2]
  cases s.isSetup
  · exact generateVertices_consistent M _
  · exact setup_consistent M _ gl (generateVertices_consistent M _)

/-- After `setRadius` the buffers are consistent, whatever they were before. -/
theorem setRadius_consistent (M : Libm K) (r : K) (s : Sphere K) (gl : GLState) :
    Sphere.Consistent M (Sphere.setRadius M r s gl).1 := by
  unfold Sphere.setRadius
  simp only [(generateVertices_fields M _).2.2.2.2.2]
  cases s.isSetup
  · exact generateVertices_consistent M _
  · exact setup_consistent M _ gl (generateVertices_consistent M _)

/-- After `setColor` the buffers are consistent, whatever they were before. -/
theorem setColor_consistent (M : Libm K) (c : Vec3 K) (s : Sphere K) (gl : GLState) :
    Sphere.Consistent M (Sphere.setColor M c s gl).1 := by
  unfold Sphere.setColor
  simp only [(generateVertices_fields M _).2.2.2.2.2]
  cases s.isSetup
  · exact generateVertices_consistent M _
  · exact setup_consistent M _ gl (generateVertices_consistent M _)

/-- Every method call keeps consistent buffers consistent. -/
theorem step_consistent (M : Libm K) (st : Sphere K × GLState) (op : SphereOp K)
    (h : Sphere.Consistent M st.1) : Sphere.Consistent M (Sphere.step M st op).1 := by
  cases op with
  | setup => exact setup_consistent M st.1 st.2 h
  | render => exact render_consistent M st.1 st.2 h
  | setPosition p => exact setPosition_consistent M p st.1 st.2
  | setRadius r => exact setRadius_consistent M r st.1 st.2
  | setColor c => exact setColor_consistent M c st.1 st.2

/-- Every sequence of method calls keeps consistent buffers consistent. -/
theorem run_consistent (M : Libm K) (ops : List (SphereOp K)) :
    ∀ st : Sphere K × GLState, Sphere.Consistent M st.1 →
      Sphere.Consistent M (Sphere.run M ops st).1 := by
  induction ops with
  | nil => intro st h; exact h
  | cons op rest ih =>
    intro st h
    exact ih (Sphere.step M st op) (step_consistent M st op h)

/-- C16. Setter/getter round trip of a sphere: after `setPosition(P)`, `getPosition()`
returns `P`; after `setRadius(R)`, `getRadius()` returns `R`; after `setColor(C)`,
`getColor()` returns `C`; and each setter leaves the other two properties and the sector and
stack counts as they were. -/
theorem sphere_setter_getter_roundtrip (M : Libm K) (s : Sphere K) (gl : GLState)
    (P C : Vec3 K) (R : K) :
    ((Sphere.setPosition M P s gl).1.getPosition = P ∧
      (Sphere.setPosition M P s gl).1.getRadius = s.getRadius ∧
      (Sphere.setPosition M P s gl).1.getColor = s.getColor ∧
      (Sphere.setPosition M P s gl).1.sectorCount = s.sectorCount ∧
      (Sphere.setPosition M P s gl).1.stackCount = s.stackCount) ∧
    ((Sphere.setRadius M R s gl).1.getRadius = R ∧
      (Sphere.setRadius M R s gl).1.getPosition = s.getPosition ∧
      (Sphere.setRadius M R s gl).1.getColor = s.getColor ∧
      (Sphere.setRadius M R s gl).1.sectorCount = s.sectorCount ∧
      (Sphere.setRadius M R s gl).1.stackCount = s.stackCount) ∧
    ((Sphere.setColor M C s gl).1.getColor = C ∧
      (Sphere.setColor M C s gl).1.getPosition = s.getPosition ∧
      (Sphere.setColor M C s gl).1.getRadius = s.getRadius ∧
      (Sphere.setColor M C s gl).1.sectorCount = s.sectorCount ∧
      (Sphere.setColor M C s gl).1.stackCount = s.stackCount) := by
  obtain ⟨hp1, hp2, hp3, hp4, hp5⟩ := setPosition_fields M P s gl
  obtain ⟨hr1, hr2, hr3, hr4, hr5⟩ := setRadius_fields M R s gl
  obtain ⟨hc1, hc2, hc3, hc4, hc5⟩ := setColor_fields M C s gl
  unfold Sphere.getPosition Sphere.getRadius Sphere.getColor
  exact ⟨⟨hp1, hp2, hp3, hp4, hp5⟩, ⟨hr2, hr1, hr3, hr4, hr5⟩, ⟨hc3, hc1, hc2, hc4, hc5⟩⟩

end SphereLifeCycle

section SphereHandles

/-- Replaying a concatenated trace is replaying its parts in turn. -/
theorem replay_append (live : LiveHandles) (xs ys : List GLCall) :
    live.replay (xs ++ ys) = (live.replay xs).bind (fun l => l.replay ys) := by
  unfold LiveHandles.replay
  rw [List.foldlM_append]
  rfl

/-- The calls of `setup`: three deletions when the sphere was set up, then three
generations; on the live names they replace the sphere's old names by its new ones. -/
theorem setup_trace {K : Type} (s : Sphere K) (gl : GLState)
    (hgood : s.isSetup = true → s.EBO ≠ s.VBO) :
    ∃ trace, (Sphere.setup s gl).2.calls = gl.calls ++ trace ∧
      s.liveHandles.replay trace = some (Sphere.setup s gl).1.liveHandles ∧
      (Sphere.setup s gl).1.isSetup = true ∧
      (Sphere.setup s gl).1.EBO ≠ (Sphere.setup s gl).1.VBO := by
  cases hs : s.isSetup with
  | false =>
    refine ⟨[GLCall.genVertexArray gl.nextVertexArray, GLCall.genBuffer gl.nextBuffer,
      GLCall.genBuffer (gl.nextBuffer + 1)], ?_, ?_, rfl, ?_⟩
    · simp [Sphere.setup, hs, GLState.genVertexArray, GLState.genBuffer]
    · simp [Sphere.liveHandles, hs, Sphere.setup, LiveHandles.replay, LiveHandles.apply,
        GLState.genVertexArray, GLState.genBuffer]
    · simp [Sphere.setup, GLState.genVertexArray, GLState.genBuffer]
  | true =>
    have hne := hgood hs
    refine ⟨[GLCall.deleteVertexArray s.VAO, GLCall.deleteBuffer s.VBO,
      GLCall.deleteBuffer s.EBO, GLCall.genVertexArray gl.nextVertexArray,
      GLCall.genBuffer gl.nextBuffer, GLCall.genBuffer (gl.nextBuffer + 1)], ?_, ?_, rfl, ?_⟩
    · simp [Sphere.setup, hs, GLState.genVertexArray, GLState.genBuffer,
        GLState.deleteVertexArray, GLState.deleteBuffer]
    · have herase : [s.EBO, s.VBO].erase s.VBO = [s.EBO] := by
        simp [List.erase_cons, hne]
      simp [Sphere.liveHandles, hs, Sphere.setup, LiveHandles.replay, LiveHandles.apply,
        GLState.genVertexArray, GLState.genBuffer, GLState.deleteVertexArray,
        GLState.deleteBuffer, herase]
    · simp [Sphere.setup, hs, GLState.genVertexArray, GLState.genBuffer,
        GLState.deleteVertexArray, GLState.deleteBuffer]

/-- An operation that leaves the sphere's object names and the context alone has an empty
trace. -/
theorem trace_unchanged {K : Type} (s s' : Sphere K) (gl : GLState)
    (h1 : s'.isSetup = s.isSetup) (h2 : s'.VAO = s.VAO) (h3 : s'.VBO = s.VBO)
    (h4 : s'.EBO = s.EBO) (hgood : s.isSetup = true → s.EBO ≠ s.VBO) :
    ∃ trace, gl.calls = gl.calls ++ trace ∧
      s.liveHandles.replay trace = some s'.liveHandles ∧
      (s'.isSetup = true → s'.EBO ≠ s'.VBO) := by
  refine ⟨[], by simp, ?_, ?_⟩
  · simp [LiveHandles.replay, Sphere.liveHandles, h1, h2, h3, h4]
  · rw [h1, h3, h4]
    exact hgood

variable {K : Type} [Field K]

/-- Every method call extends the trace of calls, and the extension turns the sphere's live
names before the call into its live names after the call. -/
theorem step_trace (M : Libm K) (st : Sphere K × GLState) (op : SphereOp K)
    (hgood : st.1.isSetup = true → st.1.EBO ≠ st.1.VBO) :
    ∃ trace, (Sphere.step M st op).2.calls = st.2.calls ++ trace ∧
      st.1.liveHandles.replay trace = some (Sphere.step M st op).1.liveHandles ∧
      ((Sphere.step M st op).1.isSetup = true →
        (Sphere.step M st op).1.EBO ≠ (Sphere.step M st op).1.VBO) := by
  have hsetter : ∀ s' : Sphere K, s'.isSetup = st.1.isSetup → s'.VAO = st.1.VAO →
      s'.VBO = st.1.VBO → s'.EBO = st.1.EBO →
      ∃ trace, (if s'.isSetup = true then Sphere.setup s' st.2 else (s', st.2)).2.calls
          = st.2.calls ++ trace ∧
        st.1.liveHandles.replay trace
          = some (if s'.isSetup = true then Sphere.setup s' st.2 else (s', st.2)).1.liveHandles ∧
        ((if s'.isSetup = true then Sphere.setup s' st.2 else (s', st.2)).1.isSetup = true →
          (if s'.isSetup = true then Sphere.setup s' st.2 else (s', st.2)).1.EBO
            ≠ (if s'.isSetup = true then Sphere.setup s' st.2 else (s', st.2)).1.VBO) := by
    intro s' h1 h2 h3 h4
    have hlive : s'.liveHandles = st.1.liveHandles := by
      simp [Sphere.liveHandles, h1, h2, h3, h4]
    by_cases hs : s'.isSetup = true
    · rw [if_pos hs]
      obtain ⟨tr, htr, hrep, _, hne⟩ := setup_trace s' st.2
        (by rw [h1, h3, h4]; exact hgood)
      exact ⟨tr, htr, by rw [← hlive]; exact hrep, fun _ => hne⟩
    · rw [if_neg hs]
      exact trace_unchanged st.1 s' st.2 h1 h2 h3 h4 hgood
  cases op with
  | setup =>
    obtain ⟨tr, htr, hrep, _, hne⟩ := setup_trace st.1 st.2 hgood
    exact ⟨tr, htr, hrep, fun _ => hne⟩
  | render =>
    show ∃ trace, (Sphere.render st.1 st.2).2.calls = st.2.calls ++ trace ∧
      st.1.liveHandles.replay trace = some (Sphere.render st.1 st.2).1.liveHandles ∧
      ((Sphere.render st.1 st.2).1.isSetup = true →
        (Sphere.render st.1 st.2).1.EBO ≠ (Sphere.render st.1 st.2).1.VBO)
    unfold Sphere.render
    cases hs : st.1.isSetup with
    | false =>
      obtain ⟨tr, htr, hrep, _, hne⟩ := setup_trace st.1 st.2 hgood
      exact ⟨tr, htr, hrep, fun _ => hne⟩
    | true =>
      exact trace_unchanged st.1 st.1 st.2 rfl rfl rfl rfl hgood
  | setPosition p =>
    exact hsetter (Sphere.generateVertices M { st.1 with position := p }) rfl rfl rfl rfl
  | setRadius r =>
    exact hsetter (Sphere.generateVertices M { st.1 with radius := r }) rfl rfl rfl rfl
  | setColor c =>
    exact hsetter (Sphere.generateVertices M { st.1 with color := c }) rfl rfl rfl rfl

/-- Every sequence of method calls extends the trace, and the extension turns the live
names before into the live names after. -/
theorem run_trace (M : Libm K) (ops : List (SphereOp K)) :
    ∀ st : Sphere K × GLState, (st.1.isSetup = true → st.1.EBO ≠ st.1.VBO) →
      ∃ trace, (Sphere.run M ops st).2.calls = st.2.calls ++ trace ∧
        st.1.liveHandles.replay trace = some (Sphere.run M ops st).1.liveHandles ∧
        ((Sphere.run M ops st).1.isSetup = true →
          (Sphere.run M ops st).1.EBO ≠ (Sphere.run M ops st).1.VBO) := by
  induction ops with
  | nil =>
    intro st hgood
    exact ⟨[], by simp [Sphere.run], by simp [Sphere.run, LiveHandles.replay], hgood⟩
  | cons op rest ih =>
    intro st hgood
    obtain ⟨tr1, h1, hrep1, hgood1⟩ := step_trace M st op hgood
    obtain ⟨tr2, h2, hrep2, hgood2⟩ := ih (Sphere.step M st op) hgood1
    refine ⟨tr1 ++ tr2, ?_, ?_, hgood2⟩
    · show (Sphere.run M rest (Sphere.step M st op)).2.calls = _
      rw [h2, h1, List.append_assoc]
    · rw [replay_append, hrep1]
      exact hrep2

/-- The destructor's calls delete exactly the live names of the sphere. -/
theorem destroy_trace {K : Type} (s : Sphere K) (gl : GLState)
    (hgood : s.isSetup = true → s.EBO ≠ s.VBO) :
    ∃ trace, (Sphere.destroy s gl).calls = gl.calls ++ trace ∧
      s.liveHandles.replay trace = some { vertexArrays := [], buffers := [] } := by
  cases hs : s.isSetup with
  | false =>
    exact ⟨[], by simp [Sphere.destroy, hs],
      by simp [LiveHandles.replay, Sphere.liveHandles, hs]⟩
  | true =>
    have hne := hgood hs
    have herase : [s.EBO, s.VBO].erase s.VBO = [s.EBO] := by
      simp [List.erase_cons, hne]
    exact ⟨[GLCall.deleteVertexArray s.VAO, GLCall.deleteBuffer s.VBO,
        GLCall.deleteBuffer s.EBO],
      by simp [Sphere.destroy, hs, GLState.deleteVertexArray, GLState.deleteBuffer],
      by simp [Sphere.liveHandles, hs, LiveHandles.replay, LiveHandles.apply, herase]⟩

/-- A sequence of setter calls on a sphere that is not set up leaves the context as it is
and the sphere not set up. -/
theorem run_setters_only (M : Libm K) (ops : List (SphereOp K)) :
    ∀ st : Sphere K × GLState, st.1.isSetup = false →
      (∀ op ∈ ops, op.isSetter = true) →
      (Sphere.run M ops st).2 = st.2 ∧ (Sphere.run M ops st).1.isSetup = false := by
  induction ops with
  | nil => intro st h _; exact ⟨rfl, h⟩
  | cons op rest ih =>
    intro st h hall
    have hop := hall op (List.mem_cons_self _ _)
    have hstep : (Sphere.step M st op).2 = st.2 ∧ (Sphere.step M st op).1.isSetup = false := by
      cases op with
      | setup => simp [SphereOp.isSetter] at hop
      | render => simp [SphereOp.isSetter] at hop
      | setPosition p =>
        simp only [Sphere.step, Sphere.setPosition, (generateVertices_fields M _).2.2.2.2.2]
        simp [h, (generateVertices_fields M _).2.2.2.2.2]
      | setRadius r =>
        simp only [Sphere.step, Sphere.setRadius, (generateVertices_fields M _).2.2.2.2.2]
        simp [h, (generateVertices_fields M _).2.2.2.2.2]
      | setColor c =>
        simp only [Sphere.step, Sphere.setColor, (generateVertices_fields M _).2.2.2.2.2]
        simp [h, (generateVertices_fields M _).2.2.2.2.2]
    obtain ⟨h2, h1⟩ := ih (Sphere.step M st op) hstep.2
      (fun o ho => hall o (List.mem_cons_of_mem _ ho))
    exact ⟨by show (Sphere.run M rest (Sphere.step M st op)).2 = _; rw [h2, hstep.1], h1⟩

/-- C20: GPU handle pairing for one sphere.  For every sequence `ops` of `setup`, `render`,
`setPosition`, `setRadius` and `setColor` calls on a newly constructed sphere followed by the
destructor, the calls made on the OpenGL context replay on the set of live names from the
empty set back to the empty set: no name is generated while it is live, every deleted name
is live when it is deleted, and nothing stays live at the end, so every name the sphere
generated is deleted exactly once.  A `setup` of a sphere that is set up deletes its vertex
array and its two buffers before it generates the three new names.  The setters among `ops`
alone, on the newly constructed sphere, make no call at all. -/
theorem sphere_handle_pairing (M : Libm K) (position : Vec3 K) (radius : K)
    (sectorCount stackCount : Nat) (ops : List (SphereOp K)) (gl : GLState) (s : Sphere K) :
    (∃ trace,
      (Sphere.destroy
        (Sphere.run M ops (Sphere.new M position radius sectorCount stackCount, gl)).1
        (Sphere.run M ops (Sphere.new M position radius sectorCount stackCount, gl)).2).calls
          = gl.calls ++ trace ∧
      LiveHandles.replay { vertexArrays := [], buffers := [] } trace
        = some { vertexArrays := [], buffers := [] }) ∧
    (Sphere.setup { s with isSetup := true } gl).2.calls
      = gl.calls ++ [GLCall.deleteVertexArray s.VAO, GLCall.deleteBuffer s.VBO,
          GLCall.deleteBuffer s.EBO, GLCall.genVertexArray gl.nextVertexArray,
          GLCall.genBuffer gl.nextBuffer, GLCall.genBuffer (gl.nextBuffer + 1)] ∧
    (Sphere.run M (ops.filter SphereOp.isSetter)
      (Sphere.new M position radius sectorCount stackCount, gl)).2 = gl := by
  have hnew : (Sphere.new M position radius sectorCount stackCount).isSetup = false := rfl
  refine ⟨?_, ?_, ?_⟩
  · obtain ⟨tr1, h1, hrep1, hgood1⟩ := run_trace M ops
      (Sphere.new M position radius sectorCount stackCount, gl)
      (fun h => by rw [hnew] at h; cases h)
    obtain ⟨tr2, h2, hrep2⟩ := destroy_trace _ _ hgood1
    refine ⟨tr1 ++ tr2, ?_, ?_⟩
    · rw [h2, h1, List.append_assoc]
    · rw [replay_append]
      have hlive : (Sphere.new M position radius sectorCount stackCount).liveHandles
          = { vertexArrays := [], buffers := [] } := by
        simp [Sphere.liveHandles, hnew]
      rw [← hlive, hrep1]
      exact hrep2
  · simp [Sphere.setup, GLState.genVertexArray, GLState.genBuffer, GLState.deleteVertexArray,
      GLState.deleteBuffer]
  · exact (run_setters_only M (ops.filter SphereOp.isSetter)
      (Sphere.new M position radius sectorCount stackCount, gl) hnew
      (fun op hop => (List.mem_filter.mp hop).2)).1

end SphereHandles

section LoadMeshes

variable {K : Type} [Zero K] [One K]

/-- The loop over lines none of which is a face line succeeds and leaves the flattened
vertices and the indices as they were. -/
theorem parseLines_no_face (P : FloatReader K) (lines : List (List Char)) :
    ∀ st : LoadState K, (∀ line ∈ lines, lineKeyword line ≠ ['f']) →
      ∃ st', lines.foldlM (parseLine P) st = Except.ok st' ∧
        st'.finalVertices = st.finalVertices ∧ st'.indices = st.indices := by
  induction lines with
  | nil => intro st _; exact ⟨st, rfl, rfl, rfl⟩
  | cons line rest ih =>
    intro st h
    obtain ⟨st1, h1, hfv, hix⟩ := parseLine_other P st line (h line (List.mem_cons_self _ _))
    obtain ⟨st', h', hfv', hix'⟩ := ih st1 (fun l hl => h l (List.mem_cons_of_mem _ hl))
    exact ⟨st', by rw [List.foldlM_cons, h1]; exact h', by rw [hfv', hfv], by rw [hix', hix]⟩

/-- C11 fails on the code.  A file that cannot be opened yields zero meshes, and so does
every file without a face line; a well-formed file with `F > 0` face lines yields exactly one
mesh, with the `3·F` vertices and indices of all its face lines.  But the file `f 1 2`
contains a face line and yields no mesh at all: `std::stoi` throws `std::invalid_argument`
on the empty third vertex group and the exception escapes `loadModel`. -/
theorem loadModel_mesh_count (P : FloatReader K) (gl : GLState) (content : List Char) :
    loadModel P none gl = Except.ok ([], gl) ∧
    (faceLineCount content = 0 → loadModel P (some content) gl = Except.ok ([], gl)) ∧
    (0 < faceLineCount content → WellFormedObj content →
      3 * faceLineCount content ≤ 4294967296 →
      ∃ mesh gl', loadModel P (some content) gl = Except.ok ([mesh], gl') ∧
        mesh.vertices.length = 3 * faceLineCount content ∧
        mesh.indices = List.range (3 * faceLineCount content)) ∧
    (faceLineCount ['f', ' ', '1', ' ', '2'] = 1 ∧
      loadModel P (some ['f', ' ', '1', ' ', '2']) gl
        = Except.error CppException.invalid_argument) := by
  have hload : ∀ st : LoadState K,
      (fileLines content).foldlM (parseLine P)
        { vertices := [], normals := [], texCoords := [], finalVertices := [], indices := [] }
        = Except.ok st →
      loadModel P (some content) gl =
        (if (!st.finalVertices.isEmpty) = true ∧ (!st.indices.isEmpty) = true then
          Except.ok ([(Mesh.new st.finalVertices st.indices gl).1],
            (Mesh.new st.finalVertices st.indices gl).2)
        else Except.ok ([], gl)) := by
    intro st hst
    unfold loadModel
    simp only
    rw [hst]
    rfl
  refine ⟨rfl, ?_, ?_, by decide, rfl⟩
  · intro hzero
    have hnone : ∀ line ∈ fileLines content, lineKeyword line ≠ ['f'] := by
      intro line hline hf
      have hmem : line ∈ (fileLines content).filter
          (fun line => decide (lineKeyword line = ['f'])) :=
        List.mem_filter.mpr ⟨hline, by simpa using hf⟩
      unfold faceLineCount at hzero
      rw [List.length_eq_zero] at hzero
      rw [hzero] at hmem
      cases hmem
    obtain ⟨st, hst, hfv, _⟩ := parseLines_no_face P (fileLines content)
      { vertices := [], normals := [], texCoords := [], finalVertices := [], indices := [] }
      hnone
    rw [hload st hst, if_neg (by simp [hfv])]
  · intro hpos hwf hF
    obtain ⟨st, hst, hlen, hidx⟩ := parseLines_ok P (fileLines content)
      { vertices := [], normals := [], texCoords := [], finalVertices := [], indices := [] } 0
      hwf (by simpa [faceLineCount] using hF) rfl rfl
    simp only [Nat.zero_add] at hlen hidx
    change st.finalVertices.length = 3 * faceLineCount content at hlen
    change st.indices = List.range (3 * faceLineCount content) at hidx
    have hfv : st.finalVertices.isEmpty = false := by
      cases hc : st.finalVertices with
      | nil => rw [hc] at hlen; simp at hlen; omega
      | cons a l => rfl
    have hix : st.indices.isEmpty = false := by
      cases hc : st.indices with
      | nil =>
        have := congrArg List.length hidx
        rw [hc] at this
        simp at this
        omega
      | cons a l => rfl
    refine ⟨(Mesh.new st.finalVertices st.indices gl).1,
      (Mesh.new st.finalVertices st.indices gl).2, ?_, hlen, hidx⟩
    rw [hload st hst, if_pos (by simp [hfv, hix])]

/-- The theorem `loadModel_mesh_count` on a file with one vertex line and no face line, and
on the spec's one-triangle file. -/
theorem loadModel_mesh_count_witness :
    loadModel (FloatReader.mk (fun _ => (⟨0, 0, 0⟩ : Vec3 ℚ)) (fun _ => ⟨0, 0⟩))
        (some ['v', ' ', '0', ' ', '0', ' ', '0']) ⟨1, 1, []⟩ = Except.ok ([], ⟨1, 1, []⟩) ∧
    ∃ (mesh : Mesh ℚ) (gl' : GLState),
      loadModel (FloatReader.mk (fun _ => (⟨0, 0, 0⟩ : Vec3 ℚ)) (fun _ => ⟨0, 0⟩))
        (some triangleObj) ⟨1, 1, []⟩ = Except.ok ([mesh], gl') ∧
      mesh.vertices.length = 3 ∧ mesh.indices = [0, 1, 2] := by
  have hcount : faceLineCount triangleObj = 1 := by decide
  refine ⟨(loadModel_mesh_count
    (FloatReader.mk (fun _ => (⟨0, 0, 0⟩ : Vec3 ℚ)) (fun _ => ⟨0, 0⟩)) ⟨1, 1, []⟩
    ['v', ' ', '0', ' ', '0', ' ', '0']).2.1 (by decide), ?_⟩
  obtain ⟨mesh, gl', hr, hv, hi⟩ := (loadModel_mesh_count
    (FloatReader.mk (fun _ => (⟨0, 0, 0⟩ : Vec3 ℚ)) (fun _ => ⟨0, 0⟩)) ⟨1, 1, []⟩
    triangleObj).2.2.1 (by rw [hcount]; decide) triangleObj_wellFormed
    (by rw [hcount]; decide)
  rw [hcount] at hv hi
  exact ⟨mesh, gl', hr, hv, by rw [hi]; rfl⟩

end LoadMeshes

section QuatMatrix

variable {K : Type} [Field K]

/-- The squared norm is multiplicative. -/
theorem normSq_mul (p q : Quat K) : (Quat.mul p q).normSq = p.normSq * q.normSq := by
  simp only [Quat.normSq, Quat.mul]
  ring

/-- The homogeneous rotation matrix is multiplicative. -/
theorem conjugationMatrix_mul (p q : Quat K) :
    (Quat.mul p q).conjugationMatrix = Mat4.mul p.conjugationMatrix q.conjugationMatrix := by
  simp only [Quat.conjugationMatrix, Quat.normSq, Quat.mul, Mat4.mul, Mat4.mulVec, Vec4.add,
    Vec4.muls, Mat4.mk.injEq, Vec4.mk.injEq]
  refine ⟨⟨?_, ?_, ?_, ?_⟩, ⟨?_, ?_, ?_, ?_⟩, ⟨?_, ?_, ?_, ?_⟩, ⟨?_, ?_, ?_, ?_⟩⟩ <;> ring

/-- For a quaternion of norm one, `mat4_cast` is the homogeneous rotation matrix. -/
theorem mat4_cast_unit (q : Quat K) (h : q.normSq = 1) :
    glm.mat4_cast q = q.conjugationMatrix := by
  unfold Quat.normSq at h
  simp only [glm.mat4_cast, Quat.conjugationMatrix, Quat.normSq, Mat4.mk.injEq, Vec4.mk.injEq]
  refine ⟨⟨?_, ?_, ?_, ?_⟩, ⟨?_, ?_, ?_, ?_⟩, ⟨?_, ?_, ?_, ?_⟩, ⟨?_, ?_, ?_, ?_⟩⟩ <;>
    first | trivial | linear_combination h | linear_combination -h

/-- On quaternions of norm one, `mat4_cast` turns the quaternion product into the matrix
product. -/
theorem mat4_cast_mul (p q : Quat K) (hp : p.normSq = 1) (hq : q.normSq = 1) :
    glm.mat4_cast (Quat.mul p q) = Mat4.mul (glm.mat4_cast p) (glm.mat4_cast q) := by
  rw [mat4_cast_unit p hp, mat4_cast_unit q hq,
    mat4_cast_unit _ (by rw [normSq_mul, hp, hq, one_mul]), conjugationMatrix_mul]

/-- The matrix `glm::translate` of the identity is the translation matrix, `glm::scale` of
the identity is the scale matrix, and `glm::scale(m, s)` is the product `m · S(s)`. -/
theorem translate_scale_matrices (m : Mat4 K) (p s : Vec3 K) :
    glm.translate Mat4.identity p = translationMatrix p ∧
    glm.scale Mat4.identity s = scaleMatrix s ∧
    glm.scale m s = Mat4.mul m (scaleMatrix s) := by
  refine ⟨?_, ?_, ?_⟩
  · simp [glm.translate, Mat4.identity, translationMatrix, Vec4.add, Vec4.muls]
  · simp [glm.scale, Mat4.identity, scaleMatrix, Vec4.muls]
  · simp [glm.scale, scaleMatrix, Mat4.mul, Mat4.mulVec, Vec4.add, Vec4.muls]

/-- The matrix product is associative. -/
theorem Mat4.mul_assoc (a b c : Mat4 K) :
    Mat4.mul (Mat4.mul a b) c = Mat4.mul a (Mat4.mul b c) := by
  simp only [Mat4.mul, Mat4.mulVec, Vec4.add, Vec4.muls, Mat4.mk.injEq, Vec4.mk.injEq]
  refine ⟨⟨?_, ?_, ?_, ?_⟩, ⟨?_, ?_, ?_, ?_⟩, ⟨?_, ?_, ?_, ?_⟩, ⟨?_, ?_, ?_, ?_⟩⟩ <;> ring

end QuatMatrix

section ModelMatrix

/-- The half-angle form of the cosine and the sine of a real angle. -/
theorem half_angle (a : ℝ) :
    Real.cos a = 1 - 2 * (Real.sin (a * (1 / 2)) * Real.sin (a * (1 / 2))) ∧
    Real.sin a = 2 * (Real.cos (a * (1 / 2)) * Real.sin (a * (1 / 2))) := by
  have h1 := Real.cos_two_mul (a * (1 / 2))
  have h2 := Real.sin_two_mul (a * (1 / 2))
  have h3 := Real.sin_sq_add_cos_sq (a * (1 / 2))
  have e : 2 * (a * (1 / 2)) = a := by ring
  rw [e] at h1 h2
  constructor
  · nlinarith
  · rw [h2]; ring

/-- Over the reals, the matrix of `angleAxis(a, (0,0,1))` is the rotation by `a` about the
Z axis, and likewise for the Y and X axes. -/
theorem mat4_cast_angleAxis (a : ℝ) :
    glm.mat4_cast (glm.angleAxis (Libm.mk Real.pi Real.cos Real.sin Real.sqrt) a ⟨0, 0, 1⟩)
      = rotationZ (Libm.mk Real.pi Real.cos Real.sin Real.sqrt) a ∧
    glm.mat4_cast (glm.angleAxis (Libm.mk Real.pi Real.cos Real.sin Real.sqrt) a ⟨0, 1, 0⟩)
      = rotationY (Libm.mk Real.pi Real.cos Real.sin Real.sqrt) a ∧
    glm.mat4_cast (glm.angleAxis (Libm.mk Real.pi Real.cos Real.sin Real.sqrt) a ⟨1, 0, 0⟩)
      = rotationX (Libm.mk Real.pi Real.cos Real.sin Real.sqrt) a := by
  obtain ⟨hc, hs⟩ := half_angle a
  simp only [glm.mat4_cast, glm.angleAxis, rotationX, rotationY, rotationZ, hc, hs,
    Mat4.mk.injEq, Vec4.mk.injEq]
  refine ⟨⟨⟨?_, ?_, ?_, ?_⟩, ⟨?_, ?_, ?_, ?_⟩, ⟨?_, ?_, ?_, ?_⟩, ?_⟩,
    ⟨⟨?_, ?_, ?_, ?_⟩, ⟨?_, ?_, ?_, ?_⟩, ⟨?_, ?_, ?_, ?_⟩, ?_⟩,
    ⟨⟨?_, ?_, ?_, ?_⟩, ⟨?_, ?_, ?_, ?_⟩, ⟨?_, ?_, ?_, ?_⟩, ?_⟩⟩ <;> first | trivial | ring

/-- Over the reals, `angleAxis` about a coordinate axis is a quaternion of norm one. -/
theorem angleAxis_normSq (a : ℝ) :
    (glm.angleAxis (Libm.mk Real.pi Real.cos Real.sin Real.sqrt) a ⟨0, 0, 1⟩).normSq = 1 ∧
    (glm.angleAxis (Libm.mk Real.pi Real.cos Real.sin Real.sqrt) a ⟨0, 1, 0⟩).normSq = 1 ∧
    (glm.angleAxis (Libm.mk Real.pi Real.cos Real.sin Real.sqrt) a ⟨1, 0, 0⟩).normSq = 1 := by
  have h := Real.sin_sq_add_cos_sq (a * (1 / 2))
  simp only [glm.angleAxis, Quat.normSq]
  refine ⟨?_, ?_, ?_⟩ <;> nlinarith

/-- C17. Over the reals, for every position `p`, scale `s` and Euler rotation `r` in
degrees, the model matrix of a model in Euler mode is `T(p) · R · S(s)`, where `R` is the
matrix of the quaternion product `qYaw · qPitch · qRoll` with `qPitch` the rotation by
`r.x` about the Z axis, `qYaw` the rotation by `r.y` about the Y axis and `qRoll` the
rotation by `r.z` about the X axis; `R` is the product of the three rotation matrices in
that order; and with rotation `(0,0,0)` the matrix maps a point `v` to `p + s⊙v`. -/
theorem getModelMatrix_euler_trs (meshes : List (Mesh ℝ)) (p s r v : Vec3 ℝ) (q : Quat ℝ) :
    Model.getModelMatrix (Libm.mk Real.pi Real.cos Real.sin Real.sqrt)
        ⟨meshes, p, r, s, q, false⟩
      = Mat4.mul (Mat4.mul (translationMatrix p)
          (glm.mat4_cast (Quat.mul (Quat.mul
            (glm.angleAxis (Libm.mk Real.pi Real.cos Real.sin Real.sqrt) (glm.radians r.y)
              ⟨0, 1, 0⟩)
            (glm.angleAxis (Libm.mk Real.pi Real.cos Real.sin Real.sqrt) (glm.radians r.x)
              ⟨0, 0, 1⟩))
            (glm.angleAxis (Libm.mk Real.pi Real.cos Real.sin Real.sqrt) (glm.radians r.z)
              ⟨1, 0, 0⟩))))
          (scaleMatrix s) ∧
    glm.mat4_cast (Quat.mul (Quat.mul
        (glm.angleAxis (Libm.mk Real.pi Real.cos Real.sin Real.sqrt) (glm.radians r.y)
          ⟨0, 1, 0⟩)
        (glm.angleAxis (Libm.mk Real.pi Real.cos Real.sin Real.sqrt) (glm.radians r.x)
          ⟨0, 0, 1⟩))
        (glm.angleAxis (Libm.mk Real.pi Real.cos Real.sin Real.sqrt) (glm.radians r.z)
          ⟨1, 0, 0⟩))
      = Mat4.mul (Mat4.mul
          (rotationY (Libm.mk Real.pi Real.cos Real.sin Real.sqrt) (glm.radians r.y))
          (rotationZ (Libm.mk Real.pi Real.cos Real.sin Real.sqrt) (glm.radians r.x)))
          (rotationX (Libm.mk Real.pi Real.cos Real.sin Real.sqrt) (glm.radians r.z)) ∧
    (Model.getModelMatrix (Libm.mk Real.pi Real.cos Real.sin Real.sqrt)
        ⟨meshes, p, ⟨0, 0, 0⟩, s, q, false⟩).applyPoint v
      = ⟨p.x + s.x * v.x, p.y + s.y * v.y, p.z + s.z * v.z, 1⟩ := by
  refine ⟨?_, ?_, ?_⟩
  · show glm.scale (Mat4.mul (glm.translate Mat4.identity p) _) s = _
    rw [(translate_scale_matrices _ p s).2.2, (translate_scale_matrices Mat4.identity p s).1]
    rfl
  · rw [mat4_cast_mul _ _
        (by rw [normSq_mul, (angleAxis_normSq _).2.1, (angleAxis_normSq _).1, one_mul])
        (angleAxis_normSq _).2.2,
      mat4_cast_mul _ _ (angleAxis_normSq _).2.1 (angleAxis_normSq _).1,
      (mat4_cast_angleAxis _).1, (mat4_cast_angleAxis _).2.1, (mat4_cast_angleAxis _).2.2]
  · simp [Model.getModelMatrix, Model.eulerQuat, glm.translate, glm.scale, glm.mat4_cast,
      glm.angleAxis, glm.radians, Quat.mul, Mat4.mul, Mat4.mulVec, Mat4.applyPoint,
      Mat4.identity, Vec4.add, Vec4.muls]
    refine ⟨?_, ?_, ?_⟩ <;> ring

end ModelMatrix

section ModelRotationMode

/-- C19. For every model state, whatever its mode flag and stored quaternion, and every
Euler vector `r`: after `setRotation(r)` the model is in Euler mode, its matrix is
`scale(translate(1, position) · mat4_cast(qYaw · qPitch · qRoll), scale)` with the three
quaternions computed from `r`, and the matrix is the same for every stored quaternion `rq`
and every earlier flag.  Conversely, in quaternion mode the matrix is computed from the stored
quaternion and is the same for every value `stale` of the Euler rotation field. -/
theorem setRotation_euler_mode {K : Type} [Field K] (M : Libm K) (m : Model K)
    (r stale : Vec3 K) (rq : Quat K) (flag : Bool) :
    (m.setRotation r).useQuaternion = false ∧
    Model.getModelMatrix M (m.setRotation r)
      = glm.scale (Mat4.mul (glm.translate Mat4.identity m.position)
          (glm.mat4_cast (Model.eulerQuat M r))) m.scale ∧
    Model.getModelMatrix M
        (Model.setRotation { m with rotationQuat := rq, useQuaternion := flag } r)
      = Model.getModelMatrix M (m.setRotation r) ∧
    Model.getModelMatrix M { m with useQuaternion := true }
      = glm.scale (Mat4.mul (glm.translate Mat4.identity m.position)
          (glm.mat4_cast m.rotationQuat)) m.scale ∧
    Model.getModelMatrix M { m with rotation := stale, useQuaternion := true }
      = Model.getModelMatrix M { m with useQuaternion := true } :=
  ⟨rfl, rfl, rfl, rfl, rfl⟩

/-- C18 fails on the code.  For every quaternion `q`, after `setRotation(r)` followed by
`setRotationFromQuaternion(q)` the flag `useQuaternion` is still false: the model is in
Euler mode, and its matrix is the Euler matrix of the angles
`degrees(eulerAngles(q))`, as after `setRotation(degrees(eulerAngles(q)))`.  For the half
turn about the X axis, `q = (w, x, y, z) = (0, 1, 0, 0)`, whose yaw and roll angles are
zero, the third column of the matrix is `(0, 0, 1, 0)`, that of a rotation about the Z
axis, while the third column of the rotation matrix of `q` is `(0, 0, −1, 0)`. -/
theorem setRotationFromQuaternion_keeps_euler_mode (eulerAngles : Quat ℝ → Vec3 ℝ)
    (m : Model ℝ) (r : Vec3 ℝ) (q : Quat ℝ) :
    (Model.setRotationFromQuaternion eulerAngles (m.setRotation r) q).useQuaternion = false ∧
    Model.getModelMatrix (Libm.mk Real.pi Real.cos Real.sin Real.sqrt)
        (Model.setRotationFromQuaternion eulerAngles (m.setRotation r) q)
      = Model.getModelMatrix (Libm.mk Real.pi Real.cos Real.sin Real.sqrt)
          (m.setRotation (glm.degrees (eulerAngles q))) ∧
    ((eulerAngles ⟨0, 1, 0, 0⟩).y = 0 → (eulerAngles ⟨0, 1, 0, 0⟩).z = 0 →
      (Model.getModelMatrix (Libm.mk Real.pi Real.cos Real.sin Real.sqrt)
        (Model.setRotationFromQuaternion eulerAngles
          (Model.setRotation ⟨[], ⟨0, 0, 0⟩, ⟨0, 0, 0⟩, ⟨1, 1, 1⟩, ⟨1, 0, 0, 0⟩, false⟩ r)
          ⟨0, 1, 0, 0⟩)).c2 = ⟨0, 0, 1, 0⟩ ∧
      (glm.mat4_cast (⟨0, 1, 0, 0⟩ : Quat ℝ)).c2 = ⟨0, 0, -1, 0⟩) := by
  refine ⟨rfl, rfl, ?_⟩
  intro hy hz
  constructor
  · simp [Model.getModelMatrix, Model.setRotationFromQuaternion, Model.setRotation,
      Model.eulerQuat, glm.degrees, Vec3.smul, hy, hz, glm.translate, glm.scale,
      glm.mat4_cast, glm.angleAxis, glm.radians, Quat.mul, Mat4.mul, Mat4.mulVec,
      Mat4.identity, Vec4.add, Vec4.muls]
  · simp [glm.mat4_cast]
    norm_num

/-- The theorem `setRotationFromQuaternion_keeps_euler_mode` with the Euler angles
`(π, 0, 0)` that belong to the half turn about the X axis. -/
theorem setRotationFromQuaternion_keeps_euler_mode_witness :
    (Model.getModelMatrix (Libm.mk Real.pi Real.cos Real.sin Real.sqrt)
      (Model.setRotationFromQuaternion (fun _ => ⟨Real.pi, 0, 0⟩)
        (Model.setRotation ⟨[], ⟨0, 0, 0⟩, ⟨0, 0, 0⟩, ⟨1, 1, 1⟩, ⟨1, 0, 0, 0⟩, false⟩
          ⟨0, 0, 0⟩)
        ⟨0, 1, 0, 0⟩)).c2 = ⟨0, 0, 1, 0⟩ ∧
    (glm.mat4_cast (⟨0, 1, 0, 0⟩ : Quat ℝ)).c2 = ⟨0, 0, -1, 0⟩ :=
  (setRotationFromQuaternion_keeps_euler_mode (fun _ => ⟨Real.pi, 0, 0⟩)
    ⟨[], ⟨0, 0, 0⟩, ⟨0, 0, 0⟩, ⟨1, 1, 1⟩, ⟨1, 0, 0, 0⟩, false⟩ ⟨0, 0, 0⟩ ⟨0, 1, 0, 0⟩).2.2
    rfl rfl

end ModelRotationMode

section InsertedLines

/-- Reading lines across a line end: the lines of `seg ++ "\n" ++ rest` are the lines read up
to that line end followed by the lines of `rest`. -/
theorem fileLinesFrom_append (seg rest : List Char) :
    ∀ cur : List Char, fileLinesFrom cur (seg ++ '\n' :: rest)
      = fileLinesFrom cur (seg ++ ['\n']) ++ fileLinesFrom [] rest := by
  induction seg with
  | nil =>
    intro cur
    simp [fileLinesFrom]
  | cons c seg ih =>
    intro cur
    by_cases hc : c = '\n'
    · simp only [List.cons_append, fileLinesFrom, hc, if_true, List.cons_append]
      exact congrArg (List.cons cur.reverse) (ih [])
    · simp only [List.cons_append, fileLinesFrom, hc, if_false]
      exact ih (c :: cur)

/-- A segment without a line end, followed by a line end, is read as one line. -/
theorem fileLinesFrom_line (line : List Char) (h : '\n' ∉ line) :
    ∀ cur : List Char, fileLinesFrom cur (line ++ ['\n']) = [cur.reverse ++ line] := by
  induction line with
  | nil =>
    intro cur
    simp [fileLinesFrom]
  | cons c line ih =>
    intro cur
    have hc : c ≠ '\n' := fun e => h (by simp [e])
    have hl : '\n' ∉ line := fun e => h (List.mem_cons_of_mem _ e)
    simp only [List.cons_append, fileLinesFrom, hc, if_false]
    exact (ih hl (c :: cur)).trans (by simp)

/-- The lines of a text into which a line is inserted at a line boundary: `before` is empty
or ends with a line end, and the inserted `line` holds no line end. -/
theorem fileLines_insert (before line after : List Char)
    (hb : before = [] ∨ ∃ b, before = b ++ ['\n']) (h : '\n' ∉ line) :
    fileLines (before ++ line ++ '\n' :: after)
      = fileLines before ++ [line] ++ fileLines after ∧
    fileLines (before ++ after) = fileLines before ++ fileLines after := by
  have hline : fileLines (line ++ '\n' :: after) = [line] ++ fileLines after := by
    unfold fileLines
    rw [fileLinesFrom_append, fileLinesFrom_line line h]
    simp
  rcases hb with rfl | ⟨b, rfl⟩
  · constructor
    · simpa [fileLines, fileLinesFrom] using hline
    · simp [fileLines, fileLinesFrom]
  · constructor
    · have e : b ++ ['\n'] ++ line ++ '\n' :: after = b ++ '\n' :: (line ++ '\n' :: after) := by
        simp
      rw [e]
      unfold fileLines at hline ⊢
      rw [fileLinesFrom_append, hline]
      simp
    · have e : b ++ ['\n'] ++ after = b ++ '\n' :: after := by simp
      rw [e]
      unfold fileLines
      rw [fileLinesFrom_append]

end InsertedLines

section IgnoredLines

variable {K : Type} [Zero K] [One K]

/-- A line whose first word is none of `v`, `vn`, `vt`, `f` leaves all five lists of
`loadModel` as they are. -/
theorem parseLine_ignored (P : FloatReader K) (st : LoadState K) (line : List Char)
    (hv : lineKeyword line ≠ ['v']) (hvn : lineKeyword line ≠ ['v', 'n'])
    (hvt : lineKeyword line ≠ ['v', 't']) (hf : lineKeyword line ≠ ['f']) :
    parseLine P st line = Except.ok st := by
  unfold parseLine
  unfold lineKeyword at hv hvn hvt hf
  simp only [hv, hvn, hvt, hf, if_false]
  rfl

/-- The loop over the lines skips an ignored line wherever it stands. -/
theorem parseLines_insert (P : FloatReader K) (st : LoadState K)
    (front back : List (List Char)) (line : List Char)
    (h : ∀ st : LoadState K, parseLine P st line = Except.ok st) :
    (front ++ [line] ++ back).foldlM (parseLine P) st
      = (front ++ back).foldlM (parseLine P) st := by
  rw [List.append_assoc, List.foldlM_append, List.foldlM_append]
  congr 1
  funext st1
  rw [List.singleton_append, List.foldlM_cons, h st1]
  rfl

/-- The result of `loadModel` is a function of the list of lines of the file. -/
theorem loadModel_congr_lines (P : FloatReader K) (gl : GLState) (c1 c2 : List Char)
    (h : ∀ st : LoadState K, (fileLines c1).foldlM (parseLine P) st
      = (fileLines c2).foldlM (parseLine P) st) :
    loadModel P (some c1) gl = loadModel P (some c2) gl := by
  unfold loadModel
  simp only [h]

/-- A segment without a line end that closes the file is read as one line, unless it is
empty. -/
theorem fileLinesFrom_last (line : List Char) (h : '\n' ∉ line) :
    ∀ cur : List Char, fileLinesFrom cur line
      = if (cur.reverse ++ line).isEmpty then [] else [cur.reverse ++ line] := by
  induction line with
  | nil =>
    intro cur
    cases cur <;> simp [fileLinesFrom]
  | cons c line ih =>
    intro cur
    have hc : c ≠ '\n' := fun e => h (by simp [e])
    have hl : '\n' ∉ line := fun e => h (List.mem_cons_of_mem _ e)
    simp only [fileLinesFrom, hc, if_false]
    rw [ih hl (c :: cur)]
    simp

/-- A line end added after the last line adds at most a blank line, which the loop over the
lines skips. -/
theorem parseLines_trailing_eol (P : FloatReader K) (text : List Char) :
    ∀ (cur : List Char) (st : LoadState K),
      (fileLinesFrom cur (text ++ ['\n'])).foldlM (parseLine P) st
        = (fileLinesFrom cur text).foldlM (parseLine P) st := by
  induction text with
  | nil =>
    intro cur st
    cases cur with
    | nil =>
      simp only [List.nil_append, fileLinesFrom, if_true, List.reverse_nil, List.isEmpty_nil,
        List.foldlM_cons, List.foldlM_nil]
      rw [parseLine_ignored P st [] (by decide) (by decide) (by decide) (by decide)]
      rfl
    | cons c cur => simp [fileLinesFrom]
  | cons c text ih =>
    intro cur st
    by_cases hc : c = '\n'
    · simp only [List.cons_append, fileLinesFrom, hc, if_true, List.foldlM_cons]
      congr 1
      funext st1
      exact ih [] st1
    · simp only [List.cons_append, fileLinesFrom, hc, if_false]
      exact ih (c :: cur) st

/-- C21. For every OBJ text, a line whose first word is none of `v`, `vn`, `vt`, `f`
(a comment, `o`, `s`, `usemtl`, a blank line) does not change the result of `loadModel`,
wherever it is inserted: at a line boundary (in front of the first line, between two lines,
after the last line end), or after a last line that has no line end.  The result is the same
meshes with the same vertices and indices, or the same exception. -/
theorem loadModel_insert_ignored_line (P : FloatReader K) (gl : GLState)
    (before line after : List Char) (hline : '\n' ∉ line)
    (hv : lineKeyword line ≠ ['v']) (hvn : lineKeyword line ≠ ['v', 'n'])
    (hvt : lineKeyword line ≠ ['v', 't']) (hf : lineKeyword line ≠ ['f']) :
    ((before = [] ∨ ∃ b, before = b ++ ['\n']) →
      loadModel P (some (before ++ line ++ '\n' :: after)) gl
        = loadModel P (some (before ++ after)) gl) ∧
    loadModel P (some (before ++ '\n' :: line)) gl = loadModel P (some before) gl := by
  have hskip : ∀ st : LoadState K, parseLine P st line = Except.ok st :=
    fun st1 => parseLine_ignored P st1 line hv hvn hvt hf
  constructor
  · intro hb
    apply loadModel_congr_lines
    intro st
    obtain ⟨h1, h2⟩ := fileLines_insert before line after hb hline
    rw [h1, h2]
    exact parseLines_insert P st _ _ line hskip
  · apply loadModel_congr_lines
    intro st
    unfold fileLines
    rw [fileLinesFrom_append, List.foldlM_append, parseLines_trailing_eol P before [] st,
      fileLinesFrom_last line hline []]
    have hrest : ∀ st1 : LoadState K,
        (if ([].reverse ++ line).isEmpty = true then [] else [[].reverse ++ line]).foldlM
          (parseLine P) st1 = Except.ok st1 := by
      intro st1
      by_cases he : ([].reverse ++ line).isEmpty = true
      · rw [if_pos he]; rfl
      · rw [if_neg he, List.foldlM_cons, List.reverse_nil, List.nil_append, hskip st1]
        rfl
    simp only [hrest]
    exact bind_pure _

/-- C21 on the one-triangle file: a comment line inserted after the first vertex line, a
blank line inserted in front, and a comment added after the last line leave the loaded mesh
as it is. -/
theorem loadModel_insert_ignored_line_witness :
    loadModel (FloatReader.mk (fun _ => (⟨0, 0, 0⟩ : Vec3 ℚ)) (fun _ => ⟨0, 0⟩))
        (some "v 0 0 0\n# a comment\nv 1 0 0\nv 0 1 0\nf 1 2 3".toList) ⟨1, 1, []⟩
      = loadModel (FloatReader.mk (fun _ => (⟨0, 0, 0⟩ : Vec3 ℚ)) (fun _ => ⟨0, 0⟩))
        (some triangleObj) ⟨1, 1, []⟩ ∧
    loadModel (FloatReader.mk (fun _ => (⟨0, 0, 0⟩ : Vec3 ℚ)) (fun _ => ⟨0, 0⟩))
        (some ('\n' :: triangleObj)) ⟨1, 1, []⟩
      = loadModel (FloatReader.mk (fun _ => (⟨0, 0, 0⟩ : Vec3 ℚ)) (fun _ => ⟨0, 0⟩))
        (some triangleObj) ⟨1, 1, []⟩ ∧
    loadModel (FloatReader.mk (fun _ => (⟨0, 0, 0⟩ : Vec3 ℚ)) (fun _ => ⟨0, 0⟩))
        (some (triangleObj ++ '\n' :: "usemtl steel".toList)) ⟨1, 1, []⟩
      = loadModel (FloatReader.mk (fun _ => (⟨0, 0, 0⟩ : Vec3 ℚ)) (fun _ => ⟨0, 0⟩))
        (some triangleObj) ⟨1, 1, []⟩ :=
  ⟨(loadModel_insert_ignored_line
      (FloatReader.mk (fun _ => (⟨0, 0, 0⟩ : Vec3 ℚ)) (fun _ => ⟨0, 0⟩)) ⟨1, 1, []⟩
      "v 0 0 0\n".toList "# a comment".toList "v 1 0 0\nv 0 1 0\nf 1 2 3".toList
      (by decide) (by decide) (by decide) (by decide) (by decide)).1
      (Or.inr ⟨"v 0 0 0".toList, by decide⟩),
    (loadModel_insert_ignored_line
      (FloatReader.mk (fun _ => (⟨0, 0, 0⟩ : Vec3 ℚ)) (fun _ => ⟨0, 0⟩)) ⟨1, 1, []⟩
      [] [] triangleObj (by decide) (by decide) (by decide) (by decide) (by decide)).1
      (Or.inl rfl),
    (loadModel_insert_ignored_line
      (FloatReader.mk (fun _ => (⟨0, 0, 0⟩ : Vec3 ℚ)) (fun _ => ⟨0, 0⟩)) ⟨1, 1, []⟩
      triangleObj "usemtl steel".toList [] (by decide) (by decide) (by decide) (by decide)
      (by decide)).2⟩

end IgnoredLines

section LightUniforms

/-- The last value written for a uniform after one more write. -/
theorem lastWrite_append {K : Type} (writes : List (UniformWrite K)) (w : UniformWrite K) (p : Nat)
    (name : List Char) :
    lastWrite (writes ++ [w]) p name
      = if w.program = p ∧ w.name = name then some w.value else lastWrite writes p name := by
  unfold lastWrite
  rw [List.reverse_append, List.reverse_singleton, List.singleton_append, List.find?_cons]
  by_cases h : w.program = p ∧ w.name = name
  · simp [h]
  · rw [if_neg h]
    have hd : decide (w.program = p ∧ w.name = name) = false := by simpa using h
    rw [hd]

variable {K : Type} [Field K]

/-- C22. For every light, program and index `i`, `updateShader(program, i)` leaves the light
as it is and extends the trace of uniform writes by exactly eight writes, all for the given
program: `lights[i].position` and `.color` with the light's position and colour,
`.ambient`, `.diffuse`, `.specular`, `.constant`, `.linear`, `.quadratic` with the light's
current values.  Afterwards the last value written for each of these eight uniforms is the
light's field, and the last value written for every other uniform of any program is what it
was.  The attenuation of a constructed light is `1.0`, `0.09`, `0.032`, and after
`setAttenuation(c, l, q)` it is `c`, `l`, `q`. -/
theorem updateShader_writes (l : Light K) (program : Nat) (i : Int)
    (writes : List (UniformWrite K)) (p : Nat) (name : List Char)
    (position color : Vec3 K) (ambient diffuse specular c1 c2 c3 : K) :
    (l.updateShader program i writes).1 = l ∧
    (l.updateShader program i writes).2 = writes ++
      [⟨program, "lights[".toList ++ to_string i ++ "].position".toList,
          UniformValue.vec3 l.position⟩,
       ⟨program, "lights[".toList ++ to_string i ++ "].color".toList,
          UniformValue.vec3 l.color⟩,
       ⟨program, "lights[".toList ++ to_string i ++ "].ambient".toList,
          UniformValue.float l.ambient⟩,
       ⟨program, "lights[".toList ++ to_string i ++ "].diffuse".toList,
          UniformValue.float l.diffuse⟩,
       ⟨program, "lights[".toList ++ to_string i ++ "].specular".toList,
          UniformValue.float l.specular⟩,
       ⟨program, "lights[".toList ++ to_string i ++ "].constant".toList,
          UniformValue.float l.constant⟩,
       ⟨program, "lights[".toList ++ to_string i ++ "].linear".toList,
          UniformValue.float l.linear⟩,
       ⟨program, "lights[".toList ++ to_string i ++ "].quadratic".toList,
          UniformValue.float l.quadratic⟩] ∧
    (lastWrite (l.updateShader program i writes).2 program
        ("lights[".toList ++ to_string i ++ "].position".toList)
        = some (UniformValue.vec3 l.position) ∧
      lastWrite (l.updateShader program i writes).2 program
        ("lights[".toList ++ to_string i ++ "].color".toList)
        = some (UniformValue.vec3 l.color) ∧
      lastWrite (l.updateShader program i writes).2 program
        ("lights[".toList ++ to_string i ++ "].ambient".toList)
        = some (UniformValue.float l.ambient) ∧
      lastWrite (l.updateShader program i writes).2 program
        ("lights[".toList ++ to_string i ++ "].diffuse".toList)
        = some (UniformValue.float l.diffuse) ∧
      lastWrite (l.updateShader program i writes).2 program
        ("lights[".toList ++ to_string i ++ "].specular".toList)
        = some (UniformValue.float l.specular) ∧
      lastWrite (l.updateShader program i writes).2 program
        ("lights[".toList ++ to_string i ++ "].constant".toList)
        = some (UniformValue.float l.constant) ∧
      lastWrite (l.updateShader program i writes).2 program
        ("lights[".toList ++ to_string i ++ "].linear".toList)
        = some (UniformValue.float l.linear) ∧
      lastWrite (l.updateShader program i writes).2 program
        ("lights[".toList ++ to_string i ++ "].quadratic".toList)
        = some (UniformValue.float l.quadratic)) ∧
    (¬ (p = program ∧ name ∈
        ["lights[".toList ++ to_string i ++ "].position".toList,
         "lights[".toList ++ to_string i ++ "].color".toList,
         "lights[".toList ++ to_string i ++ "].ambient".toList,
         "lights[".toList ++ to_string i ++ "].diffuse".toList,
         "lights[".toList ++ to_string i ++ "].specular".toList,
         "lights[".toList ++ to_string i ++ "].constant".toList,
         "lights[".toList ++ to_string i ++ "].linear".toList,
         "lights[".toList ++ to_string i ++ "].quadratic".toList]) →
      lastWrite (l.updateShader program i writes).2 p name = lastWrite writes p name) ∧
    ((Light.new position color ambient diffuse specular).constant = 1 ∧
      (Light.new position color ambient diffuse specular).linear = 9 / 100 ∧
      (Light.new position color ambient diffuse specular).quadratic = 32 / 1000 ∧
      (l.setAttenuation c1 c2 c3).constant = c1 ∧ (l.setAttenuation c1 c2 c3).linear = c2 ∧
      (l.setAttenuation c1 c2 c3).quadratic = c3) := by
  refine ⟨rfl, ?_, ?_, ?_, ⟨rfl, rfl, rfl, rfl, rfl, rfl⟩⟩
  · simp [Light.updateShader]
  · simp [lastWrite, Light.updateShader, List.find?_cons]
  · intro h
    simp only [Light.updateShader, lastWrite_append]
    simp only [List.mem_cons, List.mem_singleton, List.not_mem_nil, or_false, not_and,
      not_or] at h
    by_cases hp : p = program
    · obtain ⟨h1, h2, h3, h4, h5, h6, h7, h8⟩ := h hp
      rw [if_neg (fun e => h8 e.2.symm), if_neg (fun e => h7 e.2.symm),
        if_neg (fun e => h6 e.2.symm), if_neg (fun e => h5 e.2.symm),
        if_neg (fun e => h4 e.2.symm), if_neg (fun e => h3 e.2.symm),
        if_neg (fun e => h2 e.2.symm), if_neg (fun e => h1 e.2.symm)]
    · have hne : ¬ program = p := fun e => hp e.symm
      simp only [hne, false_and, if_false]

/-- C22 at the first light of `main`, index 0 and program 3, after writes for another
program: the `model` uniform of program 7 keeps its last value, and so does every uniform of
program 3 that is not one of the eight. -/
theorem updateShader_writes_witness :
    lastWrite ((Light.new (⟨0, 0, 3⟩ : Vec3 ℚ) ⟨1, 1, 1⟩ (1 / 10) (8 / 10) 1).updateShader 3 0
        [⟨7, "model".toList, UniformValue.float 5⟩]).2 7 "model".toList
      = some (UniformValue.float 5) ∧
    lastWrite ((Light.new (⟨0, 0, 3⟩ : Vec3 ℚ) ⟨1, 1, 1⟩ (1 / 10) (8 / 10) 1).updateShader 3 0
        [⟨7, "model".toList, UniformValue.float 5⟩]).2 3 "lights[1].color".toList
      = none :=
  ⟨(updateShader_writes (Light.new (⟨0, 0, 3⟩ : Vec3 ℚ) ⟨1, 1, 1⟩ (1 / 10) (8 / 10) 1) 3 0
      [⟨7, "model".toList, UniformValue.float 5⟩] 7 "model".toList ⟨0, 0, 0⟩ ⟨0, 0, 0⟩
      0 0 0 0 0 0).2.2.2.1 (by decide),
    (updateShader_writes (Light.new (⟨0, 0, 3⟩ : Vec3 ℚ) ⟨1, 1, 1⟩ (1 / 10) (8 / 10) 1) 3 0
      [⟨7, "model".toList, UniformValue.float 5⟩] 3 "lights[1].color".toList ⟨0, 0, 0⟩
      ⟨0, 0, 0⟩ 0 0 0 0 0 0).2.2.2.1 (by decide)⟩

end LightUniforms

section Cubemap

/-- The format chosen by the chain of tests on `nrChannels` is that of `faceUpload`. -/
theorem loadCubemapFace_some (stbi_load : List Char → Option Image) (st : TexState × Bool)
    (face : Nat × List Char) (image : Image) (h : stbi_load face.2 = some image) :
    loadCubemapFace stbi_load st face
      = ({ st.1 with calls := st.1.calls ++ [faceUpload face.1 image] }, true) := by
  unfold loadCubemapFace faceUpload
  rw [h]
  by_cases h1 : image.nrChannels = 1
  · simp [h1]
  · by_cases h3 : image.nrChannels = 3
    · simp [h3]
    · by_cases h4 : image.nrChannels = 4
      · simp [h4]
      · simp [h1, h3, h4]

/-- The loop over the faces appends the upload of every face that was decoded, in order, and
sets `loadedAny` when there is one. -/
theorem loadCubemap_loop (stbi_load : List Char → Option Image) (faces : List (List Char)) :
    ∀ (n : Nat) (st : TexState × Bool),
      (faces.enumFrom n).foldl (loadCubemapFace stbi_load) st
        = (⟨st.1.nextTexture, st.1.calls ++ (faces.enumFrom n).filterMap
              (fun face => (stbi_load face.2).map (faceUpload face.1))⟩,
            st.2 || faces.any (fun path => (stbi_load path).isSome)) := by
  induction faces with
  | nil =>
    intro n st
    simp
  | cons path faces ih =>
    intro n st
    rw [List.enumFrom_cons, List.foldl_cons, ih]
    cases h : stbi_load path with
    | none =>
      have hstep : loadCubemapFace stbi_load st (n, path) = st := by
        unfold loadCubemapFace
        simp only [h]
      rw [hstep]
      simp [h]
    | some image =>
      rw [loadCubemapFace_some stbi_load st (n, path) image h]
      simp [h]

/-- C23. Cube map loading, for every decoder result per path and every list of face paths
(the six paths of the skybox in particular): the calls of `loadCubemap` are the generation
and binding of the texture, then the uploads, then the five texture parameters.  When every
face fails to load, the uploads are the 1×1 magenta placeholder `(255, 0, 255)` on the six
faces `+X + 0 … +X + 5`; when at least one face loads, the uploads are exactly the decoded
images of the faces that loaded, face `i` on target `+X + i`, in order, with nothing for
a face that failed and no placeholder. -/
theorem loadCubemap_uploads (stbi_load : List Char → Option Image)
    (faces : List (List Char)) (gl : TexState) :
    (loadCubemap stbi_load faces gl).1 = gl.nextTexture ∧
    (loadCubemap stbi_load faces gl).2.calls
      = gl.calls ++ [TexCall.genTextures gl.nextTexture, TexCall.bindCubeMap gl.nextTexture]
        ++ (if faces.all (fun path => (stbi_load path).isNone) then
              (List.range 6).map placeholderUpload
            else faces.enum.filterMap
              (fun face => (stbi_load face.2).map (faceUpload face.1)))
        ++ [TexCall.texParameteri "GL_TEXTURE_MIN_FILTER" "GL_LINEAR",
            TexCall.texParameteri "GL_TEXTURE_MAG_FILTER" "GL_LINEAR",
            TexCall.texParameteri "GL_TEXTURE_WRAP_S" "GL_CLAMP_TO_EDGE",
            TexCall.texParameteri "GL_TEXTURE_WRAP_T" "GL_CLAMP_TO_EDGE",
            TexCall.texParameteri "GL_TEXTURE_WRAP_R" "GL_CLAMP_TO_EDGE"] := by
  refine ⟨rfl, ?_⟩
  unfold loadCubemap
  simp only [List.enum, loadCubemap_loop, Bool.false_or]
  by_cases hall : faces.all (fun path => (stbi_load path).isNone) = true
  · have hany : faces.any (fun path => (stbi_load path).isSome) = false := by
      rw [List.any_eq_false]
      intro path hp
      have := List.all_eq_true.mp hall path hp
      cases h : stbi_load path with
      | none => simp
      | some image => rw [h] at this; simp at this
    have hnone : (List.enumFrom 0 faces).filterMap
        (fun face => (stbi_load face.2).map (faceUpload face.1)) = [] := by
      rw [List.filterMap_eq_nil_iff]
      intro face hface
      have hmem : face.2 ∈ faces := List.snd_mem_of_mem_enumFrom hface
      have := List.all_eq_true.mp hall face.2 hmem
      cases h : stbi_load face.2 with
      | none => rfl
      | some image => rw [h] at this; simp at this
    rw [if_pos hall, hany, hnone]
    simp [List.range_succ, placeholderUpload]
  · have hany : faces.any (fun path => (stbi_load path).isSome) = true := by
      rw [List.any_eq_true]
      by_contra hno
      apply hall
      rw [List.all_eq_true]
      intro path hp
      cases h : stbi_load path with
      | none => rfl
      | some image => exact absurd ⟨path, hp, by rw [h]; rfl⟩ hno
    rw [if_neg hall, hany]
    simp

end Cubemap

section SphereIndices

/-- The inner index loop, started with `k1 = a` and `k2 = b` where no `unsigned int`
wraps: sector `j` pushes its triangles at `k1 = a + j`, `k2 = b + j`. -/
theorem indexInner_eq (i last : Nat) (n : Nat) :
    ∀ (acc : List Nat) (a b : Nat), a + n < 4294967296 → b + n < 4294967296 →
      (List.range n).foldl (fun (st : List Nat × Nat × Nat) (_ : Nat) =>
        let indices := st.1
        let k1 := st.2.1
        let k2 := st.2.2
        let indices := if i ≠ 0 then indices ++ [k1, k2, u32 (k1 + 1)] else indices
        let indices :=
          if i ≠ last then indices ++ [u32 (k1 + 1), k2, u32 (k2 + 1)]
          else indices
        (indices, u32 (k1 + 1), u32 (k2 + 1))) (acc, a, b)
      = (acc ++ (List.range n).flatMap (fun j =>
          (if i ≠ 0 then [a + j, b + j, a + j + 1] else []) ++
          (if i ≠ last then [a + j + 1, b + j, b + j + 1] else [])), a + n, b + n) := by
  induction n with
  | zero => intro acc a b _ _; simp
  | succ n ih =>
    intro acc a b ha hb
    rw [List.range_succ, List.foldl_append, ih acc a b (by omega) (by omega)]
    have e1 : u32 (a + n + 1) = a + n + 1 := by unfold u32; omega
    have e2 : u32 (b + n + 1) = b + n + 1 := by unfold u32; omega
    simp only [List.foldl_cons, List.foldl_nil, e1, e2, List.flatMap_append,
      List.flatMap_cons, List.flatMap_nil, List.append_nil]
    by_cases h0 : i = 0
    · subst h0
      by_cases hl : 0 = last <;> simp [hl, Nat.add_assoc]
    · by_cases hl : i = last
      · subst hl
        simp [h0, Nat.add_assoc]
      · simp [h0, hl, Nat.add_assoc]

/-- The index list of the generated sphere, when the vertex count fits `unsigned int`: ring
pair by ring pair and sector by sector, the entries of `Sphere.quadIndices`. -/
theorem generateVertices_indices {K : Type} [Field K] (M : Libm K) (s : Sphere K)
    (hst : 1 ≤ s.stackCount)
    (hbound : (s.stackCount + 1) * (s.sectorCount + 1) < 4294967296) :
    (Sphere.generateVertices M s).indices
      = (List.range s.stackCount).flatMap (fun i =>
          (List.range s.sectorCount).flatMap
            (Sphere.quadIndices s.sectorCount s.stackCount i)) := by
  have hS : s.sectorCount + 1 ≤ (s.stackCount + 1) * (s.sectorCount + 1) :=
    Nat.le_mul_of_pos_left _ (by omega)
  have hT : s.stackCount + 1 ≤ (s.stackCount + 1) * (s.sectorCount + 1) :=
    Nat.le_mul_of_pos_right _ (by omega)
  have hlast : u32 (s.stackCount + 4294967295) = s.stackCount - 1 := by
    unfold u32
    omega
  simp only [Sphere.generateVertices, hlast]
  have key : ∀ m, m ≤ s.stackCount →
      (List.range m).foldl (fun (indices : List Nat) (i : Nat) =>
        ((List.range s.sectorCount).foldl (fun (st : List Nat × Nat × Nat) (_ : Nat) =>
          (if i ≠ s.stackCount - 1 then
              (if i ≠ 0 then st.1 ++ [st.2.1, st.2.2, u32 (st.2.1 + 1)] else st.1)
                ++ [u32 (st.2.1 + 1), st.2.2, u32 (st.2.2 + 1)]
            else if i ≠ 0 then st.1 ++ [st.2.1, st.2.2, u32 (st.2.1 + 1)] else st.1,
            u32 (st.2.1 + 1), u32 (st.2.2 + 1)))
          (indices, u32 (i * u32 (s.sectorCount + 1)),
            u32 (u32 (u32 (i * u32 (s.sectorCount + 1)) + s.sectorCount) + 1))).1) []
      = (List.range m).flatMap (fun i =>
          (List.range s.sectorCount).flatMap
            (Sphere.quadIndices s.sectorCount s.stackCount i)) := by
    intro m
    induction m with
    | zero => intro _; simp
    | succ m ih =>
      intro hm
      rw [List.range_succ, List.foldl_append, ih (by omega), List.flatMap_append]
      simp only [List.foldl_cons, List.foldl_nil, List.flatMap_cons, List.flatMap_nil,
        List.append_nil]
      have hprod : (m + 2) * (s.sectorCount + 1) ≤ (s.stackCount + 1) * (s.sectorCount + 1) :=
        Nat.mul_le_mul_right _ (by omega)
      have hexp : (m + 2) * (s.sectorCount + 1)
          = m * (s.sectorCount + 1) + 2 * s.sectorCount + 2 := by ring
      have e0 : u32 (s.sectorCount + 1) = s.sectorCount + 1 := by unfold u32; omega
      have e1 : u32 (m * (s.sectorCount + 1)) = m * (s.sectorCount + 1) := by
        unfold u32; omega
      have e2 : u32 (m * (s.sectorCount + 1) + s.sectorCount)
          = m * (s.sectorCount + 1) + s.sectorCount := by unfold u32; omega
      have e3 : u32 (m * (s.sectorCount + 1) + s.sectorCount + 1)
          = m * (s.sectorCount + 1) + s.sectorCount + 1 := by unfold u32; omega
      rw [e0, e1, e2, e3]
      have hin := indexInner_eq m (s.stackCount - 1) s.sectorCount
        ((List.range m).flatMap (fun i =>
          (List.range s.sectorCount).flatMap
            (Sphere.quadIndices s.sectorCount s.stackCount i)))
        (m * (s.sectorCount + 1)) (m * (s.sectorCount + 1) + s.sectorCount + 1)
        (by omega) (by omega)
      simp only at hin
      rw [hin]
      have hfun : (fun j =>
          (if m ≠ 0 then
              [m * (s.sectorCount + 1) + j, m * (s.sectorCount + 1) + s.sectorCount + 1 + j,
                m * (s.sectorCount + 1) + j + 1]
            else []) ++
            if m ≠ s.stackCount - 1 then
              [m * (s.sectorCount + 1) + j + 1, m * (s.sectorCount + 1) + s.sectorCount + 1 + j,
                m * (s.sectorCount + 1) + s.sectorCount + 1 + j + 1]
            else [])
          = Sphere.quadIndices s.sectorCount s.stackCount m := by
        funext j
        have e : m * (s.sectorCount + 1) + s.sectorCount + 1 + j
            = m * (s.sectorCount + 1) + j + s.sectorCount + 1 := by omega
        simp only [Sphere.quadIndices, e]
      rw [hfun]
  exact key s.stackCount (Nat.le_refl _)



/-- Reading triangles from a list that starts with whole triangles: the triangles of the
front part come first. -/
theorem triangles_append (n : Nat) :
    ∀ (xs ys : List Nat), xs.length = 3 * n →
      triangles (xs ++ ys) = triangles xs ++ triangles ys := by
  induction n with
  | zero =>
    intro xs ys h
    have hx : xs = [] := List.length_eq_zero.mp (by omega)
    subst hx
    simp [triangles]
  | succ n ih =>
    intro xs ys h
    match xs, h with
    | a :: b :: c :: rest, h =>
      have hr : rest.length = 3 * n := by simp at h; omega
      simp only [List.cons_append, triangles]
      exact congrArg (List.cons (a, b, c)) (ih rest ys hr)
    | [], h => simp at h
    | [_], h => simp at h; omega
    | [_, _], h => simp at h; omega

/-- The triangles of a list built block by block, each block a whole number of triangles,
are the triangles of the blocks. -/
theorem mem_triangles_flatMap {α : Type} (f : α → List Nat)
    (hf : ∀ x, ∃ n, (f x).length = 3 * n) (t : Nat × Nat × Nat) :
    ∀ l : List α, (∃ n, (l.flatMap f).length = 3 * n) ∧
      (t ∈ triangles (l.flatMap f) ↔ ∃ x ∈ l, t ∈ triangles (f x)) := by
  intro l
  induction l with
  | nil => exact ⟨⟨0, rfl⟩, by simp [triangles]⟩
  | cons x l ih =>
    obtain ⟨n, hn⟩ := hf x
    obtain ⟨⟨m, hm⟩, hiff⟩ := ih
    refine ⟨⟨n + m, by simp [List.flatMap_cons, hn, hm]; ring⟩, ?_⟩
    rw [List.flatMap_cons, triangles_append n _ _ hn, List.mem_append, hiff]
    simp

/-- The ring of the vertex in ring `i` and sector column `r`. -/
theorem ringOf_eq (sectorCount i r : Nat) (h : r < sectorCount + 1) :
    Sphere.ringOf sectorCount (i * (sectorCount + 1) + r) = i := by
  unfold Sphere.ringOf
  rw [Nat.add_comm, Nat.add_mul_div_right _ _ (by omega), Nat.div_eq_of_lt h]
  simp

/-- The entries of a quad in each of the four cases of its two tests. -/
theorem quadIndices_cases (sectorCount stackCount i j : Nat) :
    (i = 0 → i = stackCount - 1 → Sphere.quadIndices sectorCount stackCount i j = []) ∧
    (i = 0 → i ≠ stackCount - 1 → Sphere.quadIndices sectorCount stackCount i j
      = [i * (sectorCount + 1) + j + 1, i * (sectorCount + 1) + j + sectorCount + 1,
          i * (sectorCount + 1) + j + sectorCount + 1 + 1]) ∧
    (i ≠ 0 → i = stackCount - 1 → Sphere.quadIndices sectorCount stackCount i j
      = [i * (sectorCount + 1) + j, i * (sectorCount + 1) + j + sectorCount + 1,
          i * (sectorCount + 1) + j + 1]) ∧
    (i ≠ 0 → i ≠ stackCount - 1 → Sphere.quadIndices sectorCount stackCount i j
      = [i * (sectorCount + 1) + j, i * (sectorCount + 1) + j + sectorCount + 1,
          i * (sectorCount + 1) + j + 1,
          i * (sectorCount + 1) + j + 1, i * (sectorCount + 1) + j + sectorCount + 1,
          i * (sectorCount + 1) + j + sectorCount + 1 + 1]) := by
  unfold Sphere.quadIndices
  refine ⟨?_, ?_, ?_, ?_⟩
  · intro h0 hl
    rw [if_neg (fun h => h h0), if_neg (fun h => h hl)]
    rfl
  · intro h0 hl
    rw [if_neg (fun h => h h0), if_pos hl]
    rfl
  · intro h0 hl
    rw [if_pos h0, if_neg (fun h => h hl)]
    rfl
  · intro h0 hl
    rw [if_pos h0, if_pos hl]
    rfl

/-- Every quad contributes a whole number of triangles. -/
theorem quadIndices_length (sectorCount stackCount i j : Nat) :
    ∃ n, (Sphere.quadIndices sectorCount stackCount i j).length = 3 * n := by
  obtain ⟨c1, c2, c3, c4⟩ := quadIndices_cases sectorCount stackCount i j
  by_cases h0 : i = 0 <;> by_cases hl : i = stackCount - 1
  · exact ⟨0, by rw [c1 h0 hl]; rfl⟩
  · exact ⟨1, by rw [c2 h0 hl]; rfl⟩
  · exact ⟨1, by rw [c3 h0 hl]; rfl⟩
  · exact ⟨2, by rw [c4 h0 hl]; rfl⟩

/-- The triangles of a quad have their vertices in rings `i` and `i + 1`; with at least two
stacks no triangle has two vertices in ring 0 or two in the last ring. -/
theorem quadIndices_rings (sectorCount stackCount i j : Nat) (hst : 2 ≤ stackCount)
    (hi : i < stackCount) (hj : j < sectorCount) (t : Nat × Nat × Nat)
    (ht : t ∈ triangles (Sphere.quadIndices sectorCount stackCount i j)) :
    ¬ Sphere.twoInRing sectorCount 0 t ∧ ¬ Sphere.twoInRing sectorCount stackCount t := by
  have r1 : Sphere.ringOf sectorCount (i * (sectorCount + 1) + j) = i :=
    ringOf_eq sectorCount i j (by omega)
  have r2 : Sphere.ringOf sectorCount (i * (sectorCount + 1) + j + 1) = i :=
    ringOf_eq sectorCount i (j + 1) (by omega)
  have r3 : Sphere.ringOf sectorCount (i * (sectorCount + 1) + j + sectorCount + 1) = i + 1 := by
    have e : i * (sectorCount + 1) + j + sectorCount + 1 = (i + 1) * (sectorCount + 1) + j := by
      ring
    rw [e]
    exact ringOf_eq sectorCount (i + 1) j (by omega)
  have r4 : Sphere.ringOf sectorCount (i * (sectorCount + 1) + j + sectorCount + 1 + 1)
      = i + 1 := by
    have e : i * (sectorCount + 1) + j + sectorCount + 1 + 1
        = (i + 1) * (sectorCount + 1) + (j + 1) := by ring
    rw [e]
    exact ringOf_eq sectorCount (i + 1) (j + 1) (by omega)
  obtain ⟨_, c2, c3, c4⟩ := quadIndices_cases sectorCount stackCount i j
  by_cases h0 : i = 0
  · have hl : i ≠ stackCount - 1 := by omega
    rw [c2 h0 hl] at ht
    simp only [triangles, List.mem_singleton] at ht
    rw [ht]
    simp only [Sphere.twoInRing, r2, r3, r4]
    omega
  · by_cases hl : i = stackCount - 1
    · rw [c3 h0 hl] at ht
      simp only [triangles, List.mem_singleton] at ht
      rw [ht]
      simp only [Sphere.twoInRing, r1, r2, r3]
      omega
    · rw [c4 h0 hl] at ht
      simp only [triangles, List.mem_cons, List.mem_singleton, List.not_mem_nil,
        or_false] at ht
      rcases ht with ht | ht
      · rw [ht]
        simp only [Sphere.twoInRing, r1, r2, r3]
        omega
      · rw [ht]
        simp only [Sphere.twoInRing, r2, r3, r4]
        omega

/-- C24. Pole handling in the index generation, for every stack count ≥ 2 and every sector
count (sectors ≥ 3 in particular) with `(stacks+1)·(sectors+1)` below `2^32`.  The index list
is the concatenation over the ring pairs `i` and the sectors `j` of the entries of the quad
`(i, j)`; with `k1 = i·(sectors+1) + j` and `k2 = k1 + sectors + 1`, a quad of the top ring
pair (`i = 0`) contributes only the triangle `(k1+1, k2, k2+1)`, a quad of the bottom ring
pair (`i = stacks − 1`) only the triangle `(k1, k2, k1+1)`, and every other quad both.  No
triangle read from the index list has two of its three vertices in ring 0 or two in ring
`stacks`. -/
theorem generateVertices_pole_triangles {K : Type} [Field K] (M : Libm K) (s : Sphere K)
    (hst : 2 ≤ s.stackCount)
    (hbound : (s.stackCount + 1) * (s.sectorCount + 1) < 4294967296) :
    (Sphere.generateVertices M s).indices
      = (List.range s.stackCount).flatMap (fun i =>
          (List.range s.sectorCount).flatMap
            (Sphere.quadIndices s.sectorCount s.stackCount i)) ∧
    (∀ j, Sphere.quadIndices s.sectorCount s.stackCount 0 j
      = [0 * (s.sectorCount + 1) + j + 1, 0 * (s.sectorCount + 1) + j + s.sectorCount + 1,
          0 * (s.sectorCount + 1) + j + s.sectorCount + 1 + 1]) ∧
    (∀ j, Sphere.quadIndices s.sectorCount s.stackCount (s.stackCount - 1) j
      = [(s.stackCount - 1) * (s.sectorCount + 1) + j,
          (s.stackCount - 1) * (s.sectorCount + 1) + j + s.sectorCount + 1,
          (s.stackCount - 1) * (s.sectorCount + 1) + j + 1]) ∧
    (∀ i j, 0 < i → i < s.stackCount - 1 →
      Sphere.quadIndices s.sectorCount s.stackCount i j
        = [i * (s.sectorCount + 1) + j, i * (s.sectorCount + 1) + j + s.sectorCount + 1,
            i * (s.sectorCount + 1) + j + 1,
            i * (s.sectorCount + 1) + j + 1, i * (s.sectorCount + 1) + j + s.sectorCount + 1,
            i * (s.sectorCount + 1) + j + s.sectorCount + 1 + 1]) ∧
    (∀ t ∈ triangles (Sphere.generateVertices M s).indices,
      ¬ Sphere.twoInRing s.sectorCount 0 t ∧
      ¬ Sphere.twoInRing s.sectorCount s.stackCount t) := by
  have hidx := generateVertices_indices M s (by omega) hbound
  refine ⟨hidx, ?_, ?_, ?_, ?_⟩
  · intro j
    exact (quadIndices_cases s.sectorCount s.stackCount 0 j).2.1 rfl (by omega)
  · intro j
    exact (quadIndices_cases s.sectorCount s.stackCount (s.stackCount - 1) j).2.2.1
      (by omega) rfl
  · intro i j h0 hl
    exact (quadIndices_cases s.sectorCount s.stackCount i j).2.2.2 (by omega) (by omega)
  · intro t ht
    rw [hidx] at ht
    have hinner : ∀ i, ∃ n, ((List.range s.sectorCount).flatMap
        (Sphere.quadIndices s.sectorCount s.stackCount i)).length = 3 * n := fun i =>
      (mem_triangles_flatMap (Sphere.quadIndices s.sectorCount s.stackCount i)
        (quadIndices_length s.sectorCount s.stackCount i) t (List.range s.sectorCount)).1
    obtain ⟨i, hi, ht⟩ := (mem_triangles_flatMap _ hinner t (List.range s.stackCount)).2.mp ht
    obtain ⟨j, hj, ht⟩ := (mem_triangles_flatMap _
      (quadIndices_length s.sectorCount s.stackCount i) t (List.range s.sectorCount)).2.mp ht
    rw [List.mem_range] at hi hj
    exact quadIndices_rings s.sectorCount s.stackCount i j hst hi hj t ht

/-- C24 at the sphere with three sectors and three stacks: the 36 index entries are the
three triangles of the top cap, the six of the middle band and the three of the bottom cap,
and its first triangle `(1, 4, 5)` has neither two vertices in ring 0 nor two in ring 3. -/
theorem generateVertices_pole_triangles_witness :
    (Sphere.generateVertices (Libm.mk 3 id id id)
        (Sphere.new (Libm.mk 3 id id id) (⟨0, 0, 0⟩ : Vec3 ℚ) 1 3 3)).indices
      = [1, 4, 5, 2, 5, 6, 3, 6, 7,
         4, 8, 5, 5, 8, 9, 5, 9, 6, 6, 9, 10, 6, 10, 7, 7, 10, 11,
         8, 12, 9, 9, 13, 10, 10, 14, 11] ∧
    ¬ Sphere.twoInRing 3 0 (1, 4, 5) ∧ ¬ Sphere.twoInRing 3 3 (1, 4, 5) :=
  ⟨(generateVertices_pole_triangles (Libm.mk 3 id id id)
      (Sphere.new (Libm.mk 3 id id id) (⟨0, 0, 0⟩ : Vec3 ℚ) 1 3 3) (by decide)
      (by decide)).1.trans (by decide),
    (generateVertices_pole_triangles (Libm.mk 3 id id id)
      (Sphere.new (Libm.mk 3 id id id) (⟨0, 0, 0⟩ : Vec3 ℚ) 1 3 3) (by decide)
      (by decide)).2.2.2.2 (1, 4, 5) (by decide)⟩

end SphereIndices

section SphereSeam

/-- Reading the list built by two nested counting loops: entry `i·b + j` is the one pushed
in pass `i` of the outer and pass `j` of the inner loop. -/
theorem getD_flatMap_range {α : Type} (f : Nat → Nat → α) (b : Nat) (d : α) :
    ∀ a i j, i < a → j < b →
      ((List.range a).flatMap (fun i => (List.range b).map (f i))).getD (i * b + j) d
        = f i j := by
  intro a
  induction a with
  | zero => intro i j hi; omega
  | succ a ih =>
    intro i j hi hj
    have hlen : ((List.range a).flatMap (fun i => (List.range b).map (f i))).length
        = a * b := by
      rw [length_flatMap_map]
      simp
    rw [List.range_succ, List.flatMap_append]
    by_cases hia : i < a
    · have hlt : i * b + j < a * b := by
        have h1 : (i + 1) * b ≤ a * b := Nat.mul_le_mul_right _ (by omega)
        have h2 : (i + 1) * b = i * b + b := by ring
        omega
      rw [List.getD_append _ _ _ _ (by rw [hlen]; exact hlt)]
      exact ih i j hia hj
    · have hi' : i = a := by omega
      subst hi'
      rw [List.getD_append_right _ _ _ _ (by rw [hlen]; omega), hlen]
      simp only [List.flatMap_cons, List.flatMap_nil, List.append_nil, Nat.add_sub_cancel_left]
      rw [List.getD_eq_getElem _ _ (by simpa using hj)]
      simp

/-- The attributes of the vertex in ring `i` and sector column `j` of the generated
sphere are the first six floats of its vertex record. -/
theorem generateVertices_vertex_at {K : Type} [Field K] (M : Libm K) (s : Sphere K)
    (i j : Nat) (hi : i ≤ s.stackCount) (hj : j ≤ s.sectorCount) :
    Sphere.vertexPosition (Sphere.generateVertices M s) (i * (s.sectorCount + 1) + j)
      = ⟨(Sphere.vertexRecord M s i j).getD 0 0, (Sphere.vertexRecord M s i j).getD 1 0,
          (Sphere.vertexRecord M s i j).getD 2 0⟩ ∧
    Sphere.vertexNormal (Sphere.generateVertices M s) (i * (s.sectorCount + 1) + j)
      = ⟨(Sphere.vertexRecord M s i j).getD 3 0, (Sphere.vertexRecord M s i j).getD 4 0,
          (Sphere.vertexRecord M s i j).getD 5 0⟩ := by
  simp only [Sphere.vertexNormal, Sphere.vertexPosition, generateVertices_vertices]
  set recs := (List.range (s.stackCount + 1)).flatMap (fun i =>
      (List.range (s.sectorCount + 1)).map (fun j => Sphere.vertexRecord M s i j))
    with hrecs
  have hlen : recs.length = (s.stackCount + 1) * (s.sectorCount + 1) := by
    rw [hrecs, length_flatMap_map]
    simp
  have h9 : ∀ r ∈ recs, r.length = 9 := by
    intro r hrm
    rw [hrecs, List.mem_flatMap] at hrm
    obtain ⟨i', _, hri⟩ := hrm
    rw [List.mem_map] at hri
    obtain ⟨j', _, hrj⟩ := hri
    rw [← hrj]
    rfl
  have hklt : i * (s.sectorCount + 1) + j < recs.length := by
    rw [hlen]
    have h1 : (i + 1) * (s.sectorCount + 1) ≤ (s.stackCount + 1) * (s.sectorCount + 1) :=
      Nat.mul_le_mul_right _ (by omega)
    have h2 : (i + 1) * (s.sectorCount + 1) = i * (s.sectorCount + 1) + s.sectorCount + 1 := by
      ring
    omega
  have hrec : recs.getD (i * (s.sectorCount + 1) + j) [] = Sphere.vertexRecord M s i j :=
    getD_flatMap_range (fun i j => Sphere.vertexRecord M s i j) (s.sectorCount + 1) []
      (s.stackCount + 1) i j (by omega) (by omega)
  have h0 := getD_flatten_records recs (0 : K) h9 _ 0 hklt (by omega)
  have h1 := getD_flatten_records recs (0 : K) h9 _ 1 hklt (by omega)
  have h2 := getD_flatten_records recs (0 : K) h9 _ 2 hklt (by omega)
  have h3 := getD_flatten_records recs (0 : K) h9 _ 3 hklt (by omega)
  have h4 := getD_flatten_records recs (0 : K) h9 _ 4 hklt (by omega)
  have h5 := getD_flatten_records recs (0 : K) h9 _ 5 hklt (by omega)
  simp only [Nat.add_zero] at h0
  rw [h0, h1, h2, h3, h4, h5, hrec]
  exact ⟨rfl, rfl⟩

/-- Over the reals, the vertex records of sector column 0 and of sector column `sectors` of a
ring are equal: the sector angles are 0 and 2π. -/
theorem vertexRecord_seam (s : Sphere ℝ) (hsec : 1 ≤ s.sectorCount) (i : Nat) :
    Sphere.vertexRecord (Libm.mk Real.pi Real.cos Real.sin Real.sqrt) s i 0
      = Sphere.vertexRecord (Libm.mk Real.pi Real.cos Real.sin Real.sqrt) s i
          s.sectorCount := by
  have hne : (s.sectorCount : ℝ) ≠ 0 := by
    have : (1 : ℝ) ≤ (s.sectorCount : ℝ) := by exact_mod_cast hsec
    linarith
  have h0 : ((0 : Nat) : ℝ) * (2 * Real.pi / (s.sectorCount : ℝ)) = 0 := by simp
  have hS : (s.sectorCount : ℝ) * (2 * Real.pi / (s.sectorCount : ℝ)) = 2 * Real.pi := by
    field_simp
  simp only [Sphere.vertexRecord, h0, hS, Real.cos_zero, Real.sin_zero, Real.cos_two_pi,
    Real.sin_two_pi]

/-- Length of the generated vertex buffer: nine floats for each of the
`(stacks+1)·(sectors+1)` vertices. -/
theorem generateVertices_vertices_length {K : Type} [Field K] (M : Libm K) (s : Sphere K) :
    (Sphere.generateVertices M s).vertices.length
      = 9 * ((s.stackCount + 1) * (s.sectorCount + 1)) := by
  simp only [Sphere.generateVertices]
  rw [foldl_length_add _ (9 * (s.sectorCount + 1))]
  · simp only [List.length_range, List.length_nil]
    ring
  · intro acc i
    rw [foldl_length_add _ 9]
    · simp [List.length_range]
    · intro acc j
      simp

/-- An entry inside a list is the value that the defaulted read returns. -/
theorem getElem?_eq_some_getD {α : Type} (l : List α) (n : Nat) (d : α) (h : n < l.length) :
    l[n]? = some (l.getD n d) := by
  rw [List.getD_eq_getElem?_getD, List.getElem?_eq_getElem h]
  rfl

/-- C25. Seam columns of the generated sphere, over the reals, for every sphere with at
least one sector and every ring `i` in `0..stacks`: the vertex of sector column 0 and the
vertex of sector column `sectors` are two distinct entries of the vertex buffer, with indices
`i·(sectors+1)` and `i·(sectors+1) + sectors` whose nine-float records lie inside the buffer
that generation produced; each of the three position floats and the three normal floats is
present in the buffer at both entries with the same value, so the two entries have the same
position and the same normal. -/
theorem generateVertices_seam (s : Sphere ℝ) (hsec : 1 ≤ s.sectorCount) (i : Nat)
    (hi : i ≤ s.stackCount) :
    i * (s.sectorCount + 1) ≠ i * (s.sectorCount + 1) + s.sectorCount ∧
    i * (s.sectorCount + 1) + s.sectorCount < (s.stackCount + 1) * (s.sectorCount + 1) ∧
    9 * (i * (s.sectorCount + 1)) + 9
      ≤ (Sphere.generateVertices (Libm.mk Real.pi Real.cos Real.sin Real.sqrt) s).vertices.length ∧
    9 * (i * (s.sectorCount + 1) + s.sectorCount) + 9
      ≤ (Sphere.generateVertices (Libm.mk Real.pi Real.cos Real.sin Real.sqrt) s).vertices.length ∧
    (∀ m, m < 6 → ∃ v : ℝ,
      (Sphere.generateVertices (Libm.mk Real.pi Real.cos Real.sin Real.sqrt) s).vertices[
          9 * (i * (s.sectorCount + 1)) + m]? = some v ∧
      (Sphere.generateVertices (Libm.mk Real.pi Real.cos Real.sin Real.sqrt) s).vertices[
          9 * (i * (s.sectorCount + 1) + s.sectorCount) + m]? = some v) ∧
    Sphere.vertexPosition
        (Sphere.generateVertices (Libm.mk Real.pi Real.cos Real.sin Real.sqrt) s)
        (i * (s.sectorCount + 1))
      = Sphere.vertexPosition
        (Sphere.generateVertices (Libm.mk Real.pi Real.cos Real.sin Real.sqrt) s)
        (i * (s.sectorCount + 1) + s.sectorCount) ∧
    Sphere.vertexNormal
        (Sphere.generateVertices (Libm.mk Real.pi Real.cos Real.sin Real.sqrt) s)
        (i * (s.sectorCount + 1))
      = Sphere.vertexNormal
        (Sphere.generateVertices (Libm.mk Real.pi Real.cos Real.sin Real.sqrt) s)
        (i * (s.sectorCount + 1) + s.sectorCount) := by
  have hlt : i * (s.sectorCount + 1) + s.sectorCount
      < (s.stackCount + 1) * (s.sectorCount + 1) := by
    have h1 : (i + 1) * (s.sectorCount + 1) ≤ (s.stackCount + 1) * (s.sectorCount + 1) :=
      Nat.mul_le_mul_right _ (by omega)
    have h2 : (i + 1) * (s.sectorCount + 1) = i * (s.sectorCount + 1) + s.sectorCount + 1 := by
      ring
    omega
  have hlen := generateVertices_vertices_length
    (Libm.mk Real.pi Real.cos Real.sin Real.sqrt) s
  obtain ⟨p0, n0⟩ := generateVertices_vertex_at
    (Libm.mk Real.pi Real.cos Real.sin Real.sqrt) s i 0 hi (by omega)
  obtain ⟨pS, nS⟩ := generateVertices_vertex_at
    (Libm.mk Real.pi Real.cos Real.sin Real.sqrt) s i s.sectorCount hi (Nat.le_refl _)
  rw [Nat.add_zero] at p0 n0
  have hpos : Sphere.vertexPosition
        (Sphere.generateVertices (Libm.mk Real.pi Real.cos Real.sin Real.sqrt) s)
        (i * (s.sectorCount + 1))
      = Sphere.vertexPosition
        (Sphere.generateVertices (Libm.mk Real.pi Real.cos Real.sin Real.sqrt) s)
        (i * (s.sectorCount + 1) + s.sectorCount) := by
    rw [p0, pS, vertexRecord_seam s hsec i]
  have hnor : Sphere.vertexNormal
        (Sphere.generateVertices (Libm.mk Real.pi Real.cos Real.sin Real.sqrt) s)
        (i * (s.sectorCount + 1))
      = Sphere.vertexNormal
        (Sphere.generateVertices (Libm.mk Real.pi Real.cos Real.sin Real.sqrt) s)
        (i * (s.sectorCount + 1) + s.sectorCount) := by
    rw [n0, nS, vertexRecord_seam s hsec i]
  refine ⟨by omega, hlt, by omega, by omega, ?_, hpos, hnor⟩
  intro m hm
  refine ⟨(Sphere.generateVertices (Libm.mk Real.pi Real.cos Real.sin Real.sqrt)
    s).vertices.getD (9 * (i * (s.sectorCount + 1)) + m) 0,
    getElem?_eq_some_getD _ _ 0 (by omega), ?_⟩
  rw [getElem?_eq_some_getD _ _ 0 (by omega)]
  have hx := congrArg Vec3.x hpos
  have hy := congrArg Vec3.y hpos
  have hz := congrArg Vec3.z hpos
  have hnx := congrArg Vec3.x hnor
  have hny := congrArg Vec3.y hnor
  have hnz := congrArg Vec3.z hnor
  simp only [Sphere.vertexPosition, Sphere.vertexNormal] at hx hy hz hnx hny hnz
  interval_cases m
  · exact congrArg some hx.symm
  · exact congrArg some hy.symm
  · exact congrArg some hz.symm
  · exact congrArg some hnx.symm
  · exact congrArg some hny.symm
  · exact congrArg some hnz.symm

/-- C25 at the sphere of radius 2 at `(1,2,3)` with three sectors and two stacks, ring 1:
the records of the vertices 4 and 7 lie inside the generated buffer, which holds their
position and normal floats with equal values at both, and the two vertices share their
position and their normal. -/
theorem generateVertices_seam_witness :
    9 * 7 + 9
      ≤ (Sphere.generateVertices (Libm.mk Real.pi Real.cos Real.sin Real.sqrt)
          (Sphere.new (Libm.mk Real.pi Real.cos Real.sin Real.sqrt)
            ⟨1, 2, 3⟩ 2 3 2)).vertices.length ∧
    (∃ v : ℝ,
      (Sphere.generateVertices (Libm.mk Real.pi Real.cos Real.sin Real.sqrt)
          (Sphere.new (Libm.mk Real.pi Real.cos Real.sin Real.sqrt)
            ⟨1, 2, 3⟩ 2 3 2)).vertices[9 * 4 + 5]? = some v ∧
      (Sphere.generateVertices (Libm.mk Real.pi Real.cos Real.sin Real.sqrt)
          (Sphere.new (Libm.mk Real.pi Real.cos Real.sin Real.sqrt)
            ⟨1, 2, 3⟩ 2 3 2)).vertices[9 * 7 + 5]? = some v) ∧
    Sphere.vertexPosition
        (Sphere.generateVertices (Libm.mk Real.pi Real.cos Real.sin Real.sqrt)
          (Sphere.new (Libm.mk Real.pi Real.cos Real.sin Real.sqrt) ⟨1, 2, 3⟩ 2 3 2)) 4
      = Sphere.vertexPosition
        (Sphere.generateVertices (Libm.mk Real.pi Real.cos Real.sin Real.sqrt)
          (Sphere.new (Libm.mk Real.pi Real.cos Real.sin Real.sqrt) ⟨1, 2, 3⟩ 2 3 2)) 7 ∧
    Sphere.vertexNormal
        (Sphere.generateVertices (Libm.mk Real.pi Real.cos Real.sin Real.sqrt)
          (Sphere.new (Libm.mk Real.pi Real.cos Real.sin Real.sqrt) ⟨1, 2, 3⟩ 2 3 2)) 4
      = Sphere.vertexNormal
        (Sphere.generateVertices (Libm.mk Real.pi Real.cos Real.sin Real.sqrt)
          (Sphere.new (Libm.mk Real.pi Real.cos Real.sin Real.sqrt) ⟨1, 2, 3⟩ 2 3 2)) 7 :=
  ⟨(generateVertices_seam
      (Sphere.new (Libm.mk Real.pi Real.cos Real.sin Real.sqrt) ⟨1, 2, 3⟩ 2 3 2)
      (by show 1 ≤ 3; decide) 1 (by show 1 ≤ 2; decide)).2.2.2.1,
    (generateVertices_seam
      (Sphere.new (Libm.mk Real.pi Real.cos Real.sin Real.sqrt) ⟨1, 2, 3⟩ 2 3 2)
      (by show 1 ≤ 3; decide) 1 (by show 1 ≤ 2; decide)).2.2.2.2.1 5 (by decide),
    (generateVertices_seam
      (Sphere.new (Libm.mk Real.pi Real.cos Real.sin Real.sqrt) ⟨1, 2, 3⟩ 2 3 2)
      (by show 1 ≤ 3; decide) 1 (by show 1 ≤ 2; decide)).2.2.2.2.2⟩

end SphereSeam

section FaceWords

/-- Extraction of a word that is followed by white space: the white space in front is
skipped, the word is read, and the stream stands at the white space after it. -/
theorem readWord_word (sep w tail str : List Char) (c : Char)
    (hsep : ∀ x ∈ sep, isSpace x = true) (hw : w ≠ [])
    (hword : ∀ x ∈ w, isSpace x = false) (hc : isSpace c = true) :
    IStream.readWord ⟨sep ++ (w ++ c :: tail), false, false⟩ str
      = (⟨c :: tail, false, false⟩, w) := by
  obtain ⟨a, w', rfl⟩ := List.exists_cons_of_ne_nil hw
  have ha : isSpace a = false := hword a (List.mem_cons_self _ _)
  have hdrop : (sep ++ (a :: w' ++ c :: tail)).dropWhile isSpace = a :: (w' ++ c :: tail) := by
    rw [List.dropWhile_append_of_pos hsep]
    simp [List.dropWhile_cons, ha]
  have hnot : ∀ x ∈ a :: w', (fun ch => !isSpace ch) x = true := by
    intro x hx
    simp [hword x hx]
  have htail : (a :: (w' ++ c :: tail)).dropWhile (fun ch => !isSpace ch) = c :: tail := by
    rw [← List.cons_append, List.dropWhile_append_of_pos hnot]
    simp [List.dropWhile_cons, hc]
  have htake : (a :: (w' ++ c :: tail)).takeWhile (fun ch => !isSpace ch) = a :: w' := by
    rw [← List.cons_append, List.takeWhile_append_of_pos hnot]
    simp [List.takeWhile_cons, hc]
  unfold IStream.readWord IStream.good
  simp only [Bool.not_false, Bool.and_self, Bool.not_true, Bool.false_eq_true, if_false, hdrop]
  rw [htail, htake]
  rfl

/-- Extraction of the last word of a stream: the word is read and the end of the stream is
reached. -/
theorem readWord_last (sep w str : List Char)
    (hsep : ∀ x ∈ sep, isSpace x = true) (hw : w ≠ [])
    (hword : ∀ x ∈ w, isSpace x = false) :
    IStream.readWord ⟨sep ++ w, false, false⟩ str = (⟨[], true, false⟩, w) := by
  obtain ⟨a, w', rfl⟩ := List.exists_cons_of_ne_nil hw
  have ha : isSpace a = false := hword a (List.mem_cons_self _ _)
  have hdrop : (sep ++ a :: w').dropWhile isSpace = a :: w' := by
    rw [List.dropWhile_append_of_pos hsep]
    simp [List.dropWhile_cons, ha]
  have hnot : ∀ x ∈ a :: w', (fun ch => !isSpace ch) x = true := by
    intro x hx
    simp [hword x hx]
  have htail : (a :: w').dropWhile (fun ch => !isSpace ch) = [] := by
    rw [List.dropWhile_eq_nil_iff]
    exact hnot
  have htake : (a :: w').takeWhile (fun ch => !isSpace ch) = a :: w' := by
    rw [List.takeWhile_eq_self_iff]
    exact hnot
  unfold IStream.readWord IStream.good
  simp only [Bool.not_false, Bool.and_self, Bool.not_true, Bool.false_eq_true, if_false, hdrop]
  rw [htail, htake]
  rfl

/-- The words that `loadModel` reads from a face line with the groups `g1`, `g2`, `g3`
separated by blanks, whether the line ends after `g3` or goes on after a blank. -/
theorem faceWords_groups (g1 g2 g3 rest : List Char)
    (h1 : g1 ≠ []) (h2 : g2 ≠ []) (h3 : g3 ≠ [])
    (n1 : ∀ x ∈ g1, isSpace x = false) (n2 : ∀ x ∈ g2, isSpace x = false)
    (n3 : ∀ x ∈ g3, isSpace x = false) :
    (lineKeyword ('f' :: ' ' :: (g1 ++ ' ' :: (g2 ++ ' ' :: (g3 ++ ' ' :: rest)))) = ['f'] ∧
      faceWords ('f' :: ' ' :: (g1 ++ ' ' :: (g2 ++ ' ' :: (g3 ++ ' ' :: rest))))
        = [g1, g2, g3]) ∧
    (lineKeyword ('f' :: ' ' :: (g1 ++ ' ' :: (g2 ++ ' ' :: g3))) = ['f'] ∧
      faceWords ('f' :: ' ' :: (g1 ++ ' ' :: (g2 ++ ' ' :: g3))) = [g1, g2, g3]) := by
  have hsp : ∀ x ∈ [' '], isSpace x = true := by
    intro x hx
    rw [List.mem_singleton] at hx
    subst hx
    rfl
  have hf : ∀ x ∈ ['f'], isSpace x = false := by
    intro x hx
    rw [List.mem_singleton] at hx
    subst hx
    rfl
  have k : ∀ X : List Char, IStream.readWord ⟨'f' :: ' ' :: X, false, false⟩ []
      = (⟨' ' :: X, false, false⟩, ['f']) := fun X =>
    readWord_word [] ['f'] X [] ' ' (by simp) (by simp) hf rfl
  have w1 : ∀ X : List Char, IStream.readWord ⟨' ' :: (g1 ++ ' ' :: X), false, false⟩ []
      = (⟨' ' :: X, false, false⟩, g1) := fun X =>
    readWord_word [' '] g1 X [] ' ' hsp h1 n1 rfl
  have w2 : ∀ X : List Char, IStream.readWord ⟨' ' :: (g2 ++ ' ' :: X), false, false⟩ []
      = (⟨' ' :: X, false, false⟩, g2) := fun X =>
    readWord_word [' '] g2 X [] ' ' hsp h2 n2 rfl
  have w3 : ∀ X : List Char, IStream.readWord ⟨' ' :: (g3 ++ ' ' :: X), false, false⟩ []
      = (⟨' ' :: X, false, false⟩, g3) := fun X =>
    readWord_word [' '] g3 X [] ' ' hsp h3 n3 rfl
  have w3' : IStream.readWord ⟨' ' :: g3, false, false⟩ [] = (⟨[], true, false⟩, g3) :=
    readWord_last [' '] g3 [] hsp h3 n3
  refine ⟨⟨?_, ?_⟩, ?_, ?_⟩
  · simp only [lineKeyword, IStream.ofChars, k]
  · simp only [faceWords, IStream.ofChars, k, w1, w2, w3]
  · simp only [lineKeyword, IStream.ofChars, k]
  · simp only [faceWords, IStream.ofChars, k, w1, w2, w3']

end FaceWords

section Polygons

variable {K : Type} [Zero K] [One K]

/-- C26. For every face line `f g1 g2 g3 …` with more than three vertex groups (an n-gon
such as `f 1 2 3 4`), where the groups are words separated by blanks and anything may follow
the blank after the third group, `loadModel` reads only `g1`, `g2`, `g3`: in every state the
line has the effect of the line `f g1 g2 g3` truncated to its first three groups (the same
lists, or the same exception), and when the three groups are vertex groups with numeric
indices it contributes exactly three vertices and three indices. -/
theorem parseLine_ngon (P : FloatReader K) (st : LoadState K) (g1 g2 g3 rest : List Char)
    (h1 : g1 ≠ []) (h2 : g2 ≠ []) (h3 : g3 ≠ [])
    (n1 : ∀ x ∈ g1, isSpace x = false) (n2 : ∀ x ∈ g2, isSpace x = false)
    (n3 : ∀ x ∈ g3, isSpace x = false) :
    parseLine P st ('f' :: ' ' :: (g1 ++ ' ' :: (g2 ++ ' ' :: (g3 ++ ' ' :: rest))))
      = parseLine P st ('f' :: ' ' :: (g1 ++ ' ' :: (g2 ++ ' ' :: g3))) ∧
    (IsFaceGroup g1 → IsFaceGroup g2 → IsFaceGroup g3 →
      ∃ st', parseLine P st ('f' :: ' ' :: (g1 ++ ' ' :: (g2 ++ ' ' :: (g3 ++ ' ' :: rest))))
          = Except.ok st' ∧
        st'.finalVertices.length = st.finalVertices.length + 3 ∧
        st'.indices = st.indices ++ [u32 st.finalVertices.length,
          u32 (st.finalVertices.length + 1), u32 (st.finalVertices.length + 2)]) := by
  obtain ⟨⟨k1, f1⟩, k2, f2⟩ := faceWords_groups g1 g2 g3 rest h1 h2 h3 n1 n2 n3
  constructor
  · rw [parseLine_face P st _ k1, parseLine_face P st _ k2, f1, f2]
  · intro i1 i2 i3
    apply parseLine_face_ok P st _ k1
    rw [f1]
    intro g hg
    simp only [List.mem_cons, List.mem_singleton, List.not_mem_nil, or_false] at hg
    rcases hg with rfl | rfl | rfl
    · exact i1
    · exact i2
    · exact i3

/-- C26 on the quad line `f 1 2 3 4` after three vertex lines: it has the effect of
`f 1 2 3`. -/
theorem parseLine_ngon_witness :
    parseLine (FloatReader.mk (fun _ => (⟨0, 0, 0⟩ : Vec3 ℚ)) (fun _ => ⟨0, 0⟩))
        ⟨[⟨0, 0, 0⟩, ⟨1, 0, 0⟩, ⟨0, 1, 0⟩], [], [], [], []⟩ "f 1 2 3 4".toList
      = parseLine (FloatReader.mk (fun _ => (⟨0, 0, 0⟩ : Vec3 ℚ)) (fun _ => ⟨0, 0⟩))
        ⟨[⟨0, 0, 0⟩, ⟨1, 0, 0⟩, ⟨0, 1, 0⟩], [], [], [], []⟩ "f 1 2 3".toList :=
  (parseLine_ngon (FloatReader.mk (fun _ => (⟨0, 0, 0⟩ : Vec3 ℚ)) (fun _ => ⟨0, 0⟩))
    ⟨[⟨0, 0, 0⟩, ⟨1, 0, 0⟩, ⟨0, 1, 0⟩], [], [], [], []⟩ ['1'] ['2'] ['3'] ['4']
    (by decide) (by decide) (by decide) (by decide) (by decide) (by decide)).1

end Polygons

section SphereDrawing

/-- The vertex shader with the model matrix of `render` adds the sphere's position to the
vertex attribute. -/
theorem FragPos_modelMatrix {K : Type} [Field K] (s : Sphere K) (aPos : Vec3 K) :
    sphereVertexShader_FragPos s.modelMatrix aPos = Vec3.add aPos s.position := by
  simp [sphereVertexShader_FragPos, Sphere.modelMatrix, glm.translate, Mat4.identity,
    Mat4.mulVec, Vec4.add, Vec4.muls, Vec4.xyz, Vec3.add]

/-- Every vertex index below the vertex count is `i·(sectors+1) + j` for a ring `i` and a
sector column `j`. -/
theorem vertex_index_split (sectorCount stackCount k : Nat)
    (hk : k < (stackCount + 1) * (sectorCount + 1)) :
    ∃ i j, i ≤ stackCount ∧ j ≤ sectorCount ∧ k = i * (sectorCount + 1) + j := by
  refine ⟨k / (sectorCount + 1), k % (sectorCount + 1), ?_, ?_, ?_⟩
  · have hpos : 0 < sectorCount + 1 := by omega
    have := (Nat.div_lt_iff_lt_mul hpos).mpr hk
    omega
  · have hpos : 0 < sectorCount + 1 := by omega
    have := Nat.mod_lt k hpos
    omega
  · rw [Nat.mul_comm]
    exact (Nat.div_add_mod k (sectorCount + 1)).symm

/-- C27 fails on the code.  Over the reals, for every sphere with positive radius and every
generated vertex `k`, the vertex shader with the model matrix of `render` moves the vertex
attribute, which already contains the sphere's position, by the position once more: the
drawn point lies at distance `radius` from `2 · getPosition()`, not from `getPosition()`.
For the test sphere of `main` (centre `(0,0,−2)`, radius `1/2`) vertex 0 is drawn at
`(0, 0, −7/2)`, at distance `3/2` from the centre `(0,0,−2)` that the hit test uses. -/
theorem render_draws_at_twice_position (s : Sphere ℝ) (hr : 0 < s.radius) (k : Nat)
    (hk : k < (s.stackCount + 1) * (s.sectorCount + 1)) :
    (sphereVertexShader_FragPos
        (Sphere.generateVertices (Libm.mk Real.pi Real.cos Real.sin Real.sqrt) s).modelMatrix
        (Sphere.vertexPosition
          (Sphere.generateVertices (Libm.mk Real.pi Real.cos Real.sin Real.sqrt) s) k)
      = Vec3.add
          (Sphere.vertexPosition
            (Sphere.generateVertices (Libm.mk Real.pi Real.cos Real.sin Real.sqrt) s) k)
          (Sphere.getPosition
            (Sphere.generateVertices (Libm.mk Real.pi Real.cos Real.sin Real.sqrt) s)) ∧
      Vec3.length (Libm.mk Real.pi Real.cos Real.sin Real.sqrt)
        (Vec3.sub
          (sphereVertexShader_FragPos
            (Sphere.generateVertices (Libm.mk Real.pi Real.cos Real.sin Real.sqrt)
              s).modelMatrix
            (Sphere.vertexPosition
              (Sphere.generateVertices (Libm.mk Real.pi Real.cos Real.sin Real.sqrt) s) k))
          (Vec3.smul 2 (Sphere.getPosition
            (Sphere.generateVertices (Libm.mk Real.pi Real.cos Real.sin Real.sqrt) s))))
        = s.radius) ∧
    (sphereVertexShader_FragPos
        (Sphere.new (Libm.mk Real.pi Real.cos Real.sin Real.sqrt) ⟨0, 0, -2⟩ (1 / 2) 36
          18).modelMatrix
        (Sphere.vertexPosition
          (Sphere.new (Libm.mk Real.pi Real.cos Real.sin Real.sqrt) ⟨0, 0, -2⟩ (1 / 2) 36 18) 0)
      = ⟨0, 0, -7 / 2⟩ ∧
      Vec3.length (Libm.mk Real.pi Real.cos Real.sin Real.sqrt)
        (Vec3.sub (⟨0, 0, -7 / 2⟩ : Vec3 ℝ)
          (Sphere.getPosition
            (Sphere.new (Libm.mk Real.pi Real.cos Real.sin Real.sqrt) ⟨0, 0, -2⟩ (1 / 2) 36
              18))) = 3 / 2) := by
  refine ⟨⟨FragPos_modelMatrix _ _, ?_⟩, ?_, ?_⟩
  · obtain ⟨i, j, hi, hj, rfl⟩ := vertex_index_split s.sectorCount s.stackCount k hk
    rw [FragPos_modelMatrix]
    have hpos : (Sphere.generateVertices (Libm.mk Real.pi Real.cos Real.sin Real.sqrt)
        s).position = s.position := rfl
    have hget : Sphere.getPosition
        (Sphere.generateVertices (Libm.mk Real.pi Real.cos Real.sin Real.sqrt) s)
        = s.position := rfl
    rw [hpos, hget,
      (generateVertices_vertex_at (Libm.mk Real.pi Real.cos Real.sin Real.sqrt) s i j hi hj).1]
    have h := (vertexRecord_unit_normal_on_sphere s hr i j).2
    rw [← h]
    simp only [Vec3.length, Vec3.sub, Vec3.add, Vec3.smul, Vec3.dot]
    congr 1
    ring
  · rw [FragPos_modelMatrix]
    have hv := (generateVertices_vertex_at (Libm.mk Real.pi Real.cos Real.sin Real.sqrt)
      (⟨⟨0, 0, -2⟩, 1 / 2, 36, 18, Vec3.splat 1, 0, 0, 0, [], [], false⟩ : Sphere ℝ) 0 0
      (Nat.zero_le _) (Nat.zero_le _)).1
    simp only [Nat.zero_mul, Nat.add_zero] at hv
    show Vec3.add (Sphere.vertexPosition (Sphere.generateVertices _ _) 0) _ = _
    rw [hv]
    simp only [Sphere.vertexRecord, List.getD_cons_zero, List.getD_cons_succ, Vec3.add,
      Nat.cast_zero, zero_mul, sub_zero, Real.cos_pi_div_two, Real.sin_pi_div_two,
      Real.cos_zero, Real.sin_zero, mul_zero, mul_one, zero_add]
    have hp : (Sphere.new (Libm.mk Real.pi Real.cos Real.sin Real.sqrt) ⟨0, 0, -2⟩ (1 / 2) 36
        18).position = (⟨0, 0, -2⟩ : Vec3 ℝ) := rfl
    rw [hp]
    norm_num
  · show Real.sqrt _ = _
    simp only [Vec3.sub, Vec3.dot, Sphere.getPosition]
    show Real.sqrt ((0 - 0) * (0 - 0) + (0 - 0) * (0 - 0) + (-7 / 2 - -2) * (-7 / 2 - -2))
      = 3 / 2
    rw [show ((0 : ℝ) - 0) * (0 - 0) + (0 - 0) * (0 - 0) + (-7 / 2 - -2) * (-7 / 2 - -2)
      = 3 / 2 * (3 / 2) by norm_num]
    exact Real.sqrt_mul_self (by norm_num)

/-- The theorem `render_draws_at_twice_position` at the sphere of radius 2 at `(1,2,3)` with
three sectors and two stacks: its vertex 5 is drawn at distance 2 from `(2,4,6)`. -/
theorem render_draws_at_twice_position_witness :
    Vec3.length (Libm.mk Real.pi Real.cos Real.sin Real.sqrt)
      (Vec3.sub
        (sphereVertexShader_FragPos
          (Sphere.generateVertices (Libm.mk Real.pi Real.cos Real.sin Real.sqrt)
            (Sphere.new (Libm.mk Real.pi Real.cos Real.sin Real.sqrt) ⟨1, 2, 3⟩ 2 3
              2)).modelMatrix
          (Sphere.vertexPosition
            (Sphere.generateVertices (Libm.mk Real.pi Real.cos Real.sin Real.sqrt)
              (Sphere.new (Libm.mk Real.pi Real.cos Real.sin Real.sqrt) ⟨1, 2, 3⟩ 2 3 2)) 5))
        (Vec3.smul 2 (Sphere.getPosition
          (Sphere.generateVertices (Libm.mk Real.pi Real.cos Real.sin Real.sqrt)
            (Sphere.new (Libm.mk Real.pi Real.cos Real.sin Real.sqrt) ⟨1, 2, 3⟩ 2 3 2)))))
      = 2 :=
  (render_draws_at_twice_position
    (Sphere.new (Libm.mk Real.pi Real.cos Real.sin Real.sqrt) ⟨1, 2, 3⟩ 2 3 2)
    (by show (0 : ℝ) < 2; norm_num) 5 (by show 5 < (2 + 1) * (3 + 1); decide)).1.2

end SphereDrawing

section ResolutionOrder

/-- A successful fold in `Except` keeps every relation that is reflexive, transitive and kept
by each successful step. -/
theorem foldlM_ok_rel {σ α ε : Type} (f : σ → α → Except ε σ) (R : σ → σ → Prop)
    (hrefl : ∀ s, R s s) (htrans : ∀ a b c, R a b → R b c → R a c)
    (hstep : ∀ s a s', f s a = Except.ok s' → R s s') :
    ∀ (l : List α) (s s' : σ), l.foldlM f s = Except.ok s' → R s s' := by
  intro l
  induction l with
  | nil =>
    intro s s' h
    have : s = s' := Except.ok.inj h
    rw [this]
    exact hrefl s'
  | cons a l ih =>
    intro s s' h
    rw [List.foldlM_cons] at h
    cases h1 : f s a with
    | error e =>
      rw [h1] at h
      exact absurd h (by intro h'; cases h')
    | ok s1 =>
      rw [h1] at h
      exact htrans _ _ _ (hstep s a s1 h1) (ih s1 s' h)

/-- A successful fold over `l1 ++ l2` is a successful fold over `l1` followed by one over
`l2`. -/
theorem foldlM_append_ok {σ α ε : Type} (f : σ → α → Except ε σ) (l1 l2 : List α)
    (s s2 : σ) (h : (l1 ++ l2).foldlM f s = Except.ok s2) :
    ∃ s1, l1.foldlM f s = Except.ok s1 ∧ l2.foldlM f s1 = Except.ok s2 := by
  rw [List.foldlM_append] at h
  cases h1 : l1.foldlM f s with
  | error e =>
    rw [h1] at h
    exact absurd h (by intro h'; cases h')
  | ok s1 =>
    rw [h1] at h
    exact ⟨s1, rfl, h⟩

variable {K : Type} [Zero K] [One K]

/-- Every line that is read leaves the vertices and indices pushed so far in place: they
are a front part of the lists after the line. -/
theorem parseLine_prefix (P : FloatReader K) (st : LoadState K) (line : List Char)
    (st' : LoadState K) (h : parseLine P st line = Except.ok st') :
    st.finalVertices <+: st'.finalVertices ∧ st.indices <+: st'.indices := by
  by_cases hf : lineKeyword line = ['f']
  · rw [parseLine_face P st line hf] at h
    refine foldlM_ok_rel pushFaceVertex
      (fun a b => a.finalVertices <+: b.finalVertices ∧ a.indices <+: b.indices)
      (fun s => ⟨List.prefix_refl _, List.prefix_refl _⟩)
      (fun a b c hab hbc => ⟨hab.1.trans hbc.1, hab.2.trans hbc.2⟩) ?_ _ st st' h
    intro s g s' hs
    unfold pushFaceVertex at hs
    cases hv : parseFaceVertex s.vertices s.normals s.texCoords g with
    | error e =>
      rw [hv] at hs
      exact absurd hs (by intro h'; cases h')
    | ok v =>
      rw [hv] at hs
      have hs' := Except.ok.inj hs
      rw [← hs']
      exact ⟨List.prefix_append _ _, List.prefix_append _ _⟩
  · obtain ⟨st1, h1, hfv, hix⟩ := parseLine_other P st line hf
    rw [h1] at h
    have hst := Except.ok.inj h
    rw [← hst, hfv, hix]
    exact ⟨List.prefix_refl _, List.prefix_refl _⟩

/-- An index beyond the entries read so far resolves to the fallback value. -/
theorem lookupOr_beyond {α : Type} (list : List α) (fallback : α) (s : List Char) (p : Int)
    (hs : stoi s = Except.ok p) (hp : (list.length : Int) < p) :
    lookupOr list (i32 (p - 1)) fallback = fallback := by
  have hr := stoi_ok_range hs
  rw [lookupOr_i32_pred list fallback p (by omega) hr.2]
  unfold resolveIndex
  rw [if_neg (by omega)]

/-- C29. Face indices are resolved when the face line is read, against the `v`, `vt`, `vn`
entries read so far.  (1) A corner `p/t/n` whose three indices lie beyond the entries read
so far (entries that only later lines define) gets the defaults: position `(0,0,0)`,
texture coordinate `(0,0)`, normal `(0,1,0)`.  (2) Lines read later never change what was
pushed: after a successful load of `earlier ++ later`, the vertices and indices present
after `earlier` are a front part of the final lists.  (3) The same four lines in two orders
load differently, for every float reader: with the definitions first the three corners hold
the values read from the `v`, `vn`, `vt` lines, with the face line first they hold the
defaults. -/
theorem loadModel_resolves_against_earlier_lines (P : FloatReader K) (gl : GLState)
    (st st2 : LoadState K) (earlier later : List (List Char)) (sp sq sn : List Char)
    (p t n : Int) :
    ('/' ∉ sp → '/' ∉ sq → '\n' ∉ sn →
      stoi sp = Except.ok p → stoi sq = Except.ok t → stoi sn = Except.ok n →
      (st.vertices.length : Int) < p → (st.texCoords.length : Int) < t →
      (st.normals.length : Int) < n →
      parseFaceVertex st.vertices st.normals st.texCoords (sp ++ '/' :: (sq ++ '/' :: sn))
        = Except.ok { position := ⟨0, 0, 0⟩, normal := ⟨0, 1, 0⟩, texCoords := ⟨0, 0⟩ }) ∧
    ((earlier ++ later).foldlM (parseLine P) st = Except.ok st2 →
      ∃ st1, earlier.foldlM (parseLine P) st = Except.ok st1 ∧
        st1.finalVertices <+: st2.finalVertices ∧ st1.indices <+: st2.indices) ∧
    (fileLines definitionsFirstObj
        = ["v 1 2 3".toList, "vt 4 5".toList, "vn 6 7 8".toList,
            "f 1/1/1 1/1/1 1/1/1".toList] ∧
      fileLines faceFirstObj
        = ["f 1/1/1 1/1/1 1/1/1".toList, "v 1 2 3".toList, "vt 4 5".toList,
            "vn 6 7 8".toList] ∧
      loadModel P (some definitionsFirstObj) gl
        = Except.ok (Prod.map (fun mesh => [mesh]) id (Mesh.new
            (List.replicate 3
              ⟨P.vec3 ⟨" 1 2 3".toList, false, false⟩, P.vec3 ⟨" 6 7 8".toList, false, false⟩,
                P.vec2 ⟨" 4 5".toList, false, false⟩⟩) [0, 1, 2] gl)) ∧
      loadModel P (some faceFirstObj) gl
        = Except.ok (Prod.map (fun mesh => [mesh]) id (Mesh.new
            (List.replicate 3 ⟨⟨0, 0, 0⟩, ⟨0, 1, 0⟩, ⟨0, 0⟩⟩) [0, 1, 2] gl))) := by
  refine ⟨?_, ?_, by decide, by decide, rfl, rfl⟩
  · intro h1 h2 h3 hp ht hn lp lt ln
    rw [parseFaceVertex_p_t_n st.vertices st.normals st.texCoords sp sq sn p t n h1 h2 h3
      hp ht hn, lookupOr_beyond _ _ sp p hp lp, lookupOr_beyond _ _ sq t ht lt,
      lookupOr_beyond _ _ sn n hn ln]
  · intro h
    obtain ⟨st1, h1, h2⟩ := foldlM_append_ok (parseLine P) earlier later st st2 h
    have hrel := foldlM_ok_rel (parseLine P)
      (fun a b => a.finalVertices <+: b.finalVertices ∧ a.indices <+: b.indices)
      (fun s => ⟨List.prefix_refl _, List.prefix_refl _⟩)
      (fun a b c hab hbc => ⟨hab.1.trans hbc.1, hab.2.trans hbc.2⟩)
      (fun s line s' hs => parseLine_prefix P s line s' hs) later st1 st2 h2
    exact ⟨st1, h1, hrel⟩

/-- C29 with a float reader that returns `(1,2,3)` and `(4,5)`: the corner `1/1/1` read
before any definition gets the defaults, and the two orders of the four lines load
different meshes. -/
theorem loadModel_resolves_against_earlier_lines_witness :
    parseFaceVertex ([] : List (Vec3 ℚ)) [] [] "1/1/1".toList
      = Except.ok { position := ⟨0, 0, 0⟩, normal := ⟨0, 1, 0⟩, texCoords := ⟨0, 0⟩ } ∧
    loadModel (FloatReader.mk (fun _ => (⟨1, 2, 3⟩ : Vec3 ℚ)) (fun _ => ⟨4, 5⟩))
        (some definitionsFirstObj) ⟨1, 1, []⟩
      ≠ loadModel (FloatReader.mk (fun _ => (⟨1, 2, 3⟩ : Vec3 ℚ)) (fun _ => ⟨4, 5⟩))
        (some faceFirstObj) ⟨1, 1, []⟩ := by
  have h := loadModel_resolves_against_earlier_lines
    (FloatReader.mk (fun _ => (⟨1, 2, 3⟩ : Vec3 ℚ)) (fun _ => ⟨4, 5⟩)) ⟨1, 1, []⟩
    ⟨[], [], [], [], []⟩ ⟨[], [], [], [], []⟩ [] [] ['1'] ['1'] ['1'] 1 1 1
  refine ⟨h.1 (by decide) (by decide) (by decide) rfl rfl rfl (by decide) (by decide)
    (by decide), ?_⟩
  rw [h.2.2.2.2.1, h.2.2.2.2.2]
  intro heq
  have hv := congrArg (fun r => (r.1.head?.map
    (fun mesh => (mesh.vertices.head?.map (fun v => v.position.x))))) (Except.ok.inj heq)
  simp [Mesh.new, GLState.genVertexArray, GLState.genBuffer, List.replicate] at hv

end ResolutionOrder

section ModelConstruction

/-- Over the reals the Euler quaternion of the angles `(0,0,0)` is the identity
quaternion. -/
theorem eulerQuat_zero :
    Model.eulerQuat (Libm.mk Real.pi Real.cos Real.sin Real.sqrt) (⟨0, 0, 0⟩ : Vec3 ℝ)
      = ⟨1, 0, 0, 0⟩ := by
  simp [Model.eulerQuat, glm.angleAxis, glm.radians, Quat.mul]

/-- C30 fails on the code.  A newly constructed `Model` has position `(0,0,0)`, rotation
`(0,0,0)` and scale `(1,1,1)`, but the constructor never assigns `useQuaternion` (nor
`rotationQuat`): the flag holds an indeterminate value.  When that value is false the model
matrix is the identity; when it is true the matrix is that of the indeterminate quaternion,
for `(w,x,y,z) = (0,1,0,0)` the matrix `diag(1, −1, −1, 1)`, which is not the identity. -/
theorem Model_new_flag_indeterminate (P : FloatReader ℝ) (gl : GLState) (q : Quat ℝ)
    (flag : Bool) (file : Option (List Char)) (m : Model ℝ) (gl' : GLState) :
    (Model.new P file gl q flag = Except.ok (m, gl') →
      m.position = ⟨0, 0, 0⟩ ∧ m.rotation = ⟨0, 0, 0⟩ ∧ m.scale = ⟨1, 1, 1⟩ ∧
      m.rotationQuat = q ∧ m.useQuaternion = flag ∧
      (flag = false →
        Model.getModelMatrix (Libm.mk Real.pi Real.cos Real.sin Real.sqrt) m
          = Mat4.identity)) ∧
    Model.new P none gl q flag
      = Except.ok (⟨[], ⟨0, 0, 0⟩, ⟨0, 0, 0⟩, ⟨1, 1, 1⟩, q, flag⟩, gl) ∧
    Model.getModelMatrix (Libm.mk Real.pi Real.cos Real.sin Real.sqrt)
        ⟨[], ⟨0, 0, 0⟩, ⟨0, 0, 0⟩, ⟨1, 1, 1⟩, ⟨0, 1, 0, 0⟩, true⟩
      = ⟨⟨1, 0, 0, 0⟩, ⟨0, -1, 0, 0⟩, ⟨0, 0, -1, 0⟩, ⟨0, 0, 0, 1⟩⟩ ∧
    (⟨⟨1, 0, 0, 0⟩, ⟨0, -1, 0, 0⟩, ⟨0, 0, -1, 0⟩, ⟨0, 0, 0, 1⟩⟩ : Mat4 ℝ) ≠ Mat4.identity := by
  refine ⟨?_, rfl, ?_, ?_⟩
  · intro h
    unfold Model.new at h
    cases hl : loadModel P file gl with
    | error e =>
      rw [hl] at h
      exact absurd h (by intro h'; cases h')
    | ok r =>
      obtain ⟨meshes, gl1⟩ := r
      rw [hl] at h
      have hm := congrArg Prod.fst (Except.ok.inj h)
      simp only at hm
      rw [← hm]
      refine ⟨rfl, rfl, rfl, rfl, rfl, ?_⟩
      intro hflag
      subst hflag
      simp [Model.getModelMatrix, eulerQuat_zero, Vec3.splat, glm.translate, glm.scale,
        glm.mat4_cast, Mat4.mul, Mat4.mulVec, Mat4.identity, Vec4.add, Vec4.muls]
  · simp [Model.getModelMatrix, glm.translate, glm.scale, glm.mat4_cast, Mat4.mul,
      Mat4.mulVec, Mat4.identity, Vec4.add, Vec4.muls]
    norm_num
  · intro h
    have h1 := congrArg (fun M4 : Mat4 ℝ => M4.c1.y) h
    simp only [Mat4.identity] at h1
    norm_num at h1

/-- The theorem `Model_new_flag_indeterminate` at a path that cannot be opened, with the
indeterminate flag true and the indeterminate quaternion `(0,1,0,0)`: the new model is in
quaternion mode. -/
theorem Model_new_flag_indeterminate_witness :
    Model.new (FloatReader.mk (fun _ => (⟨0, 0, 0⟩ : Vec3 ℝ)) (fun _ => ⟨0, 0⟩)) none
        ⟨1, 1, []⟩ ⟨0, 1, 0, 0⟩ true
      = Except.ok (⟨[], ⟨0, 0, 0⟩, ⟨0, 0, 0⟩, ⟨1, 1, 1⟩, ⟨0, 1, 0, 0⟩, true⟩, ⟨1, 1, []⟩) ∧
    (⟨[], ⟨0, 0, 0⟩, ⟨0, 0, 0⟩, ⟨1, 1, 1⟩, ⟨0, 1, 0, 0⟩, true⟩ : Model ℝ).useQuaternion
      = true :=
  ⟨rfl, ((Model_new_flag_indeterminate
    (FloatReader.mk (fun _ => (⟨0, 0, 0⟩ : Vec3 ℝ)) (fun _ => ⟨0, 0⟩)) ⟨1, 1, []⟩
    ⟨0, 1, 0, 0⟩ true none ⟨[], ⟨0, 0, 0⟩, ⟨0, 0, 0⟩, ⟨1, 1, 1⟩, ⟨0, 1, 0, 0⟩, true⟩
    ⟨1, 1, []⟩).1 rfl).2.2.2.2.1⟩

end ModelConstruction

section Binary32Cases

set_option maxRecDepth 100000

/-- C13 fails in binary32.  The line through `o = (0,0,0)` with direction `d = (0,0,−1)`
passes the centre `c = (2,0,−8192)` at perpendicular distance 2, greater than the radius 1,
and `raySphereIntersection` reports a hit at `t = 8192 = 1·2^13`: the sum
`4 + 8192²` rounds to `8192²`, the discriminant is 0. -/
theorem raySphereIntersection32_far_line_counterexample :
    Vec3.map (fun q : ℚ => (q : ℝ)) (Vec3.toRat32 ⟨⟨0, 0⟩, ⟨0, 0⟩, ⟨-1, 0⟩⟩) ≠ ⟨0, 0, 0⟩ ∧
    ((F32.toRat ⟨1, 0⟩ : ℚ) : ℝ)
      < perpendicularDistance (Libm.mk Real.pi Real.cos Real.sin Real.sqrt)
          (Vec3.map (fun q : ℚ => (q : ℝ)) (Vec3.toRat32 ⟨⟨0, 0⟩, ⟨0, 0⟩, ⟨0, 0⟩⟩))
          (Vec3.map (fun q : ℚ => (q : ℝ)) (Vec3.toRat32 ⟨⟨0, 0⟩, ⟨0, 0⟩, ⟨-1, 0⟩⟩))
          (Vec3.map (fun q : ℚ => (q : ℝ)) (Vec3.toRat32 ⟨⟨1, 1⟩, ⟨0, 0⟩, ⟨-1, 13⟩⟩)) ∧
    raySphereIntersection32 ⟨⟨0, 0⟩, ⟨0, 0⟩, ⟨0, 0⟩⟩ ⟨⟨0, 0⟩, ⟨0, 0⟩, ⟨-1, 0⟩⟩
      ⟨⟨1, 1⟩, ⟨0, 0⟩, ⟨-1, 13⟩⟩ ⟨1, 0⟩ = some ⟨1, 13⟩ := by
  refine ⟨?_, ?_, by decide⟩
  · intro h
    have hz := congrArg Vec3.z h
    simp [Vec3.map, Vec3.toRat32, F32.toRat] at hz
  have hsqrt : Real.sqrt 4 = 2 := by
    rw [show (4 : ℝ) = 2 * 2 by norm_num]
    exact Real.sqrt_mul_self (by norm_num)
  simp only [perpendicularDistance, Vec3.length, Vec3.sub, Vec3.dot, rayPoint, Vec3.add,
    Vec3.smul, Vec3.map, Vec3.toRat32, F32.toRat]
  norm_num [hsqrt]

/-- C12 fails in binary32.  The origin
`o = (3485831·2^-22, 2332631·2^-22, 0) ≈ (0.8310869, 0.5561426, 0)` lies strictly inside the
unit sphere around `c = (0,0,0)`, the direction `d = (1,0,0)` is not zero, and
`raySphereIntersection` reports no hit: `|o|² − 1` rounds to 0, so the larger root is
computed as 0 and the test `t > 0` fails. -/
theorem raySphereIntersection32_inside_counterexample :
    Vec3.map (fun q : ℚ => (q : ℝ)) (Vec3.toRat32 ⟨⟨1, 0⟩, ⟨0, 0⟩, ⟨0, 0⟩⟩) ≠ ⟨0, 0, 0⟩ ∧
    Vec3.length (Libm.mk Real.pi Real.cos Real.sin Real.sqrt)
        (Vec3.sub
          (Vec3.map (fun q : ℚ => (q : ℝ))
            (Vec3.toRat32 ⟨⟨3485831, -22⟩, ⟨2332631, -22⟩, ⟨0, 0⟩⟩))
          (Vec3.map (fun q : ℚ => (q : ℝ)) (Vec3.toRat32 ⟨⟨0, 0⟩, ⟨0, 0⟩, ⟨0, 0⟩⟩)))
      < ((F32.toRat ⟨1, 0⟩ : ℚ) : ℝ) ∧
    raySphereIntersection32 ⟨⟨3485831, -22⟩, ⟨2332631, -22⟩, ⟨0, 0⟩⟩
      ⟨⟨1, 0⟩, ⟨0, 0⟩, ⟨0, 0⟩⟩ ⟨⟨0, 0⟩, ⟨0, 0⟩, ⟨0, 0⟩⟩ ⟨1, 0⟩ = none := by
  refine ⟨?_, ?_, by decide⟩
  · intro h
    have hx := congrArg Vec3.x h
    simp [Vec3.map, Vec3.toRat32, F32.toRat] at hx
  · simp only [Vec3.length, Vec3.sub, Vec3.dot, Vec3.map, Vec3.toRat32, F32.toRat]
    rw [Real.sqrt_lt' (by norm_num)]
    norm_num

/-- C14 fails in binary32.  With `o = (0,0,3)`, the non-zero direction
`d = (1/256, 27/256, −1)`, the scale `k = 3`, the centre
`c = (5404499·2^-23, 8169039·2^-21, −277965·2^-13) ≈ (0.6442665, 3.8953013, −33.9312744)`
and the radius `1/2`: the products `k·d = (3/256, 81/256, −3)` are exact,
`raySphereIntersection` reports no hit for the direction `d` and a hit at
`t = 12909099·2^-20 ≈ 12.311` for the direction `k·d`. -/
theorem raySphereIntersection32_scale_counterexample :
    Vec3.map (fun q : ℚ => (q : ℝ)) (Vec3.toRat32 ⟨⟨1, -8⟩, ⟨27, -8⟩, ⟨-1, 0⟩⟩)
      ≠ ⟨0, 0, 0⟩ ∧
    (0 : ℚ) < F32.toRat ⟨3, 0⟩ ∧
    (⟨F32.mul ⟨3, 0⟩ ⟨1, -8⟩, F32.mul ⟨3, 0⟩ ⟨27, -8⟩, F32.mul ⟨3, 0⟩ ⟨-1, 0⟩⟩ : Vec3 F32)
      = ⟨⟨3, -8⟩, ⟨81, -8⟩, ⟨-3, 0⟩⟩ ∧
    Vec3.toRat32 ⟨⟨3, -8⟩, ⟨81, -8⟩, ⟨-3, 0⟩⟩
      = Vec3.smul (F32.toRat ⟨3, 0⟩) (Vec3.toRat32 ⟨⟨1, -8⟩, ⟨27, -8⟩, ⟨-1, 0⟩⟩) ∧
    raySphereIntersection32 ⟨⟨0, 0⟩, ⟨0, 0⟩, ⟨3, 0⟩⟩ ⟨⟨1, -8⟩, ⟨27, -8⟩, ⟨-1, 0⟩⟩
      ⟨⟨5404499, -23⟩, ⟨8169039, -21⟩, ⟨-277965, -13⟩⟩ ⟨1, -1⟩ = none ∧
    raySphereIntersection32 ⟨⟨0, 0⟩, ⟨0, 0⟩, ⟨3, 0⟩⟩ ⟨⟨3, -8⟩, ⟨81, -8⟩, ⟨-3, 0⟩⟩
      ⟨⟨5404499, -23⟩, ⟨8169039, -21⟩, ⟨-277965, -13⟩⟩ ⟨1, -1⟩
      = some ⟨12909099, -20⟩ := by
  refine ⟨?_, ?_, by decide, ?_, by decide, by decide⟩
  · intro h
    have hz := congrArg Vec3.z h
    simp [Vec3.map, Vec3.toRat32, F32.toRat] at hz
  · norm_num [F32.toRat]
  · simp only [Vec3.toRat32, Vec3.smul, F32.toRat]
    norm_num

/-- The enlarged hit test of the click handler in binary32.  For the test sphere of `main`
(centre `(0,0,−2)`, radius `1/2`, so hit radius `1/2 + 1 = 3/2`) and the camera at
`(−(3/2 + 2^-23), 0, 3)` looking along `(0,0,−1)`, the line of sight passes the centre at
distance `3/2 + 2^-23`, greater than the hit radius, and `raySphereIntersection` reports a
hit at `t = 5`. -/
theorem raySphereIntersection32_grazing_click :
    F32.add ⟨1, -1⟩ ⟨1, 0⟩ = ⟨3, -1⟩ ∧
    ((F32.toRat ⟨3, -1⟩ : ℚ) : ℝ)
      < perpendicularDistance (Libm.mk Real.pi Real.cos Real.sin Real.sqrt)
          (Vec3.map (fun q : ℚ => (q : ℝ)) (Vec3.toRat32 ⟨⟨-12582913, -23⟩, ⟨0, 0⟩, ⟨3, 0⟩⟩))
          (Vec3.map (fun q : ℚ => (q : ℝ)) (Vec3.toRat32 ⟨⟨0, 0⟩, ⟨0, 0⟩, ⟨-1, 0⟩⟩))
          (Vec3.map (fun q : ℚ => (q : ℝ)) (Vec3.toRat32 ⟨⟨0, 0⟩, ⟨0, 0⟩, ⟨-1, 1⟩⟩)) ∧
    raySphereIntersection32 ⟨⟨-12582913, -23⟩, ⟨0, 0⟩, ⟨3, 0⟩⟩ ⟨⟨0, 0⟩, ⟨0, 0⟩, ⟨-1, 0⟩⟩
      ⟨⟨0, 0⟩, ⟨0, 0⟩, ⟨-1, 1⟩⟩ ⟨3, -1⟩ = some ⟨5, 0⟩ := by
  refine ⟨by decide, ?_, by decide⟩
  simp only [perpendicularDistance, Vec3.length, Vec3.sub, Vec3.dot, rayPoint, Vec3.add,
    Vec3.smul, Vec3.map, Vec3.toRat32, F32.toRat]
  rw [Real.lt_sqrt (by norm_num)]
  norm_num

end Binary32Cases

section SphereBuffers

variable {K : Type} [Field K]

/-- The vertex buffer that `generateVertices` writes is the spec's vertex buffer of the
sphere's five parameters, whatever the buffers held before. -/
theorem generateVertices_spec_vertices (M : Libm K) (s : Sphere K) :
    (Sphere.generateVertices M s).vertices
      = specVertices M s.position s.radius s.color s.sectorCount s.stackCount := by
  rw [generateVertices_vertices]
  rfl

/-- The index buffer that `generateVertices` writes is the spec's index buffer of the two
counts, when the vertex count fits `unsigned int`. -/
theorem generateVertices_spec_indices (M : Libm K) (s : Sphere K)
    (hbound : (s.stackCount + 1) * (s.sectorCount + 1) < 4294967296) :
    (Sphere.generateVertices M s).indices = specIndices s.sectorCount s.stackCount := by
  by_cases hst : 1 ≤ s.stackCount
  · exact generateVertices_indices M s hst hbound
  · have h0 : s.stackCount = 0 := by omega
    simp [Sphere.generateVertices, specIndices, h0]

/-- The parameters and the buffers after one method call: the counts stay, the three other
parameters are those of `paramsAfter`, and buffers that are the generated ones stay so. -/
theorem step_spec (M : Libm K) (st : Sphere K × GLState) (op : SphereOp K)
    (hv : st.1.vertices = (Sphere.generateVertices M st.1).vertices)
    (hi : st.1.indices = (Sphere.generateVertices M st.1).indices) :
    ((Sphere.step M st op).1.position, (Sphere.step M st op).1.radius,
        (Sphere.step M st op).1.color)
      = paramsAfter [op] (st.1.position, st.1.radius, st.1.color) ∧
    (Sphere.step M st op).1.sectorCount = st.1.sectorCount ∧
    (Sphere.step M st op).1.stackCount = st.1.stackCount ∧
    (Sphere.step M st op).1.vertices
      = (Sphere.generateVertices M (Sphere.step M st op).1).vertices ∧
    (Sphere.step M st op).1.indices
      = (Sphere.generateVertices M (Sphere.step M st op).1).indices := by
  have hc := step_consistent M st op ⟨hv, hi⟩
  refine ⟨?_, ?_, ?_, hc.1, hc.2⟩
  · cases op with
    | setup => rfl
    | render =>
      show ((Sphere.render st.1 st.2).1.position, (Sphere.render st.1 st.2).1.radius,
        (Sphere.render st.1 st.2).1.color) = _
      unfold Sphere.render
      cases st.1.isSetup <;> rfl
    | setPosition p =>
      obtain ⟨h1, h2, h3, _, _⟩ := setPosition_fields M p st.1 st.2
      exact Prod.ext h1 (Prod.ext h2 h3)
    | setRadius r =>
      obtain ⟨h1, h2, h3, _, _⟩ := setRadius_fields M r st.1 st.2
      exact Prod.ext h1 (Prod.ext h2 h3)
    | setColor c =>
      obtain ⟨h1, h2, h3, _, _⟩ := setColor_fields M c st.1 st.2
      exact Prod.ext h1 (Prod.ext h2 h3)
  · cases op with
    | setup => rfl
    | render =>
      show (Sphere.render st.1 st.2).1.sectorCount = _
      unfold Sphere.render
      cases st.1.isSetup <;> rfl
    | setPosition p => exact (setPosition_fields M p st.1 st.2).2.2.2.1
    | setRadius r => exact (setRadius_fields M r st.1 st.2).2.2.2.1
    | setColor c => exact (setColor_fields M c st.1 st.2).2.2.2.1
  · cases op with
    | setup => rfl
    | render =>
      show (Sphere.render st.1 st.2).1.stackCount = _
      unfold Sphere.render
      cases st.1.isSetup <;> rfl
    | setPosition p => exact (setPosition_fields M p st.1 st.2).2.2.2.2
    | setRadius r => exact (setRadius_fields M r st.1 st.2).2.2.2.2
    | setColor c => exact (setColor_fields M c st.1 st.2).2.2.2.2

/-- The parameters and the buffers after a sequence of method calls. -/
theorem run_spec (M : Libm K) (ops : List (SphereOp K)) :
    ∀ st : Sphere K × GLState,
      st.1.vertices = (Sphere.generateVertices M st.1).vertices →
      st.1.indices = (Sphere.generateVertices M st.1).indices →
      ((Sphere.run M ops st).1.position, (Sphere.run M ops st).1.radius,
          (Sphere.run M ops st).1.color)
        = paramsAfter ops (st.1.position, st.1.radius, st.1.color) ∧
      (Sphere.run M ops st).1.sectorCount = st.1.sectorCount ∧
      (Sphere.run M ops st).1.stackCount = st.1.stackCount ∧
      (Sphere.run M ops st).1.vertices
        = (Sphere.generateVertices M (Sphere.run M ops st).1).vertices ∧
      (Sphere.run M ops st).1.indices
        = (Sphere.generateVertices M (Sphere.run M ops st).1).indices := by
  induction ops with
  | nil => intro st hv hi; exact ⟨rfl, rfl, rfl, hv, hi⟩
  | cons op rest ih =>
    intro st hv hi
    obtain ⟨hp, hs, ht, hv1, hi1⟩ := step_spec M st op hv hi
    obtain ⟨hp2, hs2, ht2, hv2, hi2⟩ := ih (Sphere.step M st op) hv1 hi1
    refine ⟨?_, hs2.trans hs, ht2.trans ht, hv2, hi2⟩
    exact hp2.trans (by rw [hp]; rfl)

/-- C15. Buffer consistency of a sphere, against the spec's generation as a function of the
five parameters alone.  After construction and after every sequence `ops` of `setup`,
`render`, `setPosition`, `setRadius` and `setColor` calls, the vertex list is the spec's
vertex buffer of the sphere's current position, radius, colour, sectors and stacks; these
current parameters are the last values set (or the constructor's, with colour white), and
the counts are the constructor's; the index list is the spec's index buffer of the two
counts when the vertex count fits `unsigned int`.  Each setter alone, on any sphere state
whatever its buffers held, leaves the spec's buffers of the new parameters: no vertex
reflects an older position, radius or colour. -/
theorem sphere_buffers_consistent (M : Libm K) (position : Vec3 K) (radius : K)
    (sectorCount stackCount : Nat) (ops : List (SphereOp K)) (gl : GLState)
    (s : Sphere K) (gl' : GLState) (P C : Vec3 K) (R : K) :
    (Sphere.run M ops (Sphere.new M position radius sectorCount stackCount, gl)).1.vertices
      = specVertices M
          (Sphere.run M ops
            (Sphere.new M position radius sectorCount stackCount, gl)).1.position
          (Sphere.run M ops (Sphere.new M position radius sectorCount stackCount, gl)).1.radius
          (Sphere.run M ops (Sphere.new M position radius sectorCount stackCount, gl)).1.color
          sectorCount stackCount ∧
    ((Sphere.run M ops (Sphere.new M position radius sectorCount stackCount, gl)).1.position,
      (Sphere.run M ops (Sphere.new M position radius sectorCount stackCount, gl)).1.radius,
      (Sphere.run M ops (Sphere.new M position radius sectorCount stackCount, gl)).1.color)
      = paramsAfter ops (position, radius, Vec3.splat 1) ∧
    (Sphere.run M ops
      (Sphere.new M position radius sectorCount stackCount, gl)).1.sectorCount = sectorCount ∧
    (Sphere.run M ops
      (Sphere.new M position radius sectorCount stackCount, gl)).1.stackCount = stackCount ∧
    ((stackCount + 1) * (sectorCount + 1) < 4294967296 →
      (Sphere.run M ops (Sphere.new M position radius sectorCount stackCount, gl)).1.indices
        = specIndices sectorCount stackCount) ∧
    (Sphere.setPosition M P s gl').1.vertices
      = specVertices M P s.radius s.color s.sectorCount s.stackCount ∧
    (Sphere.setRadius M R s gl').1.vertices
      = specVertices M s.position R s.color s.sectorCount s.stackCount ∧
    (Sphere.setColor M C s gl').1.vertices
      = specVertices M s.position s.radius C s.sectorCount s.stackCount ∧
    ((s.stackCount + 1) * (s.sectorCount + 1) < 4294967296 →
      (Sphere.setPosition M P s gl').1.indices = specIndices s.sectorCount s.stackCount ∧
      (Sphere.setRadius M R s gl').1.indices = specIndices s.sectorCount s.stackCount ∧
      (Sphere.setColor M C s gl').1.indices = specIndices s.sectorCount s.stackCount) := by
  obtain ⟨hp, hs, ht, hv, hi⟩ := run_spec M ops
    (Sphere.new M position radius sectorCount stackCount, gl) rfl rfl
  have hs' : (Sphere.run M ops
      (Sphere.new M position radius sectorCount stackCount, gl)).1.sectorCount
      = sectorCount := hs
  have ht' : (Sphere.run M ops
      (Sphere.new M position radius sectorCount stackCount, gl)).1.stackCount
      = stackCount := ht
  obtain ⟨p1, p2, p3, p4, p5⟩ := setPosition_fields M P s gl'
  obtain ⟨r1, r2, r3, r4, r5⟩ := setRadius_fields M R s gl'
  obtain ⟨c1, c2, c3, c4, c5⟩ := setColor_fields M C s gl'
  have vP := (setPosition_consistent M P s gl').1.trans (generateVertices_spec_vertices M _)
  have vR := (setRadius_consistent M R s gl').1.trans (generateVertices_spec_vertices M _)
  have vC := (setColor_consistent M C s gl').1.trans (generateVertices_spec_vertices M _)
  rw [p1, p2, p3, p4, p5] at vP
  rw [r1, r2, r3, r4, r5] at vR
  rw [c1, c2, c3, c4, c5] at vC
  refine ⟨?_, hp, hs', ht', ?_, vP, vR, vC, ?_⟩
  · rw [hv, generateVertices_spec_vertices, hs', ht']
  · intro hbound
    rw [hi, generateVertices_spec_indices M _ (by rw [hs', ht']; exact hbound), hs', ht']
  · intro hbound
    refine ⟨?_, ?_, ?_⟩
    · rw [(setPosition_consistent M P s gl').2,
        generateVertices_spec_indices M _ (by rw [p4, p5]; exact hbound), p4, p5]
    · rw [(setRadius_consistent M R s gl').2,
        generateVertices_spec_indices M _ (by rw [r4, r5]; exact hbound), r4, r5]
    · rw [(setColor_consistent M C s gl').2,
        generateVertices_spec_indices M _ (by rw [c4, c5]; exact hbound), c4, c5]

/-- Witness for C15 on a sphere of 3 sectors and 2 stacks: after `setPosition`, `setup` and
`setRadius` the index list is the spec's index buffer and the last values set are the
current parameters; `setRadius 2` alone leaves the spec's vertex buffer of radius 2. -/
theorem sphere_buffers_consistent_witness :
    (2 + 1) * (3 + 1) < 4294967296 ∧
    (Sphere.run (Libm.mk 3 id id id)
      [SphereOp.setPosition ⟨1, 2, 3⟩, SphereOp.setup, SphereOp.setRadius 2]
      (Sphere.new (Libm.mk 3 id id id) (⟨0, 0, 0⟩ : Vec3 ℚ) 1 3 2, ⟨1, 1, []⟩)).1.indices
      = specIndices 3 2 ∧
    (Sphere.setRadius (Libm.mk 3 id id id) 2
      (Sphere.new (Libm.mk 3 id id id) (⟨0, 0, 0⟩ : Vec3 ℚ) 1 3 2) ⟨1, 1, []⟩).1.vertices
      = specVertices (Libm.mk 3 id id id) (⟨0, 0, 0⟩ : Vec3 ℚ) 2 (Vec3.splat 1) 3 2 :=
  ⟨by decide,
    (sphere_buffers_consistent (Libm.mk 3 id id id) (⟨0, 0, 0⟩ : Vec3 ℚ) 1 3 2
      [SphereOp.setPosition ⟨1, 2, 3⟩, SphereOp.setup, SphereOp.setRadius 2] ⟨1, 1, []⟩
      (Sphere.new (Libm.mk 3 id id id) (⟨0, 0, 0⟩ : Vec3 ℚ) 1 3 2) ⟨1, 1, []⟩
      ⟨0, 0, 0⟩ ⟨0, 0, 0⟩ 2).2.2.2.2.1 (by decide),
    (sphere_buffers_consistent (Libm.mk 3 id id id) (⟨0, 0, 0⟩ : Vec3 ℚ) 1 3 2
      [] ⟨1, 1, []⟩
      (Sphere.new (Libm.mk 3 id id id) (⟨0, 0, 0⟩ : Vec3 ℚ) 1 3 2) ⟨1, 1, []⟩
      ⟨0, 0, 0⟩ ⟨0, 0, 0⟩ 2).2.2.2.2.2.2.1⟩

end SphereBuffers

end AimLab
